import Mathlib

/-!
# Interactive graphics programs

Shallow embeddings of four programs and proofs of properties of them: the
GLSL ray tracer `raytraceFS` of `project5_RayTracing-main/project6.js`
(`Shade`, `IntersectRay`, `RayTracer`), the 2D transformations of
`project2_Transformations-main/project2.js`, the image compositing of
`project1_ComposingImages-main/project1.js`, and the simulation step and
`setShininess` of `project6_Animations-main/project7.js`.  The definitions
of all programs come first, the proofs after them.

Modelling conventions.

* A JavaScript number, and a GLSL `float`, is an element of an arbitrary
  linearly ordered field `K`: arithmetic is exact, and neither rounding nor
  the values `NaN` and `Infinity` are modelled.  The definitions are
  computable, and can be run at `K = ℚ`.
* Division is that of the field, with `x / 0 = 0`.
* The simulation step `SimTimeStep` is the exception: its box collision
  compares values that may be `NaN` or infinite, so its numbers are those of
  `Animations.Number K`, a finite value of `K`, `Infinity`, `-Infinity` or
  `NaN`, with the arithmetic and the comparisons of JavaScript on them.
* A JavaScript array is a list.  Objects are values: two arguments of a
  function are never the same object.
* What a program takes from outside its source file is a parameter: the
  built-in functions `sqrt` and `pow` of GLSL (`Machine`), `Math.cos`,
  `Math.sin` and `Math.PI` (`MathLib`), the methods of the class `Vec3`
  (`Vec3Class`), the conversion of a value stored in `ImageData.data`.

# Ray tracer of `project5_RayTracing-main/project6.js`

* `length`, `normalize`, `dot`, `reflect`, `max` are defined as the GLSL
  specification defines them, from the `sqrt` of the `Machine`.
* `uniform` arrays are lists (`NUM_SPHERES`, `NUM_LIGHTS` are their lengths);
  the cube map lookup `textureCube( envMap, · ).rgb` is a function.
* An `inout` parameter is an argument that is also returned; a local that is
  declared and not assigned holds the value `Machine.undef`.
* The shader divides in `normalize`, and in `IntersectRay` by `2a`, where `a`
  is not zero (`dir_ne_zero_of_discriminant_pos`).
-/

namespace RayTracing

/-! ## Vectors -/

/-- GLSL `vec3`. -/
@[ext] structure Vec3 (K : Type) where
  x : K
  y : K
  z : K

/-- GLSL `vec4`. -/
@[ext] structure Vec4 (K : Type) where
  x : K
  y : K
  z : K
  w : K

section Vectors

variable {K : Type} [LinearOrderedField K]

instance : Zero (Vec3 K) := ⟨⟨0, 0, 0⟩⟩
instance : Add (Vec3 K) := ⟨fun a b => ⟨a.x + b.x, a.y + b.y, a.z + b.z⟩⟩
instance : Sub (Vec3 K) := ⟨fun a b => ⟨a.x - b.x, a.y - b.y, a.z - b.z⟩⟩
instance : Neg (Vec3 K) := ⟨fun a => ⟨-a.x, -a.y, -a.z⟩⟩
/-- Component-wise product `vec3 * vec3`. -/
instance : Mul (Vec3 K) := ⟨fun a b => ⟨a.x * b.x, a.y * b.y, a.z * b.z⟩⟩

/-- The product `vec3 * float`. -/
def Vec3.scale (v : Vec3 K) (k : K) : Vec3 K := ⟨v.x * k, v.y * k, v.z * k⟩

/-- The quotient `vec3 / float`. -/
def Vec3.div (v : Vec3 K) (k : K) : Vec3 K := ⟨v.x / k, v.y / k, v.z / k⟩

/-- The swizzle `.xzy`. -/
def Vec3.xzy (v : Vec3 K) : Vec3 K := ⟨v.x, v.z, v.y⟩

/-- The constructor `vec4( vec3, float )`. -/
def vec4 (v : Vec3 K) (w : K) : Vec4 K := ⟨v.x, v.y, v.z, w⟩

/-- GLSL `dot`. -/
def dot (a b : Vec3 K) : K := a.x * b.x + a.y * b.y + a.z * b.z

/-- GLSL `reflect(I, N) = I - 2 * dot(N, I) * N`. -/
def reflect (i n : Vec3 K) : Vec3 K := i - n.scale (2 * dot n i)

/-- Component-wise order on colours. -/
def Vec3.le (a b : Vec3 K) : Prop := a.x ≤ b.x ∧ a.y ≤ b.y ∧ a.z ≤ b.z

end Vectors

/-! ## Data model (lines 3-35 of the shader) -/

/-- Origin and direction of a ray. -/
structure Ray (K : Type) where
  pos : Vec3 K
  dir : Vec3 K

/-- Material: diffuse coefficient, specular coefficient, specular exponent. -/
structure Material (K : Type) where
  k_d : Vec3 K
  k_s : Vec3 K
  n : K

structure Sphere (K : Type) where
  center : Vec3 K
  radius : K
  mtl : Material K

structure Light (K : Type) where
  position : Vec3 K
  intensity : Vec3 K

/-- Distance along the ray, point, normal and material of an intersection. -/
structure HitInfo (K : Type) where
  t : K
  position : Vec3 K
  normal : Vec3 K
  mtl : Material K

/-- What the shader takes from its environment besides the uniforms: the
built-in functions `sqrt` and `pow`, and the content `undef` of a local
`HitInfo` that has been declared and not yet assigned. -/
structure Machine (K : Type) where
  sqrt : K → K
  pow : K → K → K
  undef : HitInfo K

/-- The uniforms `spheres`, `lights`, `envMap`, `bounceLimit`, and the loop
bound `MAX_BOUNCES`, a constant that is defined outside the shader text.
`envMap v` stands for `textureCube( envMap, v ).rgb`. -/
structure Scene (K : Type) where
  spheres : List (Sphere K)
  lights : List (Light K)
  envMap : Vec3 K → Vec3 K
  bounceLimit : Int
  MAX_BOUNCES : Nat

section Shader

variable {K : Type} [LinearOrderedField K]

/-- GLSL `length`. -/
def length (m : Machine K) (v : Vec3 K) : K := m.sqrt (dot v v)

/-- GLSL `normalize(v) = v / length(v)`. -/
def normalize (m : Machine K) (v : Vec3 K) : Vec3 K := v.div (length m v)

/-- The float literal `1e30`. -/
def tMax : K := 10 ^ 30

/-- The float literal `0.001`. -/
def eps : K := 1 / 1000

/-- Body of the loop of `IntersectRay` (lines 80-98) for the sphere `s`; the
state is the pair of `hit` and `foundHit`. -/
def intersectSphere (m : Machine K) (ray : Ray K) (st : HitInfo K × Bool) (s : Sphere K) :
    HitInfo K × Bool :=
  let oc := ray.pos - s.center
  let a := dot ray.dir ray.dir
  let b := 2 * dot oc ray.dir
  let c := dot oc oc - s.radius * s.radius
  let discriminant := b * b - 4 * a * c
  if discriminant > 0 then
    let temp := (-b - m.sqrt discriminant) / (2 * a)
    if temp < st.1.t ∧ temp > eps then
      let position := ray.pos + ray.dir.scale temp
      ({ t := temp
         position := position
         normal := normalize m (position - s.center)
         mtl := s.mtl }, true)
    else st
  else st

/-- `bool IntersectRay( inout HitInfo hit, Ray ray )` (lines 74-101): returns
`foundHit` and the final value of `hit`. -/
def IntersectRay (m : Machine K) (sc : Scene K) (hit : HitInfo K) (ray : Ray K) :
    Bool × HitInfo K :=
  let st := sc.spheres.foldl (intersectSphere m ray) ({ hit with t := tMax }, false)
  (st.2, st.1)

/-- Body of the loop of `Shade` (lines 46-65) for the light `l`; the state is
`color`. -/
def shadeLight (m : Machine K) (sc : Scene K) (mtl : Material K)
    (position normal view : Vec3 K) (color : Vec3 K) (l : Light K) : Vec3 K :=
  let lightDir := normalize m (l.position - position)
  let shadowRay : Ray K := { pos := position + lightDir.scale eps, dir := lightDir }
  let shadowHit := IntersectRay m sc m.undef shadowRay
  let inShadow := shadowHit.1 && decide (shadowHit.2.t < length m (l.position - position))
  if !inShadow then
    let halfwayDir := normalize m (lightDir + view)
    let diffuse := max (dot normal lightDir) 0
    let specular := m.pow (max (dot normal halfwayDir) 0) mtl.n
    color + (mtl.k_d.scale diffuse + mtl.k_s.scale specular) * l.intensity
  else color

/-- `vec3 Shade( Material mtl, vec3 position, vec3 normal, vec3 view )`
(lines 41-68). -/
def Shade (m : Machine K) (sc : Scene K) (mtl : Material K)
    (position normal view : Vec3 K) : Vec3 K :=
  sc.lights.foldl (shadeLight m sc mtl position normal view) 0

/-- The variables of the reflection loop of `RayTracer`: `clr`, `k_s`, `ray`,
`hit`, and two ghost variables that the shader does not have: `rays`, the
number of reflection rays passed to `IntersectRay` so far, and `ksLog`, the
values `k_s` has held so far, oldest first. -/
structure Bounce (K : Type) where
  clr : Vec3 K
  k_s : Vec3 K
  ray : Ray K
  hit : HitInfo K
  rays : Nat
  ksLog : List (Vec3 K)

/-- The reflection ray `r` of lines 124-125. -/
def reflectionRay (ray : Ray K) (hit : HitInfo K) : Ray K :=
  { pos := hit.position + hit.normal.scale eps, dir := reflect ray.dir hit.normal }

/-- The loop `for ( int bounce=0; bounce<MAX_BOUNCES; ++bounce )` of lines
116-140.  The first argument is `MAX_BOUNCES - bounce`, the number of
iterations the loop condition still allows; the second is `bounce`. -/
def reflectionLoop (m : Machine K) (sc : Scene K) : Nat → Int → Bounce K → Bounce K
  | 0, _, s => s
  | n + 1, bounce, s =>
    if bounce ≥ sc.bounceLimit then s
    else if s.k_s.x + s.k_s.y + s.k_s.z ≤ 0 then s
    else
      let r := reflectionRay s.ray s.hit
      let h := IntersectRay m sc m.undef r
      if h.1 then
        reflectionLoop m sc n (bounce + 1)
          { clr := s.clr + s.k_s * Shade m sc h.2.mtl h.2.position h.2.normal (normalize m (-r.dir))
            k_s := s.k_s * h.2.mtl.k_s
            ray := r
            hit := h.2
            rays := s.rays + 1
            ksLog := s.ksLog ++ [s.k_s * h.2.mtl.k_s] }
      else
        { s with clr := s.clr + s.k_s * sc.envMap r.dir.xzy, rays := s.rays + 1 }

/-- The branch of `RayTracer` taken when the primary ray hits (lines 110-140):
the loop variables when the loop is left. -/
def traceHit (m : Machine K) (sc : Scene K) (ray : Ray K) (hit : HitInfo K) : Bounce K :=
  let view := normalize m (-ray.dir)
  let clr := Shade m sc hit.mtl hit.position hit.normal view
  reflectionLoop m sc sc.MAX_BOUNCES 0
    { clr := clr, k_s := hit.mtl.k_s, ray := ray, hit := hit, rays := 0, ksLog := [hit.mtl.k_s] }

/-- `vec4 RayTracer( Ray ray )` (lines 106-145). -/
def RayTracer (m : Machine K) (sc : Scene K) (ray : Ray K) : Vec4 K :=
  let h := IntersectRay m sc m.undef ray
  if h.1 then vec4 (traceHit m sc ray h.2).clr 1
  else vec4 (sc.envMap ray.dir.xzy) 1

/-- Ghost observation of a run of `RayTracer`: the number of reflection rays
it passes to `IntersectRay`. -/
def reflectionRays (m : Machine K) (sc : Scene K) (ray : Ray K) : Nat :=
  let h := IntersectRay m sc m.undef ray
  if h.1 then (traceHit m sc ray h.2).rays else 0

/-- Ghost observation of a run of `RayTracer`: the successive values of the
attenuation factor `k_s` (empty when the primary ray misses). -/
def attenuations (m : Machine K) (sc : Scene K) (ray : Ray K) : List (Vec3 K) :=
  let h := IntersectRay m sc m.undef ray
  if h.1 then (traceHit m sc ray h.2).ksLog else []

/-! ## Quantities named by the properties -/

/-- Discriminant `b*b - 4*a*c` of the ray-sphere quadratic (lines 81-86). -/
def discriminant (ray : Ray K) (s : Sphere K) : K :=
  (2 * dot (ray.pos - s.center) ray.dir) * (2 * dot (ray.pos - s.center) ray.dir)
    - 4 * dot ray.dir ray.dir * (dot (ray.pos - s.center) (ray.pos - s.center) - s.radius * s.radius)

/-- Near root `(-b - sqrt(discriminant)) / (2a)` of the ray-sphere quadratic. -/
def nearRoot (m : Machine K) (ray : Ray K) (s : Sphere K) : K :=
  (-(2 * dot (ray.pos - s.center) ray.dir) - m.sqrt (discriminant ray s)) / (2 * dot ray.dir ray.dir)

/-- The near root of `s` is accepted below the bound `best`. -/
def acceptedBelow (m : Machine K) (ray : Ray K) (best : K) (s : Sphere K) : Prop :=
  discriminant ray s > 0 ∧ eps < nearRoot m ray s ∧ nearRoot m ray s < best

/-- The hit record that `IntersectRay` writes for sphere `s`. -/
def hitOf (m : Machine K) (ray : Ray K) (s : Sphere K) : HitInfo K :=
  { t := nearRoot m ray s
    position := ray.pos + ray.dir.scale (nearRoot m ray s)
    normal := normalize m (ray.pos + ray.dir.scale (nearRoot m ray s) - s.center)
    mtl := s.mtl }

/-- The near root of `s` is accepted: positive discriminant and
`0.001 < t < 1e30`. -/
def accepted (m : Machine K) (ray : Ray K) (s : Sphere K) : Prop :=
  discriminant ray s > 0 ∧ eps < nearRoot m ray s ∧ nearRoot m ray s < tMax

/-! ## Concrete inputs -/

/-- A machine with the given `sqrt` and `pow`, in which an unassigned
`HitInfo` holds zeros. -/
def machineOf (sqrt : K → K) (pow : K → K → K) : Machine K :=
  { sqrt := sqrt, pow := pow, undef := ⟨0, ⟨0, 0, 0⟩, ⟨0, 0, 0⟩, ⟨⟨0, 0, 0⟩, ⟨0, 0, 0⟩, 0⟩⟩ }

/-- The material of the test scenario: diffuse (1,0,0), specular (0,0,0). -/
def redMatte (n : K) : Material K := { k_d := ⟨1, 0, 0⟩, k_s := ⟨0, 0, 0⟩, n := n }

/-- The light of the test scenario: at (0,5,-5), of intensity (1,1,1). -/
def light10 : Light K := { position := ⟨0, 5, -5⟩, intensity := ⟨1, 1, 1⟩ }

/-- The test scenario: one sphere, centre (0,0,-5), radius 1, material
`redMatte`; the light `light10`.  The specular exponent, the environment,
`bounceLimit` and `MAX_BOUNCES` are left open. -/
def scene10 (n : K) (envMap : Vec3 K → Vec3 K) (bounceLimit : Int) (maxBounces : Nat) : Scene K :=
  { spheres := [{ center := ⟨0, 0, -5⟩, radius := 1, mtl := redMatte n }]
    lights := [light10]
    envMap := envMap
    bounceLimit := bounceLimit
    MAX_BOUNCES := maxBounces }

/-- The primary ray of the test scenario: from the origin in direction
(0,0,-1). -/
def ray10 : Ray K := { pos := ⟨0, 0, 0⟩, dir := ⟨0, 0, -1⟩ }

/-- A ray from the origin in direction (0,1,0); it passes `scene10` by. -/
def rayUp : Ray K := { pos := ⟨0, 0, 0⟩, dir := ⟨0, 1, 0⟩ }

/-! ## Forcing the specular coefficient to zero -/

/-- The material with its specular coefficient forced to (0,0,0). -/
def Material.noSpecular (mt : Material K) : Material K := { mt with k_s := 0 }

/-- The material with its diffuse coefficient forced to (0,0,0): shading
with it gives the specular highlight alone. -/
def Material.onlySpecular (mt : Material K) : Material K := { mt with k_d := 0 }

/-- The scene in which the specular coefficient of every sphere material is
forced to (0,0,0). -/
def zeroSpecular (sc : Scene K) : Scene K :=
  { sc with spheres := sc.spheres.map fun s => { s with mtl := s.mtl.noSpecular } }

/-- The specular highlight that `Shade` adds at the primary hit of `ray`:
`Shade` of the hit with the diffuse coefficient removed; zero when the ray
misses. -/
def primaryHighlight (m : Machine K) (sc : Scene K) (ray : Ray K) : Vec3 K :=
  let h := IntersectRay m sc m.undef ray
  if h.1 then
    Shade m sc h.2.mtl.onlySpecular h.2.position h.2.normal (normalize m (-ray.dir))
  else 0

/-- Adds a colour to the `rgb` part of a `vec4`. -/
def Vec4.addRGB (c : Vec4 K) (v : Vec3 K) : Vec4 K := ⟨c.x + v.x, c.y + v.y, c.z + v.z, c.w⟩

/-- A mirror-like material: diffuse (1,0,0), specular (1,1,1). -/
def redShiny (n : K) : Material K := { k_d := ⟨1, 0, 0⟩, k_s := ⟨1, 1, 1⟩, n := n }

/-- The sphere of `scene10` with the material `redShiny`, lit by one light
of intensity (1,1,1) at the origin. -/
def sceneShiny (n : K) (envMap : Vec3 K → Vec3 K) (bounceLimit : Int) (maxBounces : Nat) :
    Scene K :=
  { spheres := [{ center := ⟨0, 0, -5⟩, radius := 1, mtl := redShiny n }]
    lights := [{ position := ⟨0, 0, 0⟩, intensity := ⟨1, 1, 1⟩ }]
    envMap := envMap
    bounceLimit := bounceLimit
    MAX_BOUNCES := maxBounces }

/-! ## The terms of the lighting sum -/

/-- Direction from the surface point to the light (line 48). -/
def lightDir (m : Machine K) (position : Vec3 K) (l : Light K) : Vec3 K :=
  normalize m (l.position - position)

/-- The shadow ray of lines 50-54: origin `position + 0.001 * lightDir`,
direction `lightDir`. -/
def shadowRay (m : Machine K) (position : Vec3 K) (l : Light K) : Ray K :=
  { pos := position + (lightDir m position l).scale eps, dir := lightDir m position l }

/-- The light is shadowed: `IntersectRay` finds a hit on the shadow ray with
`t` less than the distance from `position` to the light. -/
def shadowed (m : Machine K) (sc : Scene K) (position : Vec3 K) (l : Light K) : Prop :=
  (IntersectRay m sc m.undef (shadowRay m position l)).1 = true ∧
    (IntersectRay m sc m.undef (shadowRay m position l)).2.t < length m (l.position - position)

instance (m : Machine K) (sc : Scene K) (position : Vec3 K) (l : Light K) :
    Decidable (shadowed m sc position l) := by
  unfold shadowed; infer_instance

/-- The Blinn-Phong term of one light:
`(k_d * max(dot(normal, lightDir), 0)
  + k_s * pow(max(dot(normal, normalize(lightDir + view)), 0), n)) * intensity`. -/
def blinnPhong (m : Machine K) (mtl : Material K) (position normal view : Vec3 K)
    (l : Light K) : Vec3 K :=
  (mtl.k_d.scale (max (dot normal (lightDir m position l)) 0) +
    mtl.k_s.scale
      (m.pow (max (dot normal (normalize m (lightDir m position l + view))) 0) mtl.n)) *
    l.intensity

/-- The term of one light in the lighting sum: zero when the light is
shadowed, its Blinn-Phong term otherwise. -/
def lightTerm (m : Machine K) (sc : Scene K) (mtl : Material K) (position normal view : Vec3 K)
    (l : Light K) : Vec3 K :=
  if shadowed m sc position l then 0 else blinnPhong m mtl position normal view l

/-- The point `q` lies on the surface of the sphere `s`. -/
def onSphere (s : Sphere K) (q : Vec3 K) : Prop :=
  dot (q - s.center) (q - s.center) = s.radius * s.radius

/-- A light of intensity (1,1,1) at (0,0,1), at distance 1 from the origin. -/
def lightAbove : Light K := { position := ⟨0, 0, 1⟩, intensity := ⟨1, 1, 1⟩ }

/-- One sphere of radius 1 centred at (0,0,`z`), with material `redMatte`,
and the light `lightAbove`. -/
def sceneBehind (z n : K) : Scene K :=
  { spheres := [{ center := ⟨0, 0, z⟩, radius := 1, mtl := redMatte n }]
    lights := [lightAbove]
    envMap := fun v => v
    bounceLimit := 0
    MAX_BOUNCES := 0 }

/-! ## The reflection loop -/

/-- Invariant of the reflection loop on the ghost log of `k_s`: the log ends
with the current `k_s`, which is non-negative; the log is non-increasing and
all its entries are non-negative. -/
def ksInv (s : Bounce K) : Prop :=
  s.ksLog.getLast? = some s.k_s ∧ Vec3.le 0 s.k_s ∧
    List.Chain' (fun k k' : Vec3 K => Vec3.le k' k) s.ksLog ∧ ∀ k ∈ s.ksLog, Vec3.le 0 k

/-! ## A scene with two spheres -/

/-- The sphere of `sceneShiny`: centre (0,0,-5), radius 1, material `redShiny`. -/
def sphereFront (n : K) : Sphere K := { center := ⟨0, 0, -5⟩, radius := 1, mtl := redShiny n }

/-- A sphere behind the origin: centre (0,0,5), radius 1, material `redMatte`. -/
def sphereBack (n : K) : Sphere K := { center := ⟨0, 0, 5⟩, radius := 1, mtl := redMatte n }

/-- Two spheres on the z axis, on either side of the origin, and no light:
the primary ray `ray10` hits `sphereFront` at (0,0,-4) and is reflected into
`sphereBack`. -/
def sceneTwo (n : K) : Scene K :=
  { spheres := [sphereFront n, sphereBack n]
    lights := []
    envMap := fun v => v
    bounceLimit := 1
    MAX_BOUNCES := 1 }

/-! ## A scene with two mirrors -/

/-- A half-mirror material: diffuse (1,0,0), specular (1/2,1/2,1/2). -/
def halfMirror (n : K) : Material K := { k_d := ⟨1, 0, 0⟩, k_s := ⟨1 / 2, 1 / 2, 1 / 2⟩, n := n }

/-- Two half-mirror spheres of radius 1 on the z axis, at (0,0,-5) and
(0,0,5), and no light: the primary ray `ray10` is reflected from the first
to the second and back, the loop allowing two bounces. -/
def sceneMirrors (n : K) : Scene K :=
  { spheres := [{ center := ⟨0, 0, -5⟩, radius := 1, mtl := halfMirror n },
      { center := ⟨0, 0, 5⟩, radius := 1, mtl := halfMirror n }]
    lights := []
    envMap := fun v => v
    bounceLimit := 2
    MAX_BOUNCES := 2 }

end Shader

end RayTracing

/-! # 2D transformations of `project2_Transformations-main/project2.js` -/

namespace Transformations

section Defs
variable {K : Type} [LinearOrderedField K]

/-- The part of the JavaScript `Math` object that `GetTransform` uses. -/
structure MathLib (K : Type) where
  PI : K
  cos : K → K
  sin : K → K

/-- The array read `a[i]`.  Outside the array JavaScript yields `undefined`;
the model yields 0. -/
def idx (a : List K) (i : Nat) : K := a.getD i 0

/-- `GetTransform(positionX, positionY, rotation, scale)` (lines 4-16). -/
def GetTransform (M : MathLib K) (positionX positionY rotation scale : K) : List K :=
  let radians := rotation * M.PI / 180
  let cos := M.cos radians
  let sin := M.sin radians
  [cos * scale, sin * scale, 0,
   -sin * scale, cos * scale, 0,
   positionX, positionY, 1]

/-- `ApplyTransform(trans1, trans2)` (lines 23-36). -/
def ApplyTransform (trans1 trans2 : List K) : List K :=
  [idx trans2 0 * idx trans1 0 + idx trans2 3 * idx trans1 1,
   idx trans2 1 * idx trans1 0 + idx trans2 4 * idx trans1 1,
   0,
   idx trans2 0 * idx trans1 3 + idx trans2 3 * idx trans1 4,
   idx trans2 1 * idx trans1 3 + idx trans2 4 * idx trans1 4,
   0,
   idx trans2 0 * idx trans1 6 + idx trans2 3 * idx trans1 7 + idx trans2 6,
   idx trans2 1 * idx trans1 6 + idx trans2 4 * idx trans1 7 + idx trans2 7,
   1]

/-- The 3x3 matrix that an array of 9 values denotes in column-major order:
the entry of row `i` and column `j` is the value of index `3 * j + i`. -/
def toMatrix (a : List K) : Matrix (Fin 3) (Fin 3) K :=
  Matrix.of fun i j => idx a (3 * j.val + i.val)

/-- The array is an affine 3x3 matrix: 9 values, third row 0, 0, 1. -/
def IsAffine (a : List K) : Prop :=
  a.length = 9 ∧ idx a 2 = 0 ∧ idx a 5 = 0 ∧ idx a 8 = 1

/-- The translation by (`tx`, `ty`). -/
def Translate (tx ty : K) : Matrix (Fin 3) (Fin 3) K := !![1, 0, tx; 0, 1, ty; 0, 0, 1]

/-- The rotation by `rotation` degrees. -/
def Rotate (M : MathLib K) (rotation : K) : Matrix (Fin 3) (Fin 3) K :=
  !![M.cos (rotation * M.PI / 180), -M.sin (rotation * M.PI / 180), 0;
     M.sin (rotation * M.PI / 180), M.cos (rotation * M.PI / 180), 0;
     0, 0, 1]

/-- The uniform scaling by `scale`. -/
def Scale (scale : K) : Matrix (Fin 3) (Fin 3) K := !![scale, 0, 0; 0, scale, 0; 0, 0, 1]

end Defs

end Transformations

/-! # Image compositing of `project1_ComposingImages-main/project1.js` -/

namespace ComposingImages

section Defs
variable {K : Type} [LinearOrderedField K]

/-- An image as `composite` reads it: `width`, `height`, and `data`, the RGBA
values of the pixels row by row, four values per pixel. -/
structure ImageData (K : Type) where
  width : Nat
  height : Nat
  data : List K

/-- The `data` array of an image has four values per pixel. -/
def ImageData.WellFormed (img : ImageData K) : Prop :=
  img.data.length = img.width * img.height * 4

/-- The position `fgPos` of the foreground image, in pixels; it can be
negative. -/
structure Pos where
  x : Int
  y : Int

/-- The array read `a[i]`.  Outside the array JavaScript yields `undefined`;
the model yields 0. -/
def idx (a : List K) (i : Nat) : K := a.getD i 0

/-- The state of a run of `composite`: the arrays `bgImg.data` and
`fgImg.data`, and three ghost logs that the program does not have: the
indices of `bgImg.data` written, of `bgImg.data` read and of `fgImg.data`
read, oldest first. -/
structure Run (K : Type) where
  bg : List K
  fg : List K
  writes : List Nat
  bgReads : List Nat
  fgReads : List Nat

/-- The four assignments `bgImg.data[i] = r`, `bgImg.data[i + 1] = g`,
`bgImg.data[i + 2] = b`, `bgImg.data[i + 3] = a`. -/
def write4 (st : Run K) (i : Nat) (r g b a : K) : Run K :=
  { st with
    bg := (((st.bg.set i r).set (i + 1) g).set (i + 2) b).set (i + 3) a
    writes := st.writes ++ [i, i + 1, i + 2, i + 3] }

/-- Body of the inner loop of `composite` (lines 16-62) for the foreground
pixel (`x`, `y`).  `store` is the conversion that an assignment to an element
of `bgImg.data` applies to the value. -/
def blendPixel (store : K → K) (bgWidth bgHeight fgWidth : Nat) (fgOpac : K) (fgPos : Pos)
    (y : Nat) (st : Run K) (x : Nat) : Run K :=
  let bgX : Int := fgPos.x + x
  let bgY : Int := fgPos.y + y
  if bgX ≥ 0 ∧ bgX < bgWidth ∧ bgY ≥ 0 ∧ bgY < bgHeight then
    let bgIndex : Nat := ((bgY * bgWidth + bgX) * 4).toNat
    let fgIndex : Nat := (y * fgWidth + x) * 4
    let fgR := idx st.fg fgIndex
    let fgG := idx st.fg (fgIndex + 1)
    let fgB := idx st.fg (fgIndex + 2)
    let fgA := idx st.fg (fgIndex + 3) / 255 * fgOpac
    let bgR := idx st.bg bgIndex
    let bgG := idx st.bg (bgIndex + 1)
    let bgB := idx st.bg (bgIndex + 2)
    let bgA := idx st.bg (bgIndex + 3) / 255
    let st' : Run K :=
      { st with
        fgReads := st.fgReads ++ [fgIndex, fgIndex + 1, fgIndex + 2, fgIndex + 3]
        bgReads := st.bgReads ++ [bgIndex, bgIndex + 1, bgIndex + 2, bgIndex + 3] }
    let newAlpha := fgA + bgA * (1 - fgA)
    if newAlpha = 0 then
      write4 st' bgIndex (store 0) (store 0) (store 0) (store 0)
    else
      let newR := (fgR * fgA + bgR * bgA * (1 - fgA)) / newAlpha
      let newG := (fgG * fgA + bgG * bgA * (1 - fgA)) / newAlpha
      let newB := (fgB * fgA + bgB * bgA * (1 - fgA)) / newAlpha
      write4 st' bgIndex (store newR) (store newG) (store newB) (store (newAlpha * 255))
  else st

/-- `composite(bgImg, fgImg, fgOpac, fgPos)` (lines 5-65): the state when
the loops are left. -/
def composite (store : K → K) (bgImg fgImg : ImageData K) (fgOpac : K) (fgPos : Pos) : Run K :=
  (List.range fgImg.height).foldl
    (fun st y =>
      (List.range fgImg.width).foldl
        (blendPixel store bgImg.width bgImg.height fgImg.width fgOpac fgPos y) st)
    { bg := bgImg.data, fg := fgImg.data, writes := [], bgReads := [], fgReads := [] }

/-- The index `i` of `bgImg.data` belongs to a background pixel that lies
inside the background and under the foreground pixel (`x`, `y`). -/
def Covered (bgImg fgImg : ImageData K) (fgPos : Pos) (i : Nat) : Prop :=
  ∃ x y c : Nat, x < fgImg.width ∧ y < fgImg.height ∧ c < 4 ∧
    0 ≤ fgPos.x + x ∧ fgPos.x + x < bgImg.width ∧
    0 ≤ fgPos.y + y ∧ fgPos.y + y < bgImg.height ∧
    (i : Int) = ((fgPos.y + y) * bgImg.width + (fgPos.x + x)) * 4 + c

/-- The index `i` of `fgImg.data` belongs to a pixel of the foreground. -/
def InForeground (fgImg : ImageData K) (i : Nat) : Prop :=
  ∃ x y c : Nat, x < fgImg.width ∧ y < fgImg.height ∧ c < 4 ∧ i = (y * fgImg.width + x) * 4 + c

/-- Invariant of the loops of `composite`. -/
def Inv (bgImg fgImg : ImageData K) (fgPos : Pos) (st : Run K) : Prop :=
  st.fg = fgImg.data ∧ st.bg.length = bgImg.data.length ∧
    (∀ i, i ∉ st.writes → idx st.bg i = idx bgImg.data i) ∧
    (∀ i ∈ st.writes, Covered bgImg fgImg fgPos i) ∧
    (∀ i ∈ st.bgReads, Covered bgImg fgImg fgPos i) ∧
    (∀ i ∈ st.fgReads, InForeground fgImg i)

/-! ## The values that `composite` writes -/

/-- The four values of a pixel: red, green, blue, alpha. -/
@[ext] structure Pixel (K : Type) where
  r : K
  g : K
  b : K
  a : K

/-- The pixel whose values start at index `i` of a `data` array. -/
def pixelAt (data : List K) (i : Nat) : Pixel K :=
  ⟨idx data i, idx data (i + 1), idx data (i + 2), idx data (i + 3)⟩

/-- The values that lines 30-61 compute from a foreground pixel and a
background pixel and assign to the background pixel. -/
def blend (store : K → K) (fgOpac : K) (fg bg : Pixel K) : Pixel K :=
  let fgA := fg.a / 255 * fgOpac
  let bgA := bg.a / 255
  let newAlpha := fgA + bgA * (1 - fgA)
  if newAlpha = 0 then ⟨store 0, store 0, store 0, store 0⟩
  else
    ⟨store ((fg.r * fgA + bg.r * bgA * (1 - fgA)) / newAlpha),
      store ((fg.g * fgA + bg.g * bgA * (1 - fgA)) / newAlpha),
      store ((fg.b * fgA + bg.b * bgA * (1 - fgA)) / newAlpha),
      store (newAlpha * 255)⟩

/-- The alpha of lines 30-42, before it is scaled back to [0, 255]. -/
def newAlpha (fgOpac : K) (fg bg : Pixel K) : K :=
  fg.a / 255 * fgOpac + bg.a / 255 * (1 - fg.a / 255 * fgOpac)

/-- The bounds check of line 20 for the foreground pixel (`x`, `y`). -/
def InBounds (bgImg : ImageData K) (fgPos : Pos) (x y : Nat) : Prop :=
  fgPos.x + x ≥ 0 ∧ fgPos.x + x < bgImg.width ∧ fgPos.y + y ≥ 0 ∧ fgPos.y + y < bgImg.height

/-- The index `bgIndex` of line 23 for the foreground pixel (`x`, `y`). -/
def bgBase (bgImg : ImageData K) (fgPos : Pos) (x y : Nat) : Nat :=
  (((fgPos.y + y) * bgImg.width + (fgPos.x + x)) * 4).toNat

/-- The index `fgIndex` of line 24 for the foreground pixel (`x`, `y`). -/
def fgBase (fgImg : ImageData K) (x y : Nat) : Nat := (y * fgImg.width + x) * 4

/-- The foreground pixel (`x'`, `y'`) has been visited when the loops are
about to visit (`x`, `y`). -/
def Visited (y x x' y' : Nat) : Prop := y' < y ∨ (y' = y ∧ x' < x)

/-- Invariant of the loops of `composite` on the values: when the loops are
about to visit the foreground pixel (`x`, `y`), the background pixel under
each visited foreground pixel holds the blend of the two original pixels,
and the background pixel under each other foreground pixel is the
original. -/
def Progress (store : K → K) (bgImg fgImg : ImageData K) (fgOpac : K) (fgPos : Pos)
    (y x : Nat) (st : Run K) : Prop :=
  st.fg = fgImg.data ∧ st.bg.length = bgImg.data.length ∧
    ∀ x' y' : Nat, x' < fgImg.width → y' < fgImg.height → InBounds bgImg fgPos x' y' →
      (Visited y x x' y' → pixelAt st.bg (bgBase bgImg fgPos x' y')
        = blend store fgOpac (pixelAt fgImg.data (fgBase fgImg x' y'))
            (pixelAt bgImg.data (bgBase bgImg fgPos x' y'))) ∧
      (¬ Visited y x x' y' → pixelAt st.bg (bgBase bgImg fgPos x' y')
        = pixelAt bgImg.data (bgBase bgImg fgPos x' y'))

/-- The four values of the pixel lie in [0, 255]. -/
def Pixel.InRange (p : Pixel K) : Prop :=
  (0 ≤ p.r ∧ p.r ≤ 255) ∧ (0 ≤ p.g ∧ p.g ≤ 255) ∧ (0 ≤ p.b ∧ p.b ≤ 255) ∧ (0 ≤ p.a ∧ p.a ≤ 255)

/-- An assignment to an element of `bgImg.data` stores the values of the two
images, and 0 and 255, as they are, and keeps the order of values. -/
def StoresFaithfully (store : K → K) (bgImg fgImg : ImageData K) : Prop :=
  Monotone store ∧ store 0 = 0 ∧ store 255 = 255 ∧
    (∀ v ∈ bgImg.data, store v = v) ∧ ∀ v ∈ fgImg.data, store v = v

/-- All values of the `data` array of the image lie in [0, 255]. -/
def ImageData.InRange (img : ImageData K) : Prop := ∀ v ∈ img.data, 0 ≤ v ∧ v ≤ 255

end Defs

end ComposingImages

/-! # Simulation step and shininess of `project6_Animations-main/project7.js` -/

namespace Animations

section Defs
variable {K : Type} [LinearOrderedField K]

/-- An object of the class `Vec3`: `SimTimeStep` reads and writes its
properties `x`, `y` and `z`. -/
@[ext] structure Vec3 (K : Type) where
  x : K
  y : K
  z : K

/-- A JavaScript number, up to rounding: a finite value, `Infinity`,
`-Infinity` or `NaN`.  The two zeros are not told apart: they compare equal,
and `SimTimeStep` itself does not divide. -/
inductive Number (K : Type) where
  | fin (v : K)
  | posInf
  | negInf
  | nan

/-- The infinity that has the sign of `v`, and `NaN` when `v` is 0: the
product of `v` and `Infinity`. -/
def Number.signedInf (v : K) : Number K :=
  if v = 0 then .nan else if 0 < v then .posInf else .negInf

/-- The unary `-` of JavaScript. -/
def Number.neg : Number K → Number K
  | .fin v => .fin (-v)
  | .posInf => .negInf
  | .negInf => .posInf
  | .nan => .nan

/-- The operator `*` of JavaScript. -/
def Number.mul : Number K → Number K → Number K
  | .fin a, .fin b => .fin (a * b)
  | .fin a, .posInf => Number.signedInf a
  | .fin a, .negInf => Number.signedInf (-a)
  | .posInf, .fin b => Number.signedInf b
  | .negInf, .fin b => Number.signedInf (-b)
  | .posInf, .posInf => .posInf
  | .posInf, .negInf => .negInf
  | .negInf, .posInf => .negInf
  | .negInf, .negInf => .posInf
  | .nan, _ => .nan
  | _, .nan => .nan

/-- The operator `+` of JavaScript, on numbers. -/
def Number.add : Number K → Number K → Number K
  | .fin a, .fin b => .fin (a + b)
  | .fin _, .posInf => .posInf
  | .fin _, .negInf => .negInf
  | .posInf, .fin _ => .posInf
  | .negInf, .fin _ => .negInf
  | .posInf, .posInf => .posInf
  | .posInf, .negInf => .nan
  | .negInf, .posInf => .nan
  | .negInf, .negInf => .negInf
  | .nan, _ => .nan
  | _, .nan => .nan

/-- The binary operator `-` of JavaScript. -/
def Number.sub (a b : Number K) : Number K := a.add b.neg

/-- The operator `<` of JavaScript, on numbers: false when either side is
`NaN`. -/
def Number.lt : Number K → Number K → Bool
  | .fin a, .fin b => decide (a < b)
  | .fin _, .posInf => true
  | .negInf, .fin _ => true
  | .negInf, .posInf => true
  | _, _ => false

/-- The operator `>` of JavaScript, on numbers. -/
def Number.gt (a b : Number K) : Bool := b.lt a

/-- The methods of the class `Vec3` that `SimTimeStep` calls.  The class is
defined outside `project7.js`, so its methods are parameters.  `inc` and
`dec` change the object in place: they give here its new value. -/
structure Vec3Class (K : Type) where
  sub : Vec3 K → Vec3 K → Vec3 K
  add : Vec3 K → Vec3 K → Vec3 K
  mul : Vec3 K → K → Vec3 K
  div : Vec3 K → K → Vec3 K
  dot : Vec3 K → Vec3 K → K
  len : Vec3 K → K
  unit : Vec3 K → Vec3 K
  inc : Vec3 K → Vec3 K → Vec3 K
  dec : Vec3 K → Vec3 K → Vec3 K

/-- A spring: the indices `p0` and `p1` of its particles and its rest
length. -/
structure Spring (K : Type) where
  p0 : Nat
  p1 : Nat
  rest : K

/-- Body of the loop over the springs (lines 308-333), on the array
`forces`.  Reading a property of `undefined`, which is what an index outside
an array yields, throws: the result is then `none`. -/
def applySpring (V : Vec3Class (Number K)) (positions velocities : List (Vec3 (Number K)))
    (stiffness damping : Number K) (forces : List (Vec3 (Number K)))
    (spring : Spring (Number K)) : Option (List (Vec3 (Number K))) := do
  let pos0 ← positions[spring.p0]?
  let pos1 ← positions[spring.p1]?
  let delta := V.sub pos1 pos0
  let dist := V.len delta
  let direction := V.unit delta
  let springForce := V.mul direction (stiffness.mul (dist.sub spring.rest))
  let vel0 ← velocities[spring.p0]?
  let vel1 ← velocities[spring.p1]?
  let relativeVelocity := V.sub vel1 vel0
  let dampingForce := V.mul direction (damping.mul (V.dot relativeVelocity direction))
  let f0 ← forces[spring.p0]?
  let forces := forces.set spring.p0 (V.inc f0 (V.add springForce dampingForce))
  let f1 ← forces[spring.p1]?
  pure (forces.set spring.p1 (V.dec f1 (V.add springForce dampingForce)))

/-- The collision of one coordinate with the bounding box (lines 352-358):
the new coordinate of the position and of the velocity.  Both comparisons are
false for `NaN`, which is then left in place. -/
def collideAxis (restitution p v : Number K) : Number K × Number K :=
  if p.lt (.fin (-1)) then (.fin (-1), v.mul restitution.neg)
  else if p.gt (.fin 1) then (.fin 1, v.mul restitution.neg)
  else (p, v)

/-- The loop over the axes `x`, `y`, `z` (lines 351-359). -/
def collide (restitution : Number K) (p v : Vec3 (Number K)) :
    Vec3 (Number K) × Vec3 (Number K) :=
  let cx := collideAxis restitution p.x v.x
  let cy := collideAxis restitution p.y v.y
  let cz := collideAxis restitution p.z v.z
  (⟨cx.1, cy.1, cz.1⟩, ⟨cx.2, cy.2, cz.2⟩)

/-- Body of the last loop (lines 342-360) for the particle `i`, on the
arrays `positions` and `velocities`. -/
def updateParticle (V : Vec3Class (Number K)) (dt particleMass restitution : Number K)
    (forces : List (Vec3 (Number K))) (st : List (Vec3 (Number K)) × List (Vec3 (Number K)))
    (i : Nat) : Option (List (Vec3 (Number K)) × List (Vec3 (Number K))) := do
  let f ← forces[i]?
  let acceleration := V.div f particleMass
  let v ← st.2[i]?
  let v := V.inc v (V.mul acceleration dt)
  let p ← st.1[i]?
  let p := V.inc p (V.mul v dt)
  let c := collide restitution p v
  pure (st.1.set i c.1, st.2.set i c.2)

/-- `SimTimeStep(dt, positions, velocities, springs, stiffness, damping,
particleMass, gravity, restitution)` (lines 304-361): the arrays `positions`
and `velocities` when it returns, `none` when it throws. -/
def SimTimeStep (V : Vec3Class (Number K)) (dt : Number K)
    (positions velocities : List (Vec3 (Number K))) (springs : List (Spring (Number K)))
    (stiffness damping particleMass : Number K) (gravity : Vec3 (Number K))
    (restitution : Number K) : Option (List (Vec3 (Number K)) × List (Vec3 (Number K))) := do
  let forces := List.replicate positions.length (⟨.fin 0, .fin 0, .fin 0⟩ : Vec3 (Number K))
  let forces ← springs.foldlM (applySpring V positions velocities stiffness damping) forces
  let gravityForce := V.mul gravity particleMass
  let forces := forces.map fun f => V.inc f gravityForce
  (List.range positions.length).foldlM (updateParticle V dt particleMass restitution forces)
    (positions, velocities)

/-- The operator `/` of JavaScript, on numbers, a zero divisor being taken
as `+0`: 0/0 is `NaN`. -/
def Number.div : Number K → Number K → Number K
  | .fin a, .fin b => if b = 0 then Number.signedInf a else .fin (a / b)
  | .fin _, .posInf => .fin 0
  | .fin _, .negInf => .fin 0
  | .posInf, .fin b => if 0 ≤ b then .posInf else .negInf
  | .negInf, .fin b => if 0 ≤ b then .negInf else .posInf
  | .posInf, .posInf => .nan
  | .posInf, .negInf => .nan
  | .negInf, .posInf => .nan
  | .negInf, .negInf => .nan
  | .nan, _ => .nan
  | _, .nan => .nan

/-- `Math.sqrt`, with the square root `sqrt` of the finite values. -/
def Number.sqrt (sqrt : K → K) : Number K → Number K
  | .fin a => if a < 0 then .nan else .fin (sqrt a)
  | .posInf => .posInf
  | .negInf => .nan
  | .nan => .nan

/-- The methods of `Vec3` with their usual meaning: `len` is the square root
of the dot product of the vector with itself, and `unit` divides the vector
by its `len`, so that the `unit` of the zero vector is (`NaN`, `NaN`,
`NaN`). -/
def vec3Class (sqrt : K → K) : Vec3Class (Number K) :=
  { sub := fun a b => ⟨a.x.sub b.x, a.y.sub b.y, a.z.sub b.z⟩
    add := fun a b => ⟨a.x.add b.x, a.y.add b.y, a.z.add b.z⟩
    mul := fun a k => ⟨a.x.mul k, a.y.mul k, a.z.mul k⟩
    div := fun a k => ⟨a.x.div k, a.y.div k, a.z.div k⟩
    dot := fun a b => ((a.x.mul b.x).add (a.y.mul b.y)).add (a.z.mul b.z)
    len := fun a => Number.sqrt sqrt (((a.x.mul a.x).add (a.y.mul a.y)).add (a.z.mul a.z))
    unit := fun a =>
      ⟨a.x.div (Number.sqrt sqrt (((a.x.mul a.x).add (a.y.mul a.y)).add (a.z.mul a.z))),
        a.y.div (Number.sqrt sqrt (((a.x.mul a.x).add (a.y.mul a.y)).add (a.z.mul a.z))),
        a.z.div (Number.sqrt sqrt (((a.x.mul a.x).add (a.y.mul a.y)).add (a.z.mul a.z)))⟩
    inc := fun a b => ⟨a.x.add b.x, a.y.add b.y, a.z.add b.z⟩
    dec := fun a b => ⟨a.x.sub b.x, a.y.sub b.y, a.z.sub b.z⟩ }

/-- The number is finite and lies in [-1, 1]. -/
def Number.InUnit : Number K → Prop
  | .fin v => -1 ≤ v ∧ v ≤ 1
  | _ => False

/-- Every coordinate of the position lies in [-1, 1]. -/
def InBox (p : Vec3 (Number K)) : Prop := p.x.InUnit ∧ p.y.InUnit ∧ p.z.InUnit

/-- Every coordinate of the position is `NaN` or lies in [-1, 1]. -/
def NaNOrInBox (p : Vec3 (Number K)) : Prop :=
  (p.x = .nan ∨ p.x.InUnit) ∧ (p.y = .nan ∨ p.y.InUnit) ∧ (p.z = .nan ∨ p.z.InUnit)

/-- `MeshDrawer.setShininess( shininess )` (lines 293-298): the value that
`gl.uniform1f` uploads to the uniform `shininess` of the fragment shader. -/
def setShininess (shininess : K) : K := if shininess > 0 then shininess else 1 / 1000

end Defs

end Animations

/-! # Proofs for the ray tracer -/

namespace RayTracing

/-! ## Lemmas on vectors -/

section Proofs

variable {K : Type} [LinearOrderedField K]

@[simp] theorem Vec3.zero_x : (0 : Vec3 K).x = 0 := rfl

@[simp] theorem Vec3.zero_y : (0 : Vec3 K).y = 0 := rfl

@[simp] theorem Vec3.zero_z : (0 : Vec3 K).z = 0 := rfl

@[simp] theorem Vec3.add_x (a b : Vec3 K) : (a + b).x = a.x + b.x := rfl

@[simp] theorem Vec3.add_y (a b : Vec3 K) : (a + b).y = a.y + b.y := rfl

@[simp] theorem Vec3.add_z (a b : Vec3 K) : (a + b).z = a.z + b.z := rfl

@[simp] theorem Vec3.sub_x (a b : Vec3 K) : (a - b).x = a.x - b.x := rfl

@[simp] theorem Vec3.sub_y (a b : Vec3 K) : (a - b).y = a.y - b.y := rfl

@[simp] theorem Vec3.sub_z (a b : Vec3 K) : (a - b).z = a.z - b.z := rfl

@[simp] theorem Vec3.neg_x (a : Vec3 K) : (-a).x = -a.x := rfl

@[simp] theorem Vec3.neg_y (a : Vec3 K) : (-a).y = -a.y := rfl

@[simp] theorem Vec3.neg_z (a : Vec3 K) : (-a).z = -a.z := rfl

@[simp] theorem Vec3.mul_x (a b : Vec3 K) : (a * b).x = a.x * b.x := rfl

@[simp] theorem Vec3.mul_y (a b : Vec3 K) : (a * b).y = a.y * b.y := rfl

@[simp] theorem Vec3.mul_z (a b : Vec3 K) : (a * b).z = a.z * b.z := rfl

@[simp] theorem Vec3.scale_x (a : Vec3 K) (k : K) : (a.scale k).x = a.x * k := rfl

@[simp] theorem Vec3.scale_y (a : Vec3 K) (k : K) : (a.scale k).y = a.y * k := rfl

@[simp] theorem Vec3.scale_z (a : Vec3 K) (k : K) : (a.scale k).z = a.z * k := rfl

@[simp] theorem Vec3.div_x (a : Vec3 K) (k : K) : (a.div k).x = a.x / k := rfl

@[simp] theorem Vec3.div_y (a : Vec3 K) (k : K) : (a.div k).y = a.y / k := rfl

@[simp] theorem Vec3.div_z (a : Vec3 K) (k : K) : (a.div k).z = a.z / k := rfl

/-! ## The loop of `IntersectRay` -/

/-- The loop body of `IntersectRay` in terms of `discriminant`, `nearRoot`
and `hitOf`. -/
theorem intersectSphere_eq (m : Machine K) (ray : Ray K) (st : HitInfo K × Bool) (s : Sphere K) :
    intersectSphere m ray st s =
      if discriminant ray s > 0 ∧ nearRoot m ray s < st.1.t ∧ nearRoot m ray s > eps
      then (hitOf m ray s, true) else st := by
  unfold intersectSphere
  simp only [discriminant, nearRoot, hitOf]
  split_ifs <;> first | rfl | (exfalso; tauto)

/-- Invariant of the loop of `IntersectRay`, from any state: either no sphere
of the list is accepted below the current `hit.t` and the state is unchanged,
or the state is the hit record of an accepted sphere whose near root is least
among the spheres with positive discriminant and near root above 0.001. -/
theorem foldl_intersect_spec (m : Machine K) (ray : Ray K) (l : List (Sphere K)) :
    ∀ st : HitInfo K × Bool,
      (l.foldl (intersectSphere m ray) st = st ∧ ∀ s ∈ l, ¬ acceptedBelow m ray st.1.t s) ∨
      (∃ s ∈ l, acceptedBelow m ray st.1.t s ∧
        l.foldl (intersectSphere m ray) st = (hitOf m ray s, true) ∧
        ∀ s' ∈ l, discriminant ray s' > 0 → eps < nearRoot m ray s' →
          nearRoot m ray s ≤ nearRoot m ray s') := by
  induction l with
  | nil => intro st; left; simp
  | cons a l ih =>
    intro st
    rw [List.foldl_cons, intersectSphere_eq]
    by_cases hc : discriminant ray a > 0 ∧ nearRoot m ray a < st.1.t ∧ nearRoot m ray a > eps
    · rw [if_pos hc]
      obtain ⟨hd, hlt, hgt⟩ := hc
      right
      rcases ih (hitOf m ray a, true) with ⟨heq, hno⟩ | ⟨s, hs, hacc, heq, hmin⟩
      · refine ⟨a, List.mem_cons_self _ _, ⟨hd, hgt, hlt⟩, heq, ?_⟩
        intro s' hs' hd' he'
        rcases List.mem_cons.mp hs' with rfl | hin
        · exact le_refl _
        · by_contra hcon
          exact hno s' hin ⟨hd', he', lt_of_not_le hcon⟩
      · obtain ⟨hsd, hse, hslt⟩ := hacc
        have hslt' : nearRoot m ray s < nearRoot m ray a := hslt
        refine ⟨s, List.mem_cons_of_mem _ hs, ⟨hsd, hse, lt_trans hslt' hlt⟩, heq, ?_⟩
        intro s' hs' hd' he'
        rcases List.mem_cons.mp hs' with rfl | hin
        · exact le_of_lt hslt'
        · exact hmin s' hin hd' he'
    · rw [if_neg hc]
      rcases ih st with ⟨heq, hno⟩ | ⟨s, hs, hacc, heq, hmin⟩
      · left
        refine ⟨heq, ?_⟩
        intro s' hs'
        rcases List.mem_cons.mp hs' with rfl | hin
        · intro hacc
          exact hc ⟨hacc.1, hacc.2.2, hacc.2.1⟩
        · exact hno s' hin
      · right
        refine ⟨s, List.mem_cons_of_mem _ hs, hacc, heq, ?_⟩
        intro s' hs' hd' he'
        rcases List.mem_cons.mp hs' with rfl | hin
        · by_contra hcon
          exact hc ⟨hd', lt_trans (lt_of_not_le hcon) hacc.2.2, he'⟩
        · exact hmin s' hin hd' he'

/-- Two runs of the loop of `IntersectRay` from states with the same flag and
the same `hit.t` end with the same flag, and with the same state when a hit
is found. -/
theorem foldl_intersect_indep (m : Machine K) (ray : Ray K) (l : List (Sphere K)) :
    ∀ st₁ st₂ : HitInfo K × Bool, st₁.2 = st₂.2 → st₁.1.t = st₂.1.t →
      (st₁.2 = true → st₁ = st₂) →
      (l.foldl (intersectSphere m ray) st₁).2 = (l.foldl (intersectSphere m ray) st₂).2 ∧
      ((l.foldl (intersectSphere m ray) st₁).2 = true →
        l.foldl (intersectSphere m ray) st₁ = l.foldl (intersectSphere m ray) st₂) := by
  induction l with
  | nil => intro st₁ st₂ h1 _ h3; exact ⟨h1, h3⟩
  | cons a l ih =>
    intro st₁ st₂ h1 h2 h3
    rw [List.foldl_cons, List.foldl_cons]
    apply ih
    · rw [intersectSphere_eq, intersectSphere_eq, h2]; split_ifs <;> simp [h1]
    · rw [intersectSphere_eq, intersectSphere_eq, h2]; split_ifs <;> simp [h2]
    · rw [intersectSphere_eq, intersectSphere_eq, h2]
      split_ifs
      · intro _; rfl
      · exact h3

/-- The result of `IntersectRay` does not depend on the content of `hit` on
entry: the flag never does, the record does not when a hit is found. -/
theorem IntersectRay_indep (m : Machine K) (sc : Scene K) (h₁ h₂ : HitInfo K) (ray : Ray K) :
    (IntersectRay m sc h₁ ray).1 = (IntersectRay m sc h₂ ray).1 ∧
    ((IntersectRay m sc h₁ ray).1 = true → IntersectRay m sc h₁ ray = IntersectRay m sc h₂ ray) := by
  have h := foldl_intersect_indep m ray sc.spheres ({ h₁ with t := tMax }, false)
    ({ h₂ with t := tMax }, false) rfl rfl (by intro h; cases h)
  refine ⟨h.1, fun hf => ?_⟩
  have h2 := h.2 hf
  simp only [IntersectRay]
  rw [h2]

/-- `IntersectRay` reads only the spheres of the scene. -/
theorem IntersectRay_congr (m : Machine K) (sc sc' : Scene K) (hit : HitInfo K) (ray : Ray K)
    (h : sc.spheres = sc'.spheres) : IntersectRay m sc hit ray = IntersectRay m sc' hit ray := by
  simp only [IntersectRay, h]

/-- What `IntersectRay` returns: no hit when no sphere is accepted, and
otherwise the hit record of an accepted sphere of least near root. -/
theorem IntersectRay_spec (m : Machine K) (sc : Scene K) (hit : HitInfo K) (ray : Ray K) :
    ((IntersectRay m sc hit ray).1 = false ∧ ∀ s ∈ sc.spheres, ¬ accepted m ray s) ∨
    (∃ s ∈ sc.spheres, accepted m ray s ∧ IntersectRay m sc hit ray = (true, hitOf m ray s) ∧
      ∀ s' ∈ sc.spheres, discriminant ray s' > 0 → eps < nearRoot m ray s' →
        nearRoot m ray s ≤ nearRoot m ray s') := by
  rcases foldl_intersect_spec m ray sc.spheres ({ hit with t := tMax }, false) with
    ⟨heq, hno⟩ | ⟨s, hs, hacc, heq, hmin⟩
  · left
    exact ⟨by simp only [IntersectRay, heq], hno⟩
  · right
    exact ⟨s, hs, hacc, by simp only [IntersectRay, heq], hmin⟩

/-! ## `RayTracer` on a miss, and on a hit without reflection -/

/-- The loop stops at once when the channels of `k_s` sum to at most 0. -/
theorem reflectionLoop_no_energy (m : Machine K) (sc : Scene K) (n : Nat) (bounce : Int)
    (s : Bounce K) (h : s.k_s.x + s.k_s.y + s.k_s.z ≤ 0) :
    reflectionLoop m sc n bounce s = s := by
  cases n with
  | zero => rfl
  | succ n => simp only [reflectionLoop, h, if_true, ite_self]

/-- C1: when `IntersectRay` finds no hit for the ray, `RayTracer` returns the
environment colour looked up for the ray's direction with alpha 1, whatever
the lights, `bounceLimit` and `MAX_BOUNCES` are. -/
theorem RayTracer_miss_environment (m : Machine K) (sc : Scene K) (ray : Ray K)
    (hit : HitInfo K) (lights : List (Light K)) (bounceLimit : Int) (maxBounces : Nat)
    (hmiss : (IntersectRay m sc hit ray).1 = false) :
    RayTracer m { sc with lights := lights, bounceLimit := bounceLimit, MAX_BOUNCES := maxBounces }
      ray = vec4 (sc.envMap ray.dir.xzy) 1 := by
  have h1 : (IntersectRay m sc m.undef ray).1 = false := by
    rw [(IntersectRay_indep m sc m.undef hit ray).1]; exact hmiss
  have h2 : IntersectRay m
      { sc with lights := lights, bounceLimit := bounceLimit, MAX_BOUNCES := maxBounces }
      m.undef ray = IntersectRay m sc m.undef ray := IntersectRay_congr m _ _ _ _ rfl
  simp only [RayTracer, h2, h1]
  rfl

/-- C2: `IntersectRay` returns the globally closest accepted hit.  It
returns true iff some sphere has an accepted near root, false iff none has,
and when it returns true `hit.t` is the accepted near root of one of the
spheres, is at most the accepted near root of every sphere, and
`hit.position = ray.pos + ray.dir * hit.t`. -/
theorem IntersectRay_closest_accepted (m : Machine K) (sc : Scene K) (hit : HitInfo K)
    (ray : Ray K) :
    ((IntersectRay m sc hit ray).1 = true ↔ ∃ s ∈ sc.spheres, accepted m ray s) ∧
    ((IntersectRay m sc hit ray).1 = false ↔ ∀ s ∈ sc.spheres, ¬ accepted m ray s) ∧
    ((IntersectRay m sc hit ray).1 = true →
      (∃ s ∈ sc.spheres, accepted m ray s ∧ (IntersectRay m sc hit ray).2.t = nearRoot m ray s) ∧
      (∀ s ∈ sc.spheres, accepted m ray s →
        (IntersectRay m sc hit ray).2.t ≤ nearRoot m ray s) ∧
      (IntersectRay m sc hit ray).2.position
        = ray.pos + ray.dir.scale (IntersectRay m sc hit ray).2.t) := by
  rcases IntersectRay_spec m sc hit ray with ⟨hf, hno⟩ | ⟨s, hs, hacc, heq, hmin⟩
  · refine ⟨?_, ?_, ?_⟩
    · rw [hf]
      exact ⟨fun h => (by cases h), fun ⟨s, hs, ha⟩ => absurd ha (hno s hs)⟩
    · exact ⟨fun _ => hno, fun _ => hf⟩
    · rw [hf]; intro h; cases h
  · rw [heq]
    refine ⟨⟨fun _ => ⟨s, hs, hacc⟩, fun _ => rfl⟩, ?_, ?_⟩
    · exact ⟨fun h => (by cases h), fun h => absurd hacc (h s hs)⟩
    · intro _
      exact ⟨⟨s, hs, hacc, rfl⟩, fun s' hs' ha' => hmin s' hs' ha'.1 ha'.2.1, rfl⟩

/-- C3: when the primary hit has specular coefficient (0,0,0), the reflection
loop evaluates no reflection ray, whatever `bounceLimit` is, and `RayTracer`
returns `Shade( hit.mtl, hit.position, hit.normal, normalize(-ray.dir) )` of
the primary hit with alpha 1. -/
theorem RayTracer_zero_specular (m : Machine K) (sc : Scene K) (ray : Ray K) (hit : HitInfo K)
    (hfound : (IntersectRay m sc hit ray).1 = true)
    (hks : (IntersectRay m sc hit ray).2.mtl.k_s = 0) :
    reflectionRays m sc ray = 0 ∧
    RayTracer m sc ray =
      vec4 (Shade m sc (IntersectRay m sc hit ray).2.mtl (IntersectRay m sc hit ray).2.position
        (IntersectRay m sc hit ray).2.normal (normalize m (-ray.dir))) 1 := by
  have h1 : (IntersectRay m sc m.undef ray).1 = true := by
    rw [(IntersectRay_indep m sc m.undef hit ray).1]; exact hfound
  have h2 : IntersectRay m sc m.undef ray = IntersectRay m sc hit ray :=
    (IntersectRay_indep m sc m.undef hit ray).2 h1
  have h3 : ∀ s : Bounce K, s.k_s = (IntersectRay m sc hit ray).2.mtl.k_s →
      reflectionLoop m sc sc.MAX_BOUNCES 0 s = s := by
    intro s hs
    apply reflectionLoop_no_energy
    rw [hs, hks]; simp
  simp only [reflectionRays, RayTracer, traceHit, h2, hfound, if_true]
  rw [h3 _ rfl]
  exact ⟨rfl, rfl⟩

/-! ## Evaluation at concrete inputs -/

theorem real_sqrt_four : Real.sqrt 4 = 2 := by
  rw [show (4 : ℝ) = 2 ^ 2 by norm_num]; exact Real.sqrt_sq (by norm_num)

theorem scene10_primary (m : Machine K) (h4 : m.sqrt 4 = 2) (h1 : m.sqrt 1 = 1) (n : K)
    (env : Vec3 K → Vec3 K) (bl : Int) (mb : Nat) (hit : HitInfo K) :
    IntersectRay m (scene10 n env bl mb) hit ray10
      = (true, ⟨4, ⟨0, 0, -4⟩, ⟨0, 0, 1⟩, redMatte n⟩) := by
  norm_num [IntersectRay, scene10, ray10, intersectSphere, dot, tMax, eps, h4, h1, normalize,
    length, Vec3.ext_iff]

theorem scene10_rayUp (m : Machine K) (n : K) (env : Vec3 K → Vec3 K) (bl : Int) (mb : Nat)
    (hit : HitInfo K) : (IntersectRay m (scene10 n env bl mb) hit rayUp).1 = false := by
  norm_num [IntersectRay, scene10, rayUp, intersectSphere, dot]

/-- Witness of `RayTracer_miss_environment`: the ray `rayUp` misses the
sphere of `scene10`. -/
theorem RayTracer_miss_environment_witness :
    (IntersectRay (machineOf Real.sqrt Real.rpow) (scene10 8 Vec3.xzy 3 4)
      (machineOf Real.sqrt Real.rpow).undef rayUp).1 = false ∧
    RayTracer (machineOf Real.sqrt Real.rpow)
      { scene10 (8 : ℝ) Vec3.xzy 3 4 with lights := [], bounceLimit := 7, MAX_BOUNCES := 2 } rayUp
      = vec4 ((scene10 (8 : ℝ) Vec3.xzy 3 4).envMap (rayUp : Ray ℝ).dir.xzy) 1 :=
  ⟨scene10_rayUp _ _ _ _ _ _,
    RayTracer_miss_environment _ _ _ (machineOf Real.sqrt Real.rpow).undef _ _ _
      (scene10_rayUp _ _ _ _ _ _)⟩

/-- Witness of `RayTracer_zero_specular`: the primary ray of `scene10` hits a
sphere whose specular coefficient is (0,0,0). -/
theorem RayTracer_zero_specular_witness :
    (IntersectRay (machineOf Real.sqrt Real.rpow) (scene10 8 Vec3.xzy 3 4)
      (machineOf Real.sqrt Real.rpow).undef ray10).1 = true ∧
    (IntersectRay (machineOf Real.sqrt Real.rpow) (scene10 8 Vec3.xzy 3 4)
      (machineOf Real.sqrt Real.rpow).undef ray10).2.mtl.k_s = 0 ∧
    (reflectionRays (machineOf Real.sqrt Real.rpow) (scene10 8 Vec3.xzy 3 4) ray10 = 0 ∧
      RayTracer (machineOf Real.sqrt Real.rpow) (scene10 8 Vec3.xzy 3 4) ray10 =
        vec4 (Shade (machineOf Real.sqrt Real.rpow) (scene10 8 Vec3.xzy 3 4)
          (IntersectRay (machineOf Real.sqrt Real.rpow) (scene10 8 Vec3.xzy 3 4)
            (machineOf Real.sqrt Real.rpow).undef ray10).2.mtl
          (IntersectRay (machineOf Real.sqrt Real.rpow) (scene10 8 Vec3.xzy 3 4)
            (machineOf Real.sqrt Real.rpow).undef ray10).2.position
          (IntersectRay (machineOf Real.sqrt Real.rpow) (scene10 8 Vec3.xzy 3 4)
            (machineOf Real.sqrt Real.rpow).undef ray10).2.normal
          (normalize (machineOf Real.sqrt Real.rpow) (-(ray10 : Ray ℝ).dir))) 1) :=
  have h := scene10_primary (machineOf Real.sqrt Real.rpow) real_sqrt_four Real.sqrt_one
    8 Vec3.xzy 3 4 (machineOf Real.sqrt Real.rpow).undef
  ⟨by rw [h], by rw [h]; rfl,
    RayTracer_zero_specular _ _ _ (machineOf Real.sqrt Real.rpow).undef (by rw [h])
      (by rw [h]; rfl)⟩

/-! ## Direct shading and the specular coefficient -/

/-- `Shade` reads only the spheres and the lights of the scene. -/
theorem Shade_congr (m : Machine K) (sc sc' : Scene K) (mtl : Material K)
    (p n v : Vec3 K) (h1 : sc.spheres = sc'.spheres) (h2 : sc.lights = sc'.lights) :
    Shade m sc mtl p n v = Shade m sc' mtl p n v := by
  have h : shadeLight m sc mtl p n v = shadeLight m sc' mtl p n v := by
    funext c l
    simp only [shadeLight, IntersectRay_congr m sc sc' _ _ h1]
  simp only [Shade, h, h2]

/-- The loop stops at once when `bounce` has reached `bounceLimit`. -/
theorem reflectionLoop_limit (m : Machine K) (sc : Scene K) (n : Nat) (bounce : Int)
    (s : Bounce K) (h : bounce ≥ sc.bounceLimit) : reflectionLoop m sc n bounce s = s := by
  cases n with
  | zero => rfl
  | succ n => simp only [reflectionLoop, h, if_true]

theorem foldl_intersect_zeroSpecular (m : Machine K) (ray : Ray K) (l : List (Sphere K)) :
    ∀ st : HitInfo K × Bool,
      (l.map fun s => { s with mtl := s.mtl.noSpecular }).foldl (intersectSphere m ray)
          (if st.2 then ({ st.1 with mtl := st.1.mtl.noSpecular }, true) else st)
        = if (l.foldl (intersectSphere m ray) st).2
          then ({ (l.foldl (intersectSphere m ray) st).1 with
                  mtl := (l.foldl (intersectSphere m ray) st).1.mtl.noSpecular }, true)
          else l.foldl (intersectSphere m ray) st := by
  induction l with
  | nil => intro st; rfl
  | cons a l ih =>
    intro st
    rw [List.map_cons, List.foldl_cons, List.foldl_cons, ← ih]
    congr 1
    rw [intersectSphere_eq, intersectSphere_eq]
    have ht : (if st.2 then (({ st.1 with mtl := st.1.mtl.noSpecular } : HitInfo K), true)
        else st).1.t = st.1.t := by split_ifs <;> rfl
    rw [ht]
    by_cases hc : discriminant ray a > 0 ∧ nearRoot m ray a < st.1.t ∧ nearRoot m ray a > eps
    · have hc' : discriminant ray { a with mtl := a.mtl.noSpecular } > 0 ∧
          nearRoot m ray { a with mtl := a.mtl.noSpecular } < st.1.t ∧
          nearRoot m ray { a with mtl := a.mtl.noSpecular } > eps := hc
      rw [if_pos hc, if_pos hc']
      rfl
    · have hc' : ¬ (discriminant ray { a with mtl := a.mtl.noSpecular } > 0 ∧
          nearRoot m ray { a with mtl := a.mtl.noSpecular } < st.1.t ∧
          nearRoot m ray { a with mtl := a.mtl.noSpecular } > eps) := hc
      rw [if_neg hc, if_neg hc']

/-- Forcing the specular coefficients to zero changes only the material that
`IntersectRay` copies into the hit. -/
theorem IntersectRay_zeroSpecular (m : Machine K) (sc : Scene K) (hit : HitInfo K) (ray : Ray K) :
    IntersectRay m (zeroSpecular sc) hit ray =
      if (IntersectRay m sc hit ray).1
      then (true, { (IntersectRay m sc hit ray).2 with
                    mtl := (IntersectRay m sc hit ray).2.mtl.noSpecular })
      else IntersectRay m sc hit ray := by
  have h := foldl_intersect_zeroSpecular m ray sc.spheres ({ hit with t := tMax }, false)
  simp only [Bool.false_eq_true, if_false] at h
  simp only [IntersectRay, zeroSpecular, h]
  split_ifs with hb
  · rfl
  · rfl

theorem IntersectRay_zeroSpecular_fst (m : Machine K) (sc : Scene K) (hit : HitInfo K)
    (ray : Ray K) : (IntersectRay m (zeroSpecular sc) hit ray).1 = (IntersectRay m sc hit ray).1 := by
  rw [IntersectRay_zeroSpecular]
  split_ifs with hb
  · exact hb.symm
  · rfl

theorem IntersectRay_zeroSpecular_t (m : Machine K) (sc : Scene K) (hit : HitInfo K)
    (ray : Ray K) :
    (IntersectRay m (zeroSpecular sc) hit ray).2.t = (IntersectRay m sc hit ray).2.t := by
  rw [IntersectRay_zeroSpecular]
  split_ifs <;> rfl

/-- The shadow tests of `Shade` do not read the materials of the spheres. -/
theorem Shade_zeroSpecular (m : Machine K) (sc : Scene K) (mtl : Material K) (p n v : Vec3 K) :
    Shade m (zeroSpecular sc) mtl p n v = Shade m sc mtl p n v := by
  have h : shadeLight m (zeroSpecular sc) mtl p n v = shadeLight m sc mtl p n v := by
    funext c l
    simp only [shadeLight, IntersectRay_zeroSpecular_fst, IntersectRay_zeroSpecular_t]
  simp only [Shade, h]
  rfl

theorem shadeLight_split (m : Machine K) (sc : Scene K) (mtl : Material K) (p n v : Vec3 K)
    (c₁ c₂ : Vec3 K) (l : Light K) :
    shadeLight m sc mtl p n v (c₁ + c₂) l =
      shadeLight m sc mtl.noSpecular p n v c₁ l + shadeLight m sc mtl.onlySpecular p n v c₂ l := by
  simp only [shadeLight, Material.noSpecular, Material.onlySpecular]
  split_ifs
  · ext <;> simp <;> ring
  · rfl

theorem foldl_shadeLight_split (m : Machine K) (sc : Scene K) (mtl : Material K)
    (p n v : Vec3 K) (l : List (Light K)) :
    ∀ c₁ c₂ : Vec3 K, l.foldl (shadeLight m sc mtl p n v) (c₁ + c₂) =
      l.foldl (shadeLight m sc mtl.noSpecular p n v) c₁ +
        l.foldl (shadeLight m sc mtl.onlySpecular p n v) c₂ := by
  induction l with
  | nil => intro c₁ c₂; rfl
  | cons a l ih =>
    intro c₁ c₂
    rw [List.foldl_cons, List.foldl_cons, List.foldl_cons, shadeLight_split, ih]

/-- `Shade` is the sum of its diffuse part and its specular highlight. -/
theorem Shade_split (m : Machine K) (sc : Scene K) (mtl : Material K) (p n v : Vec3 K) :
    Shade m sc mtl p n v =
      Shade m sc mtl.noSpecular p n v + Shade m sc mtl.onlySpecular p n v := by
  have h0 : (0 : Vec3 K) = 0 + 0 := by ext <;> simp
  unfold Shade
  conv_lhs => rw [h0]
  exact foldl_shadeLight_split m sc mtl p n v sc.lights 0 0

/-- C4 (amended): for every scene, ray and `bounceLimit`, the output of
`RayTracer` with `bounceLimit = 0` is the output of `RayTracer` with that
`bounceLimit` on the scene whose specular coefficients are forced to
(0,0,0), plus the specular highlight of the primary hit, which `Shade`
computes from the original specular coefficient. -/
theorem RayTracer_bounceLimit_zero (m : Machine K) (sc : Scene K) (ray : Ray K)
    (bounceLimit : Int) :
    RayTracer m { sc with bounceLimit := 0 } ray =
      (RayTracer m (zeroSpecular { sc with bounceLimit := bounceLimit }) ray).addRGB
        (primaryHighlight m sc ray) := by
  have h1 : IntersectRay m { sc with bounceLimit := 0 } m.undef ray
      = IntersectRay m sc m.undef ray := IntersectRay_congr m _ _ _ _ rfl
  have h2 : IntersectRay m (zeroSpecular { sc with bounceLimit := bounceLimit }) m.undef ray =
      IntersectRay m (zeroSpecular sc) m.undef ray := IntersectRay_congr m _ _ _ _ rfl
  simp only [RayTracer, primaryHighlight, h1, h2]
  rw [IntersectRay_zeroSpecular]
  by_cases hf : (IntersectRay m sc m.undef ray).1 = true
  · simp only [hf, if_true, traceHit]
    rw [reflectionLoop_limit m _ _ _ _ (le_refl _),
      reflectionLoop_no_energy m _ _ _ _ (by simp [Material.noSpecular])]
    simp only []
    rw [Shade_congr m { sc with bounceLimit := 0 } sc _ _ _ _ rfl rfl,
      Shade_congr m (zeroSpecular { sc with bounceLimit := bounceLimit }) (zeroSpecular sc) _ _ _ _
        rfl rfl, Shade_zeroSpecular, Shade_split m sc (IntersectRay m sc m.undef ray).2.mtl]
    ext <;> simp [vec4, Vec4.addRGB]
  · have hf' : (IntersectRay m sc m.undef ray).1 = false := by simpa using hf
    simp only [hf', Bool.false_eq_true, if_false]
    ext <;> simp [vec4, Vec4.addRGB, zeroSpecular]

theorem real_sqrt_sixteen : Real.sqrt 16 = 4 := by
  rw [show (16 : ℝ) = 4 ^ 2 by norm_num]; exact Real.sqrt_sq (by norm_num)

/-- When the reflection loop stops at once, `RayTracer` returns the direct
shading of the primary hit. -/
theorem RayTracer_direct (m : Machine K) (sc : Scene K) (ray : Ray K) (h : HitInfo K)
    (hh : IntersectRay m sc m.undef ray = (true, h))
    (hstop : sc.bounceLimit ≤ 0 ∨ h.mtl.k_s.x + h.mtl.k_s.y + h.mtl.k_s.z ≤ 0) :
    RayTracer m sc ray = vec4 (Shade m sc h.mtl h.position h.normal (normalize m (-ray.dir))) 1 := by
  simp only [RayTracer, hh, if_true, traceHit]
  rcases hstop with h0 | h0
  · rw [reflectionLoop_limit m sc _ _ _ h0]
  · rw [reflectionLoop_no_energy m sc _ _ _ h0]

theorem sceneShiny_primary (m : Machine K) (h1 : m.sqrt 1 = 1) (h4 : m.sqrt 4 = 2) (n : K)
    (env : Vec3 K → Vec3 K) (bl : Int) (mb : Nat) (hit : HitInfo K) :
    IntersectRay m (sceneShiny n env bl mb) hit ray10
      = (true, ⟨4, ⟨0, 0, -4⟩, ⟨0, 0, 1⟩, redShiny n⟩) := by
  norm_num [IntersectRay, sceneShiny, ray10, intersectSphere, dot, tMax, eps, h4, h1, normalize,
    length, Vec3.ext_iff]

theorem sceneShiny_Shade (m : Machine K) (h1 : m.sqrt 1 = 1) (h4 : m.sqrt 4 = 2)
    (h16 : m.sqrt 16 = 4) (n : K) (env : Vec3 K → Vec3 K) (bl : Int) (mb : Nat)
    (mtl : Material K) :
    Shade m (sceneShiny n env bl mb) mtl ⟨0, 0, -4⟩ ⟨0, 0, 1⟩ (normalize m (-(ray10 : Ray K).dir))
      = ⟨mtl.k_d.x + mtl.k_s.x * m.pow 1 mtl.n, mtl.k_d.y + mtl.k_s.y * m.pow 1 mtl.n,
          mtl.k_d.z + mtl.k_s.z * m.pow 1 mtl.n⟩ := by
  norm_num [Shade, shadeLight, IntersectRay, sceneShiny, ray10, intersectSphere, dot, tMax, eps,
    h1, h4, h16, normalize, length, Vec3.ext_iff]

theorem sceneShiny_direct (m : Machine K) (h1 : m.sqrt 1 = 1) (h4 : m.sqrt 4 = 2)
    (h16 : m.sqrt 16 = 4) (n : K) (hpow : m.pow 1 n = 1) (env : Vec3 K → Vec3 K) (mb : Nat) :
    RayTracer m (sceneShiny n env 0 mb) ray10 = ⟨2, 1, 1, 1⟩ := by
  rw [RayTracer_direct m _ _ _ (sceneShiny_primary m h1 h4 n env 0 mb _) (Or.inl (le_refl _)),
    sceneShiny_Shade m h1 h4 h16]
  norm_num [vec4, redShiny, hpow]

theorem sceneShiny_zeroSpecular (m : Machine K) (h1 : m.sqrt 1 = 1) (h4 : m.sqrt 4 = 2)
    (h16 : m.sqrt 16 = 4) (n : K) (env : Vec3 K → Vec3 K) (bl : Int) (mb : Nat) :
    RayTracer m (zeroSpecular (sceneShiny n env bl mb)) ray10 = ⟨1, 0, 0, 1⟩ := by
  have hh : IntersectRay m (zeroSpecular (sceneShiny n env bl mb)) m.undef ray10
      = (true, ⟨4, ⟨0, 0, -4⟩, ⟨0, 0, 1⟩, (redShiny n).noSpecular⟩) := by
    rw [IntersectRay_zeroSpecular, sceneShiny_primary m h1 h4]
    rfl
  rw [RayTracer_direct m _ _ _ hh (Or.inr (by simp [Material.noSpecular])), Shade_zeroSpecular,
    sceneShiny_Shade m h1 h4 h16]
  norm_num [vec4, redShiny, Material.noSpecular]

/-- C4, counterexample: in `sceneShiny` the primary ray of `ray10` returns
(2,1,1,1) with `bounceLimit = 0`, and (1,0,0,1) once the specular coefficient
is forced to (0,0,0): the outputs are not identical. -/
theorem RayTracer_bounceLimit_zero_counterexample :
    RayTracer (machineOf Real.sqrt Real.rpow) (sceneShiny 8 Vec3.xzy 0 4) ray10 = ⟨2, 1, 1, 1⟩ ∧
    RayTracer (machineOf Real.sqrt Real.rpow) (zeroSpecular (sceneShiny 8 Vec3.xzy 0 4)) ray10
      = ⟨1, 0, 0, 1⟩ ∧
    RayTracer (machineOf Real.sqrt Real.rpow) (sceneShiny 8 Vec3.xzy 0 4) ray10 ≠
      RayTracer (machineOf Real.sqrt Real.rpow) (zeroSpecular (sceneShiny 8 Vec3.xzy 0 4)) ray10 := by
  have hA := sceneShiny_direct (machineOf Real.sqrt Real.rpow) Real.sqrt_one real_sqrt_four
    real_sqrt_sixteen 8 (Real.one_rpow 8) Vec3.xzy 4
  have hB := sceneShiny_zeroSpecular (machineOf Real.sqrt Real.rpow) Real.sqrt_one real_sqrt_four
    real_sqrt_sixteen 8 Vec3.xzy 0 4
  refine ⟨hA, hB, ?_⟩
  rw [hA, hB]
  intro h
  have := congrArg Vec4.x h
  norm_num at this

/-! ## The lighting sum and the shadow test -/

theorem Vec3.add_assoc' (a b c : Vec3 K) : a + b + c = a + (b + c) := by
  ext <;> simp [add_assoc]

theorem Vec3.add_zero' (a : Vec3 K) : a + 0 = a := by ext <;> simp

theorem Vec3.zero_add' (a : Vec3 K) : 0 + a = a := by ext <;> simp

/-- The loop body of `Shade` adds the term of the light to `color`. -/
theorem shadeLight_eq (m : Machine K) (sc : Scene K) (mtl : Material K) (p n v c : Vec3 K)
    (l : Light K) : shadeLight m sc mtl p n v c l = c + lightTerm m sc mtl p n v l := by
  unfold shadeLight lightTerm
  by_cases h : shadowed m sc p l
  · have h' := h
    unfold shadowed shadowRay lightDir at h'
    rw [if_pos h]
    simp only [h'.1, h'.2, decide_True, Bool.and_self, Bool.not_true, Bool.false_eq_true,
      if_false, Vec3.add_zero']
  · have h' := h
    unfold shadowed shadowRay lightDir at h'
    rw [if_neg h]
    have hb : (!((IntersectRay m sc m.undef
        { pos := p + (normalize m (l.position - p)).scale eps,
          dir := normalize m (l.position - p) }).1 &&
        decide ((IntersectRay m sc m.undef
          { pos := p + (normalize m (l.position - p)).scale eps,
            dir := normalize m (l.position - p) }).2.t < length m (l.position - p)))) = true := by
      rcases Bool.eq_false_or_eq_true (IntersectRay m sc m.undef
        { pos := p + (normalize m (l.position - p)).scale eps,
          dir := normalize m (l.position - p) }).1 with hf | hf
      · have hlt : ¬ (IntersectRay m sc m.undef
            { pos := p + (normalize m (l.position - p)).scale eps,
              dir := normalize m (l.position - p) }).2.t < length m (l.position - p) :=
          fun hl => h' ⟨hf, hl⟩
        simp [hf, hlt]
      · simp [hf]
    simp only [hb, if_true]
    rfl

theorem foldl_shadeLight_sum (m : Machine K) (sc : Scene K) (mtl : Material K) (p n v : Vec3 K)
    (ls : List (Light K)) : ∀ c : Vec3 K,
      ls.foldl (shadeLight m sc mtl p n v) c = c + (ls.map (lightTerm m sc mtl p n v)).sum := by
  induction ls with
  | nil => intro c; simp [Vec3.add_zero']
  | cons a l ih =>
    intro c
    rw [List.foldl_cons, ih, shadeLight_eq, List.map_cons, List.sum_cons, Vec3.add_assoc']

/-- C5: `Shade` returns the sum over the lights of a per-light term that is
zero when the light is shadowed, that is, when `IntersectRay` on the shadow
ray finds a hit with `t` less than the distance from `position` to the light,
and is otherwise `(k_d * diffuse + k_s * specular) * intensity`; nothing else
is added and the sum is not clamped. -/
theorem Shade_sum_over_lights (m : Machine K) (sc : Scene K) (mtl : Material K)
    (position normal view : Vec3 K) :
    Shade m sc mtl position normal view =
      (sc.lights.map fun l =>
        if (IntersectRay m sc m.undef (shadowRay m position l)).1 = true ∧
            (IntersectRay m sc m.undef (shadowRay m position l)).2.t
              < length m (l.position - position)
        then 0
        else
          (mtl.k_d.scale (max (dot normal (lightDir m position l)) 0) +
            mtl.k_s.scale
              (m.pow (max (dot normal (normalize m (lightDir m position l + view))) 0) mtl.n)) *
            l.intensity).sum := by
  unfold Shade
  rw [foldl_shadeLight_sum, Vec3.zero_add']
  rfl

/-- The near root solves `a t^2 + b t + c = 0` when `sq` is a square root
of the discriminant. -/
theorem near_root_is_root (a b c sq : K) (ha : a ≠ 0) (hsq : sq * sq = b * b - 4 * a * c) :
    a * ((-b - sq) / (2 * a)) * ((-b - sq) / (2 * a)) + b * ((-b - sq) / (2 * a)) + c = 0 := by
  field_simp
  linear_combination (2 * a * a) * hsq

theorem onSphere_ray (ray : Ray K) (s : Sphere K) (t : K) :
    onSphere s (ray.pos + ray.dir.scale t) ↔
      dot ray.dir ray.dir * t * t + 2 * dot (ray.pos - s.center) ray.dir * t
        + (dot (ray.pos - s.center) (ray.pos - s.center) - s.radius * s.radius) = 0 := by
  unfold onSphere
  simp only [dot, Vec3.sub_x, Vec3.sub_y, Vec3.sub_z, Vec3.add_x, Vec3.add_y, Vec3.add_z,
    Vec3.scale_x, Vec3.scale_y, Vec3.scale_z]
  constructor
  · intro h; linear_combination h
  · intro h; linear_combination h

theorem dot_self_eq_zero (v : Vec3 K) (h : dot v v = 0) : v.x = 0 ∧ v.y = 0 ∧ v.z = 0 := by
  unfold dot at h
  have hx := mul_self_nonneg v.x
  have hy := mul_self_nonneg v.y
  have hz := mul_self_nonneg v.z
  refine ⟨?_, ?_, ?_⟩
  · exact mul_self_eq_zero.mp (by linarith)
  · exact mul_self_eq_zero.mp (by linarith)
  · exact mul_self_eq_zero.mp (by linarith)

/-- A positive discriminant excludes a zero direction: the division by `2a`
in `IntersectRay` has `a ≠ 0`. -/
theorem dir_ne_zero_of_discriminant_pos (ray : Ray K) (s : Sphere K)
    (h : discriminant ray s > 0) : dot ray.dir ray.dir ≠ 0 := by
  intro h0
  obtain ⟨hx, hy, hz⟩ := dot_self_eq_zero _ h0
  unfold discriminant at h
  simp only [dot, hx, hy, hz] at h
  simp at h

/-- With an exact square root, the near root of a sphere with positive
discriminant is the parameter of a point of the ray on the sphere. -/
theorem nearRoot_onSphere (m : Machine K) (hsqrt : ∀ x : K, 0 < x → m.sqrt x * m.sqrt x = x)
    (ray : Ray K) (s : Sphere K) (hd : discriminant ray s > 0) :
    onSphere s (ray.pos + ray.dir.scale (nearRoot m ray s)) := by
  rw [onSphere_ray]
  exact near_root_is_root _ _ _ _ (dir_ne_zero_of_discriminant_pos ray s hd) (hsqrt _ hd)

/-- C6 (amended): with an exact square root, if every point at which the
ray from `position` toward the light meets a sphere lies at a parameter
`t > 0` along `lightDir` (its distance from `position`, `lightDir` being a
unit vector) at least the distance from `position` to the light plus the
0.001 offset of the shadow ray, then `Shade` does not treat the point as
shadowed for that light and adds the light's full Blinn-Phong term. -/
theorem Shade_light_not_occluded_beyond (m : Machine K) (sc : Scene K) (mtl : Material K)
    (position normal view : Vec3 K) (l : Light K)
    (hsqrt : ∀ x : K, 0 < x → m.sqrt x * m.sqrt x = x)
    (hclear : ∀ s ∈ sc.spheres, ∀ t : K, 0 < t →
      onSphere s (position + (lightDir m position l).scale t) →
      length m (l.position - position) + eps ≤ t) :
    ¬ shadowed m sc position l ∧
    ∀ color : Vec3 K, shadeLight m sc mtl position normal view color l
      = color + blinnPhong m mtl position normal view l := by
  have hns : ¬ shadowed m sc position l := by
    rintro ⟨hf, hlt⟩
    rcases IntersectRay_spec m sc m.undef (shadowRay m position l) with
      ⟨hno, _⟩ | ⟨s, hs, hacc, heq, _⟩
    · rw [hno] at hf; cases hf
    · rw [heq] at hlt
      have hon := nearRoot_onSphere m hsqrt (shadowRay m position l) s hacc.1
      have hpt : (shadowRay m position l).pos
            + (shadowRay m position l).dir.scale (nearRoot m (shadowRay m position l) s)
          = position + (lightDir m position l).scale
              (nearRoot m (shadowRay m position l) s + eps) := by
        ext <;> simp [shadowRay] <;> ring
      rw [hpt] at hon
      have heps : (0 : K) < eps := by unfold eps; norm_num
      have h1 := hclear s hs _ (by linarith [hacc.2.1]) hon
      have hlt' : nearRoot m (shadowRay m position l) s < length m (l.position - position) := hlt
      linarith
  refine ⟨hns, fun color => ?_⟩
  rw [shadeLight_eq, lightTerm, if_neg hns]

theorem lightAbove_dir (m : Machine K) (h1 : m.sqrt 1 = 1) :
    lightDir m ⟨0, 0, 0⟩ lightAbove = ⟨0, 0, 1⟩ := by
  norm_num [lightDir, lightAbove, normalize, length, dot, h1, Vec3.ext_iff]

theorem lightAbove_length (m : Machine K) (h1 : m.sqrt 1 = 1) :
    length m ((lightAbove : Light K).position - ⟨0, 0, 0⟩) = 1 := by
  norm_num [lightAbove, length, dot, h1]

theorem sceneBehind_clear (m : Machine K) (h1 : m.sqrt 1 = 1) (z n d : K) (hz : 1 + d < z - 1) :
    ∀ s ∈ (sceneBehind z n).spheres, ∀ t : K,
      onSphere s (⟨0, 0, 0⟩ + (lightDir m ⟨0, 0, 0⟩ lightAbove).scale t) →
      length m ((lightAbove : Light K).position - ⟨0, 0, 0⟩) + d < t := by
  intro s hs t hon
  rw [lightAbove_length m h1]
  rw [lightAbove_dir m h1] at hon
  simp only [sceneBehind, List.mem_singleton] at hs
  subst hs
  simp only [onSphere, dot, Vec3.sub_x, Vec3.sub_y, Vec3.sub_z, Vec3.add_x, Vec3.add_y,
    Vec3.add_z, Vec3.scale_x, Vec3.scale_y, Vec3.scale_z] at hon
  by_contra hcon
  nlinarith [not_lt.mp hcon]

theorem sceneBehind_shadowed (m : Machine K) (h1 : m.sqrt 1 = 1) (h4 : m.sqrt 4 = 2) (n : K) :
    shadowed m (sceneBehind (4001 / 2000) n) ⟨0, 0, 0⟩ lightAbove := by
  unfold shadowed
  rw [lightAbove_length m h1]
  unfold shadowRay
  rw [lightAbove_dir m h1]
  norm_num [IntersectRay, sceneBehind, intersectSphere, dot, tMax, eps, h1, h4]

theorem sceneBehind_Shade (m : Machine K) (h1 : m.sqrt 1 = 1) (h4 : m.sqrt 4 = 2) (n : K)
    (mtl : Material K) (normal view : Vec3 K) :
    Shade m (sceneBehind (4001 / 2000) n) mtl ⟨0, 0, 0⟩ normal view = 0 := by
  unfold Shade
  rw [foldl_shadeLight_sum]
  have hs := sceneBehind_shadowed m h1 h4 n
  have hl : (sceneBehind (4001 / 2000) n : Scene K).lights = [lightAbove] := rfl
  rw [hl]
  simp only [List.map_cons, List.map_nil, List.sum_cons, List.sum_nil, lightTerm, if_pos hs]
  ext <;> simp

theorem lightAbove_blinnPhong (m : Machine K) (h1 : m.sqrt 1 = 1) (n : K) (view : Vec3 K) :
    blinnPhong m (redMatte n) ⟨0, 0, 0⟩ ⟨0, 0, 1⟩ view lightAbove = ⟨1, 0, 0⟩ := by
  unfold blinnPhong
  rw [lightAbove_dir m h1]
  norm_num [redMatte, lightAbove, dot, Vec3.ext_iff]

/-- C6, counterexample: the surface point is the origin, the light is at
distance 1 in direction (0,0,1), and the only sphere is met by the ray toward
the light at distances 1.0005 and 3.0005, both beyond the light.  The shadow
ray starts at distance 0.001, so it finds the sphere at `t = 0.9995 < 1`:
`Shade` treats the point as shadowed and returns 0 in place of the
Blinn-Phong term (1,0,0). -/
theorem Shade_occluder_beyond_light_counterexample :
    (∀ s ∈ (sceneBehind (4001 / 2000 : ℝ) 8).spheres, ∀ t : ℝ,
      onSphere s (⟨0, 0, 0⟩ + (lightDir (machineOf Real.sqrt Real.rpow) ⟨0, 0, 0⟩ lightAbove).scale t) →
      length (machineOf Real.sqrt Real.rpow) ((lightAbove : Light ℝ).position - ⟨0, 0, 0⟩) < t) ∧
    lightDir (machineOf Real.sqrt Real.rpow) ⟨0, 0, 0⟩ lightAbove = ⟨0, 0, 1⟩ ∧
    shadowed (machineOf Real.sqrt Real.rpow) (sceneBehind (4001 / 2000) 8) ⟨0, 0, 0⟩ lightAbove ∧
    Shade (machineOf Real.sqrt Real.rpow) (sceneBehind (4001 / 2000) 8) (redMatte 8) ⟨0, 0, 0⟩
      ⟨0, 0, 1⟩ ⟨0, 0, 1⟩ = 0 ∧
    blinnPhong (machineOf Real.sqrt Real.rpow) (redMatte 8) ⟨0, 0, 0⟩ ⟨0, 0, 1⟩ ⟨0, 0, 1⟩ lightAbove
      = ⟨1, 0, 0⟩ :=
  ⟨fun s hs t hon => by
      simpa using sceneBehind_clear (machineOf Real.sqrt Real.rpow) Real.sqrt_one
        (4001 / 2000) 8 0 (by norm_num) s hs t hon,
    lightAbove_dir _ Real.sqrt_one,
    sceneBehind_shadowed _ Real.sqrt_one real_sqrt_four _,
    sceneBehind_Shade _ Real.sqrt_one real_sqrt_four _ _ _ _,
    lightAbove_blinnPhong _ Real.sqrt_one _ _⟩

/-- Witness of `Shade_light_not_occluded_beyond`: over the reals, with the
sphere centred at distance 3, first met at distance 2. -/
theorem Shade_light_not_occluded_beyond_witness :
    (∀ x : ℝ, 0 < x → Real.sqrt x * Real.sqrt x = x) ∧
    (∀ s ∈ (sceneBehind (3 : ℝ) 8).spheres, ∀ t : ℝ, 0 < t →
      onSphere s (⟨0, 0, 0⟩ + (lightDir (machineOf Real.sqrt Real.rpow) ⟨0, 0, 0⟩ lightAbove).scale t) →
      length (machineOf Real.sqrt Real.rpow) ((lightAbove : Light ℝ).position - ⟨0, 0, 0⟩) + eps ≤ t) ∧
    (¬ shadowed (machineOf Real.sqrt Real.rpow) (sceneBehind 3 8) ⟨0, 0, 0⟩ lightAbove ∧
      ∀ color : Vec3 ℝ,
        shadeLight (machineOf Real.sqrt Real.rpow) (sceneBehind 3 8) (redMatte 8) ⟨0, 0, 0⟩
          ⟨0, 0, 1⟩ ⟨0, 0, 1⟩ color lightAbove
        = color + blinnPhong (machineOf Real.sqrt Real.rpow) (redMatte 8) ⟨0, 0, 0⟩ ⟨0, 0, 1⟩
            ⟨0, 0, 1⟩ lightAbove) :=
  have hsqrt : ∀ x : ℝ, 0 < x → Real.sqrt x * Real.sqrt x = x :=
    fun x hx => Real.mul_self_sqrt (le_of_lt hx)
  have hclear : ∀ s ∈ (sceneBehind (3 : ℝ) 8).spheres, ∀ t : ℝ, 0 < t →
      onSphere s (⟨0, 0, 0⟩ + (lightDir (machineOf Real.sqrt Real.rpow) ⟨0, 0, 0⟩ lightAbove).scale t) →
      length (machineOf Real.sqrt Real.rpow) ((lightAbove : Light ℝ).position - ⟨0, 0, 0⟩) + eps ≤ t :=
    fun s hs t _ hon =>
      le_of_lt (sceneBehind_clear _ Real.sqrt_one 3 8 eps (by unfold eps; norm_num) s hs t hon)
  ⟨hsqrt, hclear,
    Shade_light_not_occluded_beyond (machineOf Real.sqrt Real.rpow) (sceneBehind 3 8) (redMatte 8)
      ⟨0, 0, 0⟩ ⟨0, 0, 1⟩ ⟨0, 0, 1⟩ lightAbove hsqrt hclear⟩

/-! ## The reflection loop -/

/-- C7: when the primary hit has specular channels of positive sum,
`bounceLimit >= 1`, `MAX_BOUNCES >= 1`, and the reflection ray (origin
`hit.position + 0.001 * hit.normal`, direction `reflect(ray.dir, hit.normal)`)
hits nothing, `RayTracer` returns the shading of the primary hit plus `k_s`
times the environment colour of the reflection direction, with alpha 1, and
exactly one reflection ray is evaluated. -/
theorem RayTracer_reflection_miss (m : Machine K) (sc : Scene K) (ray : Ray K)
    (hit hit' : HitInfo K)
    (hfound : (IntersectRay m sc hit ray).1 = true)
    (hks : 0 < (IntersectRay m sc hit ray).2.mtl.k_s.x + (IntersectRay m sc hit ray).2.mtl.k_s.y
      + (IntersectRay m sc hit ray).2.mtl.k_s.z)
    (hbl : 1 ≤ sc.bounceLimit) (hmax : 1 ≤ sc.MAX_BOUNCES)
    (hmiss : (IntersectRay m sc hit'
      { pos := (IntersectRay m sc hit ray).2.position
          + (IntersectRay m sc hit ray).2.normal.scale eps
        dir := reflect ray.dir (IntersectRay m sc hit ray).2.normal }).1 = false) :
    RayTracer m sc ray =
      vec4 (Shade m sc (IntersectRay m sc hit ray).2.mtl (IntersectRay m sc hit ray).2.position
          (IntersectRay m sc hit ray).2.normal (normalize m (-ray.dir))
        + (IntersectRay m sc hit ray).2.mtl.k_s
          * sc.envMap (reflect ray.dir (IntersectRay m sc hit ray).2.normal).xzy) 1 ∧
    reflectionRays m sc ray = 1 := by
  have h1 : (IntersectRay m sc m.undef ray).1 = true := by
    rw [(IntersectRay_indep m sc m.undef hit ray).1]; exact hfound
  have h2 : IntersectRay m sc m.undef ray = IntersectRay m sc hit ray :=
    (IntersectRay_indep m sc m.undef hit ray).2 h1
  have h3 : (IntersectRay m sc m.undef
      { pos := (IntersectRay m sc hit ray).2.position
          + (IntersectRay m sc hit ray).2.normal.scale eps
        dir := reflect ray.dir (IntersectRay m sc hit ray).2.normal }).1 = false := by
    rw [(IntersectRay_indep m sc m.undef hit' _).1]; exact hmiss
  obtain ⟨n, hn⟩ : ∃ n, sc.MAX_BOUNCES = n + 1 := ⟨sc.MAX_BOUNCES - 1, by omega⟩
  have hb : ¬ ((0 : Int) ≥ sc.bounceLimit) := by omega
  simp only [RayTracer, reflectionRays, traceHit, h2, hfound, if_true, hn, reflectionLoop, hb,
    if_false, not_le.mpr hks, reflectionRay, h3, Bool.false_eq_true, zero_add, and_true]

/-- From bounce index `bounce` with `n` iterations left, the loop evaluates
at most `min(bounceLimit - bounce, n)` more reflection rays. -/
theorem reflectionLoop_rays_le (m : Machine K) (sc : Scene K) :
    ∀ (n : Nat) (bounce : Int) (s : Bounce K),
      ((reflectionLoop m sc n bounce s).rays : Int)
        ≤ s.rays + max 0 (min (sc.bounceLimit - bounce) n) := by
  intro n
  induction n with
  | zero => intro bounce s; simp [reflectionLoop]
  | succ n ih =>
    intro bounce s
    simp only [reflectionLoop]
    split_ifs with h1 h2 h3
    · have := le_max_left (0 : Int) (min (sc.bounceLimit - bounce) ((n + 1 : Nat) : Int)); omega
    · have := le_max_left (0 : Int) (min (sc.bounceLimit - bounce) ((n + 1 : Nat) : Int)); omega
    · have := ih (bounce + 1)
        { clr := s.clr + s.k_s * Shade m sc
            (IntersectRay m sc m.undef (reflectionRay s.ray s.hit)).2.mtl
            (IntersectRay m sc m.undef (reflectionRay s.ray s.hit)).2.position
            (IntersectRay m sc m.undef (reflectionRay s.ray s.hit)).2.normal
            (normalize m (-(reflectionRay s.ray s.hit).dir))
          k_s := s.k_s * (IntersectRay m sc m.undef (reflectionRay s.ray s.hit)).2.mtl.k_s
          ray := reflectionRay s.ray s.hit
          hit := (IntersectRay m sc m.undef (reflectionRay s.ray s.hit)).2
          rays := s.rays + 1
          ksLog := s.ksLog ++
            [s.k_s * (IntersectRay m sc m.undef (reflectionRay s.ray s.hit)).2.mtl.k_s] }
      simp only [] at this
      push_cast at this ⊢
      omega
    · push_cast
      omega

/-- C9: `RayTracer` is a total function, and the number of reflection rays
its loop passes to `IntersectRay` is at most `min(bounceLimit, MAX_BOUNCES)`,
and is zero when that minimum is not positive, for every scene and ray. -/
theorem RayTracer_reflection_rays_bounded (m : Machine K) (sc : Scene K) (ray : Ray K) :
    (reflectionRays m sc ray : Int) ≤ max 0 (min sc.bounceLimit sc.MAX_BOUNCES) := by
  simp only [reflectionRays]
  split_ifs with h
  · have := reflectionLoop_rays_le m sc sc.MAX_BOUNCES 0
      { clr := Shade m sc (IntersectRay m sc m.undef ray).2.mtl
          (IntersectRay m sc m.undef ray).2.position (IntersectRay m sc m.undef ray).2.normal
          (normalize m (-ray.dir))
        k_s := (IntersectRay m sc m.undef ray).2.mtl.k_s
        ray := ray
        hit := (IntersectRay m sc m.undef ray).2
        rays := 0
        ksLog := [(IntersectRay m sc m.undef ray).2.mtl.k_s] }
    simpa [traceHit] using this
  · simp

/-- The material of a hit found by `IntersectRay` is the material of a
sphere of the scene. -/
theorem IntersectRay_mtl_mem (m : Machine K) (sc : Scene K) (hit : HitInfo K) (ray : Ray K)
    (hf : (IntersectRay m sc hit ray).1 = true) :
    ∃ s ∈ sc.spheres, (IntersectRay m sc hit ray).2.mtl = s.mtl := by
  rcases IntersectRay_spec m sc hit ray with ⟨hno, _⟩ | ⟨s, hs, _, heq, _⟩
  · rw [hno] at hf; cases hf
  · exact ⟨s, hs, by rw [heq]; rfl⟩

theorem attenuate_le (k c : Vec3 K) (hk : Vec3.le 0 k) (h0 : Vec3.le 0 c)
    (h1 : Vec3.le c ⟨1, 1, 1⟩) : Vec3.le 0 (k * c) ∧ Vec3.le (k * c) k := by
  obtain ⟨kx, ky, kz⟩ := hk
  obtain ⟨cx, cy, cz⟩ := h0
  obtain ⟨dx, dy, dz⟩ := h1
  simp only [Vec3.zero_x, Vec3.zero_y, Vec3.zero_z] at kx ky kz cx cy cz
  refine ⟨⟨?_, ?_, ?_⟩, ⟨?_, ?_, ?_⟩⟩
  · exact mul_nonneg kx cx
  · exact mul_nonneg ky cy
  · exact mul_nonneg kz cz
  · exact mul_le_of_le_one_right kx dx
  · exact mul_le_of_le_one_right ky dy
  · exact mul_le_of_le_one_right kz dz

/-- The reflection loop preserves `ksInv`. -/
theorem reflectionLoop_ksInv (m : Machine K) (sc : Scene K)
    (hks : ∀ s ∈ sc.spheres, Vec3.le 0 s.mtl.k_s ∧ Vec3.le s.mtl.k_s ⟨1, 1, 1⟩) :
    ∀ (n : Nat) (bounce : Int) (s : Bounce K), ksInv s → ksInv (reflectionLoop m sc n bounce s) := by
  intro n
  induction n with
  | zero => intro bounce s hs; exact hs
  | succ n ih =>
    intro bounce s hs
    simp only [reflectionLoop]
    split_ifs with h1 h2 h3
    · exact hs
    · exact hs
    · apply ih
      obtain ⟨hlast, hnn, hch, hall⟩ := hs
      obtain ⟨sp, hsp, hm⟩ := IntersectRay_mtl_mem m sc m.undef (reflectionRay s.ray s.hit) h3
      obtain ⟨hn0, hle⟩ := attenuate_le s.k_s _ hnn (hm ▸ (hks sp hsp).1) (hm ▸ (hks sp hsp).2)
      refine ⟨List.getLast?_concat _, hn0, ?_, ?_⟩
      · refine List.Chain'.append hch (List.chain'_singleton _) ?_
        intro x hx y hy
        rw [hlast] at hx
        cases hx
        cases hy
        exact hle
      · intro k hk
        rcases List.mem_append.mp hk with hk | hk
        · exact hall k hk
        · rw [List.mem_singleton.mp hk]; exact hn0
    · exact hs

/-- C8: when the specular coefficient of every sphere material lies in
[0,1] per channel, the successive values of the attenuation factor `k_s` in
a run of `RayTracer` are component-wise non-increasing from each bounce to
the next, and non-negative. -/
theorem attenuation_nonincreasing (m : Machine K) (sc : Scene K) (ray : Ray K)
    (hks : ∀ s ∈ sc.spheres, Vec3.le 0 s.mtl.k_s ∧ Vec3.le s.mtl.k_s ⟨1, 1, 1⟩) :
    List.Chain' (fun k k' : Vec3 K => Vec3.le k' k) (attenuations m sc ray) ∧
    ∀ k ∈ attenuations m sc ray, Vec3.le 0 k := by
  simp only [attenuations]
  split_ifs with h
  · obtain ⟨sp, hsp, hm⟩ := IntersectRay_mtl_mem m sc m.undef ray h
    have hinv := reflectionLoop_ksInv m sc hks sc.MAX_BOUNCES 0
      { clr := Shade m sc (IntersectRay m sc m.undef ray).2.mtl
          (IntersectRay m sc m.undef ray).2.position (IntersectRay m sc m.undef ray).2.normal
          (normalize m (-ray.dir))
        k_s := (IntersectRay m sc m.undef ray).2.mtl.k_s
        ray := ray
        hit := (IntersectRay m sc m.undef ray).2
        rays := 0
        ksLog := [(IntersectRay m sc m.undef ray).2.mtl.k_s] }
      ⟨rfl, hm ▸ (hks sp hsp).1, List.chain'_singleton _, by
        intro k hk
        rw [List.mem_singleton.mp hk]
        exact hm ▸ (hks sp hsp).1⟩
    exact ⟨hinv.2.2.1, hinv.2.2.2⟩
  · exact ⟨List.chain'_nil, by simp⟩

theorem sceneShiny_reflection_miss (m : Machine K) (h4 : m.sqrt 4 = 2) (n : K)
    (env : Vec3 K → Vec3 K) (bl : Int) (mb : Nat) (hit : HitInfo K) :
    (IntersectRay m (sceneShiny n env bl mb) hit
      { pos := (⟨0, 0, -4⟩ : Vec3 K) + (⟨0, 0, 1⟩ : Vec3 K).scale eps
        dir := reflect (ray10 : Ray K).dir ⟨0, 0, 1⟩ }).1 = false := by
  norm_num [IntersectRay, sceneShiny, ray10, intersectSphere, dot, tMax, eps, h4, reflect]

/-- Witness of `RayTracer_reflection_miss`: in `sceneShiny` the ray
reflected at (0,0,-4) leaves in direction (0,0,1) and misses the sphere. -/
theorem RayTracer_reflection_miss_witness :
    (IntersectRay (machineOf Real.sqrt Real.rpow) (sceneShiny 8 Vec3.xzy 2 4)
      (machineOf Real.sqrt Real.rpow).undef ray10).1 = true ∧
    0 < (IntersectRay (machineOf Real.sqrt Real.rpow) (sceneShiny 8 Vec3.xzy 2 4)
          (machineOf Real.sqrt Real.rpow).undef ray10).2.mtl.k_s.x
        + (IntersectRay (machineOf Real.sqrt Real.rpow) (sceneShiny 8 Vec3.xzy 2 4)
          (machineOf Real.sqrt Real.rpow).undef ray10).2.mtl.k_s.y
        + (IntersectRay (machineOf Real.sqrt Real.rpow) (sceneShiny 8 Vec3.xzy 2 4)
          (machineOf Real.sqrt Real.rpow).undef ray10).2.mtl.k_s.z ∧
    (1 : Int) ≤ (sceneShiny (8 : ℝ) Vec3.xzy 2 4).bounceLimit ∧
    1 ≤ (sceneShiny (8 : ℝ) Vec3.xzy 2 4).MAX_BOUNCES ∧
    RayTracer (machineOf Real.sqrt Real.rpow) (sceneShiny 8 Vec3.xzy 2 4) ray10 = ⟨2, 1, 2, 1⟩ ∧
    reflectionRays (machineOf Real.sqrt Real.rpow) (sceneShiny 8 Vec3.xzy 2 4) ray10 = 1 := by
  have hp := sceneShiny_primary (machineOf Real.sqrt Real.rpow) Real.sqrt_one real_sqrt_four
    8 Vec3.xzy 2 4 (machineOf Real.sqrt Real.rpow).undef
  have hk : 0 < (IntersectRay (machineOf Real.sqrt Real.rpow) (sceneShiny 8 Vec3.xzy 2 4)
          (machineOf Real.sqrt Real.rpow).undef ray10).2.mtl.k_s.x
        + (IntersectRay (machineOf Real.sqrt Real.rpow) (sceneShiny 8 Vec3.xzy 2 4)
          (machineOf Real.sqrt Real.rpow).undef ray10).2.mtl.k_s.y
        + (IntersectRay (machineOf Real.sqrt Real.rpow) (sceneShiny 8 Vec3.xzy 2 4)
          (machineOf Real.sqrt Real.rpow).undef ray10).2.mtl.k_s.z := by
    rw [hp]; norm_num [redShiny]
  have hbl : (1 : Int) ≤ (sceneShiny (8 : ℝ) Vec3.xzy 2 4).bounceLimit := by decide
  have hmb : 1 ≤ (sceneShiny (8 : ℝ) Vec3.xzy 2 4).MAX_BOUNCES := by decide
  have h := RayTracer_reflection_miss (machineOf Real.sqrt Real.rpow) (sceneShiny 8 Vec3.xzy 2 4)
    ray10 (machineOf Real.sqrt Real.rpow).undef (machineOf Real.sqrt Real.rpow).undef
    (by rw [hp]) hk hbl hmb
    (by rw [hp]; exact sceneShiny_reflection_miss _ real_sqrt_four _ _ _ _ _)
  refine ⟨by rw [hp], hk, hbl, hmb, ?_, h.2⟩
  rw [h.1, hp]
  simp only []
  rw [sceneShiny_Shade _ Real.sqrt_one real_sqrt_four real_sqrt_sixteen]
  norm_num [vec4, redShiny, sceneShiny, reflect, ray10, dot, Vec3.xzy, machineOf, Vec4.ext_iff]

theorem sceneMirrors_primary (m : Machine K) (h4 : m.sqrt 4 = 2) (h1 : m.sqrt 1 = 1) (n : K)
    (hit : HitInfo K) :
    IntersectRay m (sceneMirrors n) hit ray10
      = (true, ⟨4, ⟨0, 0, -4⟩, ⟨0, 0, 1⟩, halfMirror n⟩) := by
  norm_num [IntersectRay, sceneMirrors, ray10, intersectSphere, dot, tMax,
    eps, h4, h1, normalize, length, Vec3.ext_iff]

theorem sceneMirrors_first (m : Machine K) (h4 : m.sqrt 4 = 2) (h1 : m.sqrt 1 = 1) (n : K)
    (hit : HitInfo K) :
    IntersectRay m (sceneMirrors n) hit
        (reflectionRay ray10 ⟨4, ⟨0, 0, -4⟩, ⟨0, 0, 1⟩, halfMirror n⟩)
      = (true, ⟨7999 / 1000, ⟨0, 0, 4⟩, ⟨0, 0, -1⟩, halfMirror n⟩) := by
  norm_num [IntersectRay, sceneMirrors, ray10, intersectSphere, dot, tMax,
    eps, h4, h1, normalize, length, Vec3.ext_iff, reflectionRay, reflect]

theorem sceneMirrors_second (m : Machine K) (h4 : m.sqrt 4 = 2) (h1 : m.sqrt 1 = 1) (n : K)
    (hit : HitInfo K) :
    IntersectRay m (sceneMirrors n) hit
        (reflectionRay (reflectionRay ray10 ⟨4, ⟨0, 0, -4⟩, ⟨0, 0, 1⟩, halfMirror n⟩)
          ⟨7999 / 1000, ⟨0, 0, 4⟩, ⟨0, 0, -1⟩, halfMirror n⟩)
      = (true, ⟨7999 / 1000, ⟨0, 0, -4⟩, ⟨0, 0, 1⟩, halfMirror n⟩) := by
  norm_num [IntersectRay, sceneMirrors, ray10, intersectSphere, dot, tMax,
    eps, h4, h1, normalize, length, Vec3.ext_iff, reflectionRay, reflect]

/-- The attenuation factor in `sceneMirrors`: 1/2 after the primary hit, 1/4
and 1/8 after the two bounces. -/
theorem sceneMirrors_attenuations (m : Machine K) (h4 : m.sqrt 4 = 2) (h1 : m.sqrt 1 = 1)
    (n : K) :
    attenuations m (sceneMirrors n) ray10
      = [⟨1 / 2, 1 / 2, 1 / 2⟩, ⟨1 / 4, 1 / 4, 1 / 4⟩, ⟨1 / 8, 1 / 8, 1 / 8⟩] := by
  have hmb : (sceneMirrors n).MAX_BOUNCES = 2 := rfl
  have hbl : (sceneMirrors n).bounceLimit = 2 := rfl
  simp only [attenuations, traceHit, sceneMirrors_primary m h4 h1, if_true, hmb, reflectionLoop,
    hbl, sceneMirrors_first m h4 h1, sceneMirrors_second m h4 h1]
  norm_num [halfMirror, Vec3.ext_iff]

/-- Witness of `attenuation_nonincreasing`: over the reals, in `sceneMirrors`
the specular coefficients are (1/2,1/2,1/2) and the attenuation factor goes
from 1/2 to 1/4 to 1/8 over two bounces. -/
theorem attenuation_nonincreasing_witness :
    (∀ s ∈ (sceneMirrors (8 : ℝ)).spheres,
      Vec3.le 0 s.mtl.k_s ∧ Vec3.le s.mtl.k_s ⟨1, 1, 1⟩) ∧
    attenuations (machineOf Real.sqrt Real.rpow) (sceneMirrors 8) ray10
      = [⟨1 / 2, 1 / 2, 1 / 2⟩, ⟨1 / 4, 1 / 4, 1 / 4⟩, ⟨1 / 8, 1 / 8, 1 / 8⟩] ∧
    (List.Chain' (fun k k' : Vec3 ℝ => Vec3.le k' k)
        (attenuations (machineOf Real.sqrt Real.rpow) (sceneMirrors 8) ray10) ∧
      ∀ k ∈ attenuations (machineOf Real.sqrt Real.rpow) (sceneMirrors 8) ray10,
        Vec3.le 0 k) :=
  have hks : ∀ s ∈ (sceneMirrors (8 : ℝ)).spheres,
      Vec3.le 0 s.mtl.k_s ∧ Vec3.le s.mtl.k_s ⟨1, 1, 1⟩ := by
    intro s hs
    simp only [sceneMirrors, List.mem_cons, List.mem_singleton, List.not_mem_nil, or_false] at hs
    rcases hs with rfl | rfl <;> norm_num [Vec3.le, halfMirror]
  ⟨hks, sceneMirrors_attenuations _ real_sqrt_four Real.sqrt_one 8,
    attenuation_nonincreasing _ _ _ hks⟩

/-! ## The test scenario -/

/-- An exact square root is determined by its square. -/
theorem sqrt_unique (m : Machine K) (hsqrt : ∀ x : K, 0 ≤ x → 0 ≤ m.sqrt x ∧ m.sqrt x * m.sqrt x = x)
    (x y : K) (hy : 0 ≤ y) (hyy : y * y = x) : m.sqrt x = y := by
  have hx : 0 ≤ x := hyy ▸ mul_self_nonneg y
  obtain ⟨h0, h1⟩ := hsqrt x hx
  nlinarith [mul_self_nonneg (m.sqrt x - y)]

/-- A ray whose origin is inside or on the sphere has a near root that is
not positive, with an exact square root: `IntersectRay` does not accept it. -/
theorem nearRoot_nonpos_of_inside (m : Machine K)
    (hsqrt : ∀ x : K, 0 ≤ x → 0 ≤ m.sqrt x ∧ m.sqrt x * m.sqrt x = x) (ray : Ray K) (s : Sphere K)
    (hin : dot (ray.pos - s.center) (ray.pos - s.center) ≤ s.radius * s.radius)
    (hd : discriminant ray s > 0) : nearRoot m ray s ≤ 0 := by
  have ha0 := dir_ne_zero_of_discriminant_pos ray s hd
  have ha : 0 < dot ray.dir ray.dir := by
    have : 0 ≤ dot ray.dir ray.dir := by
      unfold dot
      nlinarith [mul_self_nonneg ray.dir.x, mul_self_nonneg ray.dir.y, mul_self_nonneg ray.dir.z]
    exact lt_of_le_of_ne this (Ne.symm ha0)
  obtain ⟨hr0, hrr⟩ := hsqrt _ (le_of_lt hd)
  unfold nearRoot
  apply div_nonpos_of_nonpos_of_nonneg _ (by linarith)
  have hdisc : discriminant ray s ≥ (2 * dot (ray.pos - s.center) ray.dir)
      * (2 * dot (ray.pos - s.center) ray.dir) := by
    unfold discriminant
    nlinarith
  nlinarith [mul_self_nonneg (m.sqrt (discriminant ray s) + 2 * dot (ray.pos - s.center) ray.dir)]

theorem scene10_lightDir (m : Machine K) :
    lightDir m ⟨0, 0, -4⟩ light10 = ⟨0, 5 * (m.sqrt 26)⁻¹, -(m.sqrt 26)⁻¹⟩ := by
  norm_num [lightDir, light10, normalize, length, dot, Vec3.ext_iff, div_eq_mul_inv]

theorem scene10_unshadowed (m : Machine K)
    (hsqrt : ∀ x : K, 0 ≤ x → 0 ≤ m.sqrt x ∧ m.sqrt x * m.sqrt x = x)
    (n : K) (env : Vec3 K → Vec3 K) (bl : Int) (mb : Nat) :
    (IntersectRay m (scene10 n env bl mb) m.undef (shadowRay m ⟨0, 0, -4⟩ light10)).1 = false := by
  obtain ⟨hs0, hss⟩ := hsqrt 26 (by norm_num)
  have hspos : 0 < m.sqrt 26 := by
    rcases eq_or_lt_of_le hs0 with h | h
    · rw [← h] at hss; norm_num at hss
    · exact h
  have hu : (m.sqrt 26)⁻¹ * m.sqrt 26 = 1 := inv_mul_cancel₀ (ne_of_gt hspos)
  have hupos : 0 < (m.sqrt 26)⁻¹ := inv_pos.mpr hspos
  rcases IntersectRay_spec m (scene10 n env bl mb) m.undef (shadowRay m ⟨0, 0, -4⟩ light10) with
    ⟨hno, _⟩ | ⟨s, hs, hacc, _, _⟩
  · exact hno
  · exfalso
    simp only [scene10, List.mem_singleton] at hs
    subst hs
    have hin : dot ((shadowRay m ⟨0, 0, -4⟩ light10).pos - (⟨0, 0, -5⟩ : Vec3 K))
        ((shadowRay m ⟨0, 0, -4⟩ light10).pos - (⟨0, 0, -5⟩ : Vec3 K)) ≤ 1 * 1 := by
      unfold shadowRay
      rw [scene10_lightDir m]
      simp only [dot, eps, Vec3.sub_x, Vec3.sub_y, Vec3.sub_z, Vec3.add_x, Vec3.add_y, Vec3.add_z,
        Vec3.scale_x, Vec3.scale_y, Vec3.scale_z]
      generalize (m.sqrt 26)⁻¹ = u at hu hupos
      generalize m.sqrt 26 = r at hu hss hspos hs0
      have hu26 : 26 * u * u = 1 := by
        have : (u * r) * (u * r) = 1 := by rw [hu]; ring
        nlinarith
      have hule : u ≥ 1 / 26 := by nlinarith
      nlinarith
    have := nearRoot_nonpos_of_inside m hsqrt _ _ hin hacc.1
    have heps : (0 : K) < eps := by unfold eps; norm_num
    linarith [hacc.2.1]

/-- C10: in the scene with one sphere (centre (0,0,-5), radius 1, diffuse
(1,0,0), specular (0,0,0)) and one light (at (0,5,-5), intensity (1,1,1)),
with an exact square root, the primary ray from the origin in direction
(0,0,-1) is hit at `t = 4`; the shadow test of `Shade` finds the light
unobstructed; the specular term is zero and no reflection ray is evaluated;
and the colour `RayTracer` returns is the diffuse term
`k_d * max(dot(normal, lightDir), 0) * intensity` of that light, with alpha 1.
The light lies behind the tangent plane at the hit, so this term is
(0,0,0). -/
theorem scene10_render (m : Machine K)
    (hsqrt : ∀ x : K, 0 ≤ x → 0 ≤ m.sqrt x ∧ m.sqrt x * m.sqrt x = x)
    (n : K) (env : Vec3 K → Vec3 K) (bl : Int) (mb : Nat) (hit : HitInfo K) :
    IntersectRay m (scene10 n env bl mb) hit ray10
      = (true, ⟨4, ⟨0, 0, -4⟩, ⟨0, 0, 1⟩, redMatte n⟩) ∧
    ¬ shadowed m (scene10 n env bl mb) ⟨0, 0, -4⟩ light10 ∧
    (redMatte n).k_s.scale (m.pow (max (dot ⟨0, 0, 1⟩ (normalize m
        (lightDir m ⟨0, 0, -4⟩ light10 + normalize m (-(ray10 : Ray K).dir)))) 0) n) = 0 ∧
    reflectionRays m (scene10 n env bl mb) ray10 = 0 ∧
    RayTracer m (scene10 n env bl mb) ray10
      = vec4 ((redMatte n).k_d.scale (max (dot ⟨0, 0, 1⟩ (lightDir m ⟨0, 0, -4⟩ light10)) 0)
          * (light10 : Light K).intensity) 1 ∧
    RayTracer m (scene10 n env bl mb) ray10 = ⟨0, 0, 0, 1⟩ := by
  have h4 : m.sqrt 4 = 2 := sqrt_unique m hsqrt 4 2 (by norm_num) (by norm_num)
  have h1 : m.sqrt 1 = 1 := sqrt_unique m hsqrt 1 1 (by norm_num) (by norm_num)
  have hp := scene10_primary m h4 h1 n env bl mb
  have hns : ¬ shadowed m (scene10 n env bl mb) ⟨0, 0, -4⟩ light10 := by
    rintro ⟨hf, _⟩
    rw [scene10_unshadowed m hsqrt] at hf
    cases hf
  have hsh : ∀ view : Vec3 K, Shade m (scene10 n env bl mb) (redMatte n) ⟨0, 0, -4⟩ ⟨0, 0, 1⟩ view
      = (redMatte n).k_d.scale (max (dot ⟨0, 0, 1⟩ (lightDir m ⟨0, 0, -4⟩ light10)) 0)
          * (light10 : Light K).intensity := by
    intro view
    have hl : (scene10 n env bl mb).lights = [light10] := rfl
    unfold Shade
    rw [foldl_shadeLight_sum, hl]
    simp only [List.map_cons, List.map_nil, List.sum_cons, List.sum_nil, lightTerm, if_neg hns,
      blinnPhong]
    ext <;> simp [redMatte]
  have hrt := RayTracer_direct m (scene10 n env bl mb) ray10 _ (hp m.undef)
    (Or.inr (by simp [redMatte]))
  have hrays : reflectionRays m (scene10 n env bl mb) ray10 = 0 := by
    simp only [reflectionRays, hp m.undef, if_true, traceHit]
    rw [reflectionLoop_no_energy m _ _ _ _ (by simp [redMatte])]
  have hs0 := (hsqrt 26 (by norm_num)).1
  have hdiff : max (dot (⟨0, 0, 1⟩ : Vec3 K) (lightDir m ⟨0, 0, -4⟩ light10)) 0 = 0 := by
    rw [scene10_lightDir]
    apply max_eq_right
    simp only [dot, zero_mul, one_mul, zero_add]
    have := inv_nonneg.mpr hs0
    linarith
  refine ⟨hp hit, hns, ?_, hrays, ?_, ?_⟩
  · ext <;> simp [redMatte]
  · rw [hrt]; simp only []; rw [hsh]
  · rw [hrt]; simp only []; rw [hsh, hdiff]; ext <;> simp [vec4]

/-- Witness of `scene10_render`: over the reals, `Real.sqrt` is an exact
square root. -/
theorem scene10_render_witness :
    (∀ x : ℝ, 0 ≤ x → 0 ≤ Real.sqrt x ∧ Real.sqrt x * Real.sqrt x = x) ∧
    (IntersectRay (machineOf Real.sqrt Real.rpow) (scene10 8 Vec3.xzy 3 4)
        (machineOf Real.sqrt Real.rpow).undef ray10).2.t = 4 ∧
    RayTracer (machineOf Real.sqrt Real.rpow) (scene10 8 Vec3.xzy 3 4) ray10 = ⟨0, 0, 0, 1⟩ :=
  have hsqrt : ∀ x : ℝ, 0 ≤ x → 0 ≤ Real.sqrt x ∧ Real.sqrt x * Real.sqrt x = x :=
    fun x hx => ⟨Real.sqrt_nonneg x, Real.mul_self_sqrt hx⟩
  have h := scene10_render (machineOf Real.sqrt Real.rpow) hsqrt 8 Vec3.xzy 3 4
    (machineOf Real.sqrt Real.rpow).undef
  ⟨hsqrt, by rw [h.1], h.2.2.2.2.2⟩

/-! ## Geometry of a hit -/

/-- A hit found by `IntersectRay` is the hit record of an accepted sphere. -/
theorem IntersectRay_hitOf (m : Machine K) (sc : Scene K) (hit : HitInfo K) (ray : Ray K)
    (hf : (IntersectRay m sc hit ray).1 = true) :
    ∃ s ∈ sc.spheres, accepted m ray s ∧ (IntersectRay m sc hit ray).2 = hitOf m ray s := by
  rcases IntersectRay_spec m sc hit ray with ⟨hno, _⟩ | ⟨s, hs, hacc, heq, _⟩
  · rw [hno] at hf; cases hf
  · exact ⟨s, hs, hacc, by rw [heq]⟩

/-- With an exact square root, the distance from the centre of the sphere to
the point of the near root is the absolute value of the radius. -/
theorem hitOf_length (m : Machine K)
    (hsqrt : ∀ x : K, 0 ≤ x → 0 ≤ m.sqrt x ∧ m.sqrt x * m.sqrt x = x)
    (ray : Ray K) (s : Sphere K) (hd : discriminant ray s > 0) :
    length m ((hitOf m ray s).position - s.center) = |s.radius| := by
  have hon := nearRoot_onSphere m (fun x hx => (hsqrt x (le_of_lt hx)).2) ray s hd
  unfold onSphere at hon
  unfold length
  apply sqrt_unique m hsqrt _ _ (abs_nonneg _)
  rw [abs_mul_abs_self]
  exact hon.symm

/-- Along the ray, the centre-to-hit vector of the near root has the dot
product `-sqrt(discriminant) / 2` with the direction. -/
theorem hitOf_dot_dir (m : Machine K) (ray : Ray K) (s : Sphere K)
    (hd : discriminant ray s > 0) :
    dot ray.dir ((hitOf m ray s).position - s.center) = -(m.sqrt (discriminant ray s)) / 2 := by
  have ha := dir_ne_zero_of_discriminant_pos ray s hd
  simp only [hitOf, nearRoot, dot, Vec3.sub_x, Vec3.sub_y, Vec3.sub_z, Vec3.add_x, Vec3.add_y,
    Vec3.add_z, Vec3.scale_x, Vec3.scale_y, Vec3.scale_z] at ha ⊢
  field_simp
  ring

/-- A vector of squared length `r * r`, divided by `r`, has squared length 1. -/
theorem dot_div_self (v : Vec3 K) (r : K) (hr : r ≠ 0) (hv : dot v v = r * r) :
    dot (v.div r) (v.div r) = 1 := by
  simp only [dot, Vec3.div_x, Vec3.div_y, Vec3.div_z] at hv ⊢
  field_simp
  linear_combination hv

/-- C11: with an exact square root, for every hit that `IntersectRay` returns
on a scene whose spheres all have radius > 0 there is a sphere of the scene,
the hit sphere, such that the hit position lies on its surface
(`|hit.position - center| = radius`), `hit.normal` has unit length and points
outward (`hit.position = center + radius * hit.normal`), and `hit.mtl` is its
material. -/
theorem IntersectRay_hit_on_surface (m : Machine K)
    (hsqrt : ∀ x : K, 0 ≤ x → 0 ≤ m.sqrt x ∧ m.sqrt x * m.sqrt x = x)
    (sc : Scene K) (hit : HitInfo K) (ray : Ray K)
    (hr : ∀ s ∈ sc.spheres, 0 < s.radius)
    (hf : (IntersectRay m sc hit ray).1 = true) :
    ∃ s ∈ sc.spheres, (IntersectRay m sc hit ray).2 = hitOf m ray s ∧
      length m ((IntersectRay m sc hit ray).2.position - s.center) = s.radius ∧
      length m (IntersectRay m sc hit ray).2.normal = 1 ∧
      (IntersectRay m sc hit ray).2.position
        = s.center + (IntersectRay m sc hit ray).2.normal.scale s.radius ∧
      (IntersectRay m sc hit ray).2.mtl = s.mtl := by
  obtain ⟨s, hs, hacc, heq⟩ := IntersectRay_hitOf m sc hit ray hf
  have hrs := hr s hs
  have hlen : length m ((hitOf m ray s).position - s.center) = s.radius := by
    rw [hitOf_length m hsqrt ray s hacc.1, abs_of_pos hrs]
  have hn : (hitOf m ray s).normal = ((hitOf m ray s).position - s.center).div s.radius := by
    rw [← hlen]; rfl
  have hon := nearRoot_onSphere m (fun x hx => (hsqrt x (le_of_lt hx)).2) ray s hacc.1
  have hon' : dot ((hitOf m ray s).position - s.center) ((hitOf m ray s).position - s.center)
      = s.radius * s.radius := hon
  refine ⟨s, hs, heq, ?_, ?_, ?_, ?_⟩
  · rw [heq]; exact hlen
  · rw [heq]
    unfold length
    apply sqrt_unique m hsqrt _ _ (by norm_num)
    rw [hn]
    rw [dot_div_self _ _ (ne_of_gt hrs) hon', mul_one]
  · rw [heq, hn]
    ext <;> simp <;> field_simp
  · rw [heq]; rfl


/-- A point moved off a surface along the unit normal `n`, and then along the
reflection of a direction `d` that faces the normal, is not back at the
start. -/
theorem reflect_leaves (p n d : Vec3 K) (e t : K) (he : 0 < e) (ht : 0 < t)
    (hnn : dot n n = 1) (hdn : dot d n < 0) :
    p + n.scale e + (reflect d n).scale t ≠ p := by
  intro h
  have hx := congrArg Vec3.x h
  have hy := congrArg Vec3.y h
  have hz := congrArg Vec3.z h
  simp only [reflect, dot, Vec3.sub_x, Vec3.sub_y, Vec3.sub_z, Vec3.add_x, Vec3.add_y,
    Vec3.add_z, Vec3.scale_x, Vec3.scale_y, Vec3.scale_z] at hx hy hz hnn hdn
  have key : e + t * (-(d.x * n.x + d.y * n.y + d.z * n.z)) = 0 := by
    linear_combination n.x * hx + n.y * hy + n.z * hz
      - (e - 2 * t * (d.x * n.x + d.y * n.y + d.z * n.z)) * hnn
  have : 0 < t * (-(d.x * n.x + d.y * n.y + d.z * n.z)) := mul_pos ht (neg_pos.mpr hdn)
  linarith

/-- C12: with an exact square root, for every hit (position `p`, normal `n`)
that `IntersectRay` returns for a ray of direction `d`, any hit that
`IntersectRay` returns for the reflection ray (origin `p + 0.001 * n`,
direction `reflect(d, n)`) has `t > 0.001` and a position different from
`p`. -/
theorem reflection_ray_leaves_surface (m : Machine K)
    (hsqrt : ∀ x : K, 0 ≤ x → 0 ≤ m.sqrt x ∧ m.sqrt x * m.sqrt x = x)
    (sc : Scene K) (hit hit' : HitInfo K) (ray : Ray K)
    (hf : (IntersectRay m sc hit ray).1 = true)
    (hf' : (IntersectRay m sc hit' (reflectionRay ray (IntersectRay m sc hit ray).2)).1 = true) :
    eps < (IntersectRay m sc hit' (reflectionRay ray (IntersectRay m sc hit ray).2)).2.t ∧
    (IntersectRay m sc hit' (reflectionRay ray (IntersectRay m sc hit ray).2)).2.position
      ≠ (IntersectRay m sc hit ray).2.position := by
  obtain ⟨s, hs, hacc, heq⟩ := IntersectRay_hitOf m sc hit ray hf
  obtain ⟨s', hs', hacc', heq'⟩ := IntersectRay_hitOf m sc hit' _ hf'
  have heps : (0 : K) < eps := by unfold eps; norm_num
  have ht' : 0 < nearRoot m (reflectionRay ray (IntersectRay m sc hit ray).2) s' :=
    lt_trans heps hacc'.2.1
  refine ⟨by rw [heq']; exact hacc'.2.1, ?_⟩
  rw [heq']
  show (reflectionRay ray (IntersectRay m sc hit ray).2).pos
    + (reflectionRay ray (IntersectRay m sc hit ray).2).dir.scale
        (nearRoot m (reflectionRay ray (IntersectRay m sc hit ray).2) s')
    ≠ (IntersectRay m sc hit ray).2.position
  generalize nearRoot m (reflectionRay ray (IntersectRay m sc hit ray).2) s' = t' at ht'
  rw [heq]
  simp only [reflectionRay]
  have hd := hacc.1
  have hlen := hitOf_length m hsqrt ray s hd
  have hdot := hitOf_dot_dir m ray s hd
  have hon : dot ((hitOf m ray s).position - s.center) ((hitOf m ray s).position - s.center)
      = s.radius * s.radius :=
    nearRoot_onSphere m (fun x hx => (hsqrt x (le_of_lt hx)).2) ray s hd
  have hn : (hitOf m ray s).normal = ((hitOf m ray s).position - s.center).div |s.radius| := by
    rw [← hlen]; rfl
  rcases eq_or_lt_of_le (abs_nonneg s.radius) with h0 | hpos
  · -- the normal is the zero vector
    have hn0 : (hitOf m ray s).normal = 0 := by
      rw [hn, ← h0]; ext <;> simp
    rw [hn0]
    intro h
    have hx := congrArg Vec3.x h
    have hy := congrArg Vec3.y h
    have hz := congrArg Vec3.z h
    simp only [reflect, dot, Vec3.sub_x, Vec3.sub_y, Vec3.sub_z, Vec3.add_x, Vec3.add_y,
      Vec3.add_z, Vec3.scale_x, Vec3.scale_y, Vec3.scale_z, Vec3.zero_x, Vec3.zero_y,
      Vec3.zero_z, zero_mul, add_zero, sub_zero, add_right_eq_self, mul_eq_zero] at hx hy hz
    have ha := dir_ne_zero_of_discriminant_pos ray s hd
    apply ha
    have ht0 : t' ≠ 0 := ne_of_gt ht'
    simp only [dot, hx.resolve_right ht0, hy.resolve_right ht0, hz.resolve_right ht0]
    ring
  · have hnn : dot (hitOf m ray s).normal (hitOf m ray s).normal = 1 := by
      rw [hn]
      exact dot_div_self _ _ (ne_of_gt hpos) (by rw [abs_mul_abs_self]; exact hon)
    have hsq : 0 < m.sqrt (discriminant ray s) := by
      obtain ⟨h1, h2⟩ := hsqrt _ (le_of_lt hd)
      rcases eq_or_lt_of_le h1 with h | h
      · rw [← h] at h2; simp at h2; rw [← h2] at hd; exact absurd hd (lt_irrefl _)
      · exact h
    have hdn : dot ray.dir (hitOf m ray s).normal < 0 := by
      have : dot ray.dir (hitOf m ray s).normal
          = dot ray.dir ((hitOf m ray s).position - s.center) / |s.radius| := by
        rw [hn]
        simp only [dot, Vec3.div_x, Vec3.div_y, Vec3.div_z]
        field_simp
      rw [this, hdot]
      apply div_neg_of_neg_of_pos _ hpos
      linarith
    exact reflect_leaves _ _ _ _ _ heps ht' hnn hdn

/-! ## The order of the spheres -/

/-- Invariant of the loop of `IntersectRay` that records the order: when the
state changes, it ends as the hit record of the first sphere of the list
whose accepted near root is least. -/
theorem foldl_intersect_first (m : Machine K) (ray : Ray K) (l : List (Sphere K)) :
    ∀ st : HitInfo K × Bool,
      (l.foldl (intersectSphere m ray) st = st ∧ ∀ s ∈ l, ¬ acceptedBelow m ray st.1.t s) ∨
      (∃ l₁ s l₂, l = l₁ ++ s :: l₂ ∧ acceptedBelow m ray st.1.t s ∧
        l.foldl (intersectSphere m ray) st = (hitOf m ray s, true) ∧
        (∀ s' ∈ l₁, discriminant ray s' > 0 → eps < nearRoot m ray s' →
          nearRoot m ray s < nearRoot m ray s') ∧
        ∀ s' ∈ l₂, discriminant ray s' > 0 → eps < nearRoot m ray s' →
          nearRoot m ray s ≤ nearRoot m ray s') := by
  induction l with
  | nil => intro st; left; simp
  | cons a l ih =>
    intro st
    rw [List.foldl_cons, intersectSphere_eq]
    by_cases hc : discriminant ray a > 0 ∧ nearRoot m ray a < st.1.t ∧ nearRoot m ray a > eps
    · rw [if_pos hc]
      obtain ⟨hd, hlt, hgt⟩ := hc
      right
      rcases ih (hitOf m ray a, true) with ⟨heq, hno⟩ | ⟨l₁, s, l₂, hl, hacc, heq, hbefore, hafter⟩
      · refine ⟨[], a, l, rfl, ⟨hd, hgt, hlt⟩, heq, by simp, ?_⟩
        intro s' hs' hd' he'
        by_contra hcon
        exact hno s' hs' ⟨hd', he', lt_of_not_le hcon⟩
      · obtain ⟨hsd, hse, hslt⟩ := hacc
        have hslt' : nearRoot m ray s < nearRoot m ray a := hslt
        refine ⟨a :: l₁, s, l₂, by rw [hl]; rfl, ⟨hsd, hse, lt_trans hslt' hlt⟩, heq, ?_, hafter⟩
        intro s' hs' hd' he'
        rcases List.mem_cons.mp hs' with rfl | hin
        · exact hslt'
        · exact hbefore s' hin hd' he'
    · rw [if_neg hc]
      rcases ih st with ⟨heq, hno⟩ | ⟨l₁, s, l₂, hl, hacc, heq, hbefore, hafter⟩
      · left
        refine ⟨heq, ?_⟩
        intro s' hs'
        rcases List.mem_cons.mp hs' with rfl | hin
        · intro hacc
          exact hc ⟨hacc.1, hacc.2.2, hacc.2.1⟩
        · exact hno s' hin
      · right
        refine ⟨a :: l₁, s, l₂, by rw [hl]; rfl, hacc, heq, ?_, hafter⟩
        intro s' hs' hd' he'
        rcases List.mem_cons.mp hs' with rfl | hin
        · by_contra hcon
          exact hc ⟨hd', lt_of_le_of_lt (not_lt.mp hcon) hacc.2.2, he'⟩
        · exact hbefore s' hin hd' he'

/-- When `IntersectRay` finds no hit, `hit` is as on entry, except for `t`. -/
theorem IntersectRay_miss_eq (m : Machine K) (sc : Scene K) (hit : HitInfo K) (ray : Ray K)
    (hf : (IntersectRay m sc hit ray).1 = false) :
    (IntersectRay m sc hit ray).2 = { hit with t := tMax } := by
  rcases foldl_intersect_spec m ray sc.spheres ({ hit with t := tMax }, false) with
    ⟨heq, _⟩ | ⟨s, _, _, heq, _⟩
  · simp only [IntersectRay, heq]
  · simp only [IntersectRay, heq] at hf
    cases hf

/-- C13: for every ray and every permutation of the spheres, `IntersectRay`
returns the same flag, the same `hit.t` and the same `hit.position`; and when
it finds a hit, the normal and material are those of the first sphere, in
iteration order, whose accepted near root is least: every accepted sphere
before it has a strictly greater near root, every accepted sphere after it a
near root that is greater or equal. -/
theorem IntersectRay_order_tie_break (m : Machine K) (sc : Scene K) (hit : HitInfo K)
    (ray : Ray K) (spheres' : List (Sphere K)) (hperm : spheres'.Perm sc.spheres) :
    (IntersectRay m { sc with spheres := spheres' } hit ray).1 = (IntersectRay m sc hit ray).1 ∧
    (IntersectRay m { sc with spheres := spheres' } hit ray).2.t
      = (IntersectRay m sc hit ray).2.t ∧
    (IntersectRay m { sc with spheres := spheres' } hit ray).2.position
      = (IntersectRay m sc hit ray).2.position ∧
    ((IntersectRay m sc hit ray).1 = true →
      ∃ l₁ s l₂, sc.spheres = l₁ ++ s :: l₂ ∧
        (IntersectRay m sc hit ray).2.t = nearRoot m ray s ∧
        (IntersectRay m sc hit ray).2.normal = (hitOf m ray s).normal ∧
        (IntersectRay m sc hit ray).2.mtl = s.mtl ∧
        (∀ s' ∈ l₁, accepted m ray s' → nearRoot m ray s < nearRoot m ray s') ∧
        ∀ s' ∈ l₂, accepted m ray s' → nearRoot m ray s ≤ nearRoot m ray s') := by
  have hmem : ∀ s, s ∈ spheres' ↔ s ∈ sc.spheres := fun s => hperm.mem_iff
  have hfirst : (IntersectRay m sc hit ray).1 = true →
      ∃ l₁ s l₂, sc.spheres = l₁ ++ s :: l₂ ∧
        (IntersectRay m sc hit ray).2.t = nearRoot m ray s ∧
        (IntersectRay m sc hit ray).2.normal = (hitOf m ray s).normal ∧
        (IntersectRay m sc hit ray).2.mtl = s.mtl ∧
        (∀ s' ∈ l₁, accepted m ray s' → nearRoot m ray s < nearRoot m ray s') ∧
        ∀ s' ∈ l₂, accepted m ray s' → nearRoot m ray s ≤ nearRoot m ray s' := by
    intro hf
    rcases foldl_intersect_first m ray sc.spheres ({ hit with t := tMax }, false) with
      ⟨heq, _⟩ | ⟨l₁, s, l₂, hl, _, heq, hbefore, hafter⟩
    · simp only [IntersectRay, heq] at hf
      cases hf
    · refine ⟨l₁, s, l₂, hl, ?_, ?_, ?_, fun s' hs' ha => hbefore s' hs' ha.1 ha.2.1,
        fun s' hs' ha => hafter s' hs' ha.1 ha.2.1⟩ <;> simp only [IntersectRay, heq] <;> rfl
  refine ⟨?_, ?_, ?_, hfirst⟩
  all_goals
    rcases IntersectRay_spec m { sc with spheres := spheres' } hit ray with
      ⟨hf', hno'⟩ | ⟨s', hs', hacc', heq', hmin'⟩ <;>
    rcases IntersectRay_spec m sc hit ray with ⟨hf, hno⟩ | ⟨s, hs, hacc, heq, hmin⟩
  all_goals first
    | exact absurd hacc (hno' s ((hmem s).mpr hs))
    | exact absurd hacc' (hno s' ((hmem s').mp hs'))
    | skip
  · rw [hf, hf']
  · rw [heq, heq']
  · rw [IntersectRay_miss_eq m _ hit ray hf', IntersectRay_miss_eq m sc hit ray hf]
  · rw [heq, heq']
    exact le_antisymm (hmin' s ((hmem s).mpr hs) hacc.1 hacc.2.1)
      (hmin s' ((hmem s').mp hs') hacc'.1 hacc'.2.1)
  · rw [IntersectRay_miss_eq m _ hit ray hf', IntersectRay_miss_eq m sc hit ray hf]
  · rw [heq, heq']
    have ht : nearRoot m ray s' = nearRoot m ray s :=
      le_antisymm (hmin' s ((hmem s).mpr hs) hacc.1 hacc.2.1)
        (hmin s' ((hmem s').mp hs') hacc'.1 hacc'.2.1)
    simp only [hitOf, ht]

/-! ## Witnesses in the scene with two spheres; empty scenes -/

theorem sceneTwo_primary (m : Machine K) (h4 : m.sqrt 4 = 2) (h1 : m.sqrt 1 = 1) (n : K)
    (hit : HitInfo K) :
    IntersectRay m (sceneTwo n) hit ray10 = (true, ⟨4, ⟨0, 0, -4⟩, ⟨0, 0, 1⟩, redShiny n⟩) := by
  norm_num [IntersectRay, sceneTwo, sphereFront, sphereBack, ray10, intersectSphere, dot, tMax,
    eps, h4, h1, normalize, length, Vec3.ext_iff]

theorem sceneTwo_reflected (m : Machine K) (h4 : m.sqrt 4 = 2) (n : K) (hit : HitInfo K) :
    (IntersectRay m (sceneTwo n) hit
      (reflectionRay ray10 ⟨4, ⟨0, 0, -4⟩, ⟨0, 0, 1⟩, redShiny n⟩)).1 = true := by
  norm_num [IntersectRay, sceneTwo, sphereFront, sphereBack, ray10, intersectSphere, dot, tMax,
    eps, h4, reflectionRay, reflect]

/-- Witness of `IntersectRay_hit_on_surface`: over the reals, the primary
ray `ray10` in the scene with two spheres of radius 1. -/
theorem IntersectRay_hit_on_surface_witness :
    (∀ x : ℝ, 0 ≤ x → 0 ≤ Real.sqrt x ∧ Real.sqrt x * Real.sqrt x = x) ∧
    (∀ s ∈ (sceneTwo (8 : ℝ)).spheres, 0 < s.radius) ∧
    (IntersectRay (machineOf Real.sqrt Real.rpow) (sceneTwo 8)
      (machineOf Real.sqrt Real.rpow).undef ray10).1 = true ∧
    ∃ s ∈ (sceneTwo (8 : ℝ)).spheres,
      (IntersectRay (machineOf Real.sqrt Real.rpow) (sceneTwo 8)
        (machineOf Real.sqrt Real.rpow).undef ray10).2
        = hitOf (machineOf Real.sqrt Real.rpow) ray10 s ∧
      length (machineOf Real.sqrt Real.rpow)
        ((IntersectRay (machineOf Real.sqrt Real.rpow) (sceneTwo 8)
          (machineOf Real.sqrt Real.rpow).undef ray10).2.position - s.center) = s.radius ∧
      length (machineOf Real.sqrt Real.rpow)
        (IntersectRay (machineOf Real.sqrt Real.rpow) (sceneTwo 8)
          (machineOf Real.sqrt Real.rpow).undef ray10).2.normal = 1 ∧
      (IntersectRay (machineOf Real.sqrt Real.rpow) (sceneTwo 8)
        (machineOf Real.sqrt Real.rpow).undef ray10).2.position
        = s.center + (IntersectRay (machineOf Real.sqrt Real.rpow) (sceneTwo 8)
            (machineOf Real.sqrt Real.rpow).undef ray10).2.normal.scale s.radius ∧
      (IntersectRay (machineOf Real.sqrt Real.rpow) (sceneTwo 8)
        (machineOf Real.sqrt Real.rpow).undef ray10).2.mtl = s.mtl :=
  have hsqrt : ∀ x : ℝ, 0 ≤ x → 0 ≤ Real.sqrt x ∧ Real.sqrt x * Real.sqrt x = x :=
    fun x hx => ⟨Real.sqrt_nonneg x, Real.mul_self_sqrt hx⟩
  have hr : ∀ s ∈ (sceneTwo (8 : ℝ)).spheres, 0 < s.radius := by
    intro s hs
    simp only [sceneTwo, List.mem_cons, List.mem_singleton, List.not_mem_nil, or_false] at hs
    rcases hs with rfl | rfl <;> norm_num [sphereFront, sphereBack]
  have hf : (IntersectRay (machineOf Real.sqrt Real.rpow) (sceneTwo 8)
      (machineOf Real.sqrt Real.rpow).undef ray10).1 = true := by
    rw [sceneTwo_primary _ real_sqrt_four Real.sqrt_one]
  ⟨hsqrt, hr, hf,
    IntersectRay_hit_on_surface (machineOf Real.sqrt Real.rpow) hsqrt (sceneTwo 8)
      (machineOf Real.sqrt Real.rpow).undef ray10 hr hf⟩

/-- Witness of `reflection_ray_leaves_surface`: over the reals, `ray10` hits
`sphereFront` and its reflection hits `sphereBack`. -/
theorem reflection_ray_leaves_surface_witness :
    (∀ x : ℝ, 0 ≤ x → 0 ≤ Real.sqrt x ∧ Real.sqrt x * Real.sqrt x = x) ∧
    (IntersectRay (machineOf Real.sqrt Real.rpow) (sceneTwo 8)
      (machineOf Real.sqrt Real.rpow).undef ray10).1 = true ∧
    (IntersectRay (machineOf Real.sqrt Real.rpow) (sceneTwo 8)
      (machineOf Real.sqrt Real.rpow).undef
      (reflectionRay ray10 (IntersectRay (machineOf Real.sqrt Real.rpow) (sceneTwo 8)
        (machineOf Real.sqrt Real.rpow).undef ray10).2)).1 = true ∧
    (eps < (IntersectRay (machineOf Real.sqrt Real.rpow) (sceneTwo 8)
        (machineOf Real.sqrt Real.rpow).undef
        (reflectionRay ray10 (IntersectRay (machineOf Real.sqrt Real.rpow) (sceneTwo 8)
          (machineOf Real.sqrt Real.rpow).undef ray10).2)).2.t ∧
      (IntersectRay (machineOf Real.sqrt Real.rpow) (sceneTwo 8)
        (machineOf Real.sqrt Real.rpow).undef
        (reflectionRay ray10 (IntersectRay (machineOf Real.sqrt Real.rpow) (sceneTwo 8)
          (machineOf Real.sqrt Real.rpow).undef ray10).2)).2.position
        ≠ (IntersectRay (machineOf Real.sqrt Real.rpow) (sceneTwo 8)
            (machineOf Real.sqrt Real.rpow).undef ray10).2.position) :=
  have hsqrt : ∀ x : ℝ, 0 ≤ x → 0 ≤ Real.sqrt x ∧ Real.sqrt x * Real.sqrt x = x :=
    fun x hx => ⟨Real.sqrt_nonneg x, Real.mul_self_sqrt hx⟩
  have hp := sceneTwo_primary (machineOf Real.sqrt Real.rpow) real_sqrt_four Real.sqrt_one 8
    (machineOf Real.sqrt Real.rpow).undef
  have hf : (IntersectRay (machineOf Real.sqrt Real.rpow) (sceneTwo 8)
      (machineOf Real.sqrt Real.rpow).undef ray10).1 = true := by rw [hp]
  have hf' : (IntersectRay (machineOf Real.sqrt Real.rpow) (sceneTwo 8)
      (machineOf Real.sqrt Real.rpow).undef
      (reflectionRay ray10 (IntersectRay (machineOf Real.sqrt Real.rpow) (sceneTwo 8)
        (machineOf Real.sqrt Real.rpow).undef ray10).2)).1 = true := by
    rw [hp]; exact sceneTwo_reflected _ real_sqrt_four _ _
  ⟨hsqrt, hf, hf',
    reflection_ray_leaves_surface (machineOf Real.sqrt Real.rpow) hsqrt (sceneTwo 8)
      (machineOf Real.sqrt Real.rpow).undef (machineOf Real.sqrt Real.rpow).undef ray10 hf hf'⟩

/-- Witness of `IntersectRay_order_tie_break`: the two spheres of `sceneTwo`
in the other order. -/
theorem IntersectRay_order_tie_break_witness :
    [sphereBack (8 : ℝ), sphereFront 8].Perm (sceneTwo (8 : ℝ)).spheres ∧
    (IntersectRay (machineOf Real.sqrt Real.rpow)
        { sceneTwo (8 : ℝ) with spheres := [sphereBack 8, sphereFront 8] }
        (machineOf Real.sqrt Real.rpow).undef ray10).1
      = (IntersectRay (machineOf Real.sqrt Real.rpow) (sceneTwo 8)
          (machineOf Real.sqrt Real.rpow).undef ray10).1 ∧
    (IntersectRay (machineOf Real.sqrt Real.rpow)
        { sceneTwo (8 : ℝ) with spheres := [sphereBack 8, sphereFront 8] }
        (machineOf Real.sqrt Real.rpow).undef ray10).2.t
      = (IntersectRay (machineOf Real.sqrt Real.rpow) (sceneTwo 8)
          (machineOf Real.sqrt Real.rpow).undef ray10).2.t ∧
    (IntersectRay (machineOf Real.sqrt Real.rpow)
        { sceneTwo (8 : ℝ) with spheres := [sphereBack 8, sphereFront 8] }
        (machineOf Real.sqrt Real.rpow).undef ray10).2.position
      = (IntersectRay (machineOf Real.sqrt Real.rpow) (sceneTwo 8)
          (machineOf Real.sqrt Real.rpow).undef ray10).2.position :=
  have hperm : [sphereBack (8 : ℝ), sphereFront 8].Perm (sceneTwo (8 : ℝ)).spheres :=
    List.Perm.swap _ _ _
  have h := IntersectRay_order_tie_break (machineOf Real.sqrt Real.rpow) (sceneTwo 8)
    (machineOf Real.sqrt Real.rpow).undef ray10 [sphereBack 8, sphereFront 8] hperm
  ⟨hperm, h.1, h.2.1, h.2.2.1⟩

/-- C14: with an empty light list `Shade`, a total function, returns the
colour (0,0,0) for every material, position, normal and view direction. -/
theorem Shade_no_lights (m : Machine K) (sc : Scene K) (mtl : Material K)
    (position normal view : Vec3 K) :
    Shade m { sc with lights := [] } mtl position normal view = 0 := rfl

/-- C15: with an empty sphere list `IntersectRay` finds no hit for every
ray, and `RayTracer` returns the environment colour of the ray's direction,
with alpha 1, for every ray and every `bounceLimit`. -/
theorem RayTracer_no_spheres (m : Machine K) (sc : Scene K) (hit : HitInfo K) (ray : Ray K) :
    (IntersectRay m { sc with spheres := [] } hit ray).1 = false ∧
    RayTracer m { sc with spheres := [] } ray = vec4 (sc.envMap ray.dir.xzy) 1 :=
  ⟨rfl, rfl⟩

/-! ## The incoming ray and the normal; the division by `2a` -/

/-- C21: with an exact square root, for every hit that `IntersectRay` returns
on a scene whose spheres have radius > 0, the reported normal faces the
incoming ray, `dot(ray.dir, hit.normal) < 0`, and the reflection direction
`reflect(ray.dir, hit.normal)` has a strictly positive component along
`hit.normal`. -/
theorem IntersectRay_normal_faces_ray (m : Machine K)
    (hsqrt : ∀ x : K, 0 ≤ x → 0 ≤ m.sqrt x ∧ m.sqrt x * m.sqrt x = x)
    (sc : Scene K) (hit : HitInfo K) (ray : Ray K)
    (hr : ∀ s ∈ sc.spheres, 0 < s.radius)
    (hf : (IntersectRay m sc hit ray).1 = true) :
    dot ray.dir (IntersectRay m sc hit ray).2.normal < 0 ∧
    0 < dot (reflect ray.dir (IntersectRay m sc hit ray).2.normal)
      (IntersectRay m sc hit ray).2.normal := by
  obtain ⟨s, hs, hacc, heq⟩ := IntersectRay_hitOf m sc hit ray hf
  have hd := hacc.1
  have hpos := hr s hs
  have hlen : length m ((hitOf m ray s).position - s.center) = s.radius := by
    rw [hitOf_length m hsqrt ray s hd, abs_of_pos hpos]
  have hn : (hitOf m ray s).normal = ((hitOf m ray s).position - s.center).div s.radius := by
    rw [← hlen]; rfl
  have hon : dot ((hitOf m ray s).position - s.center) ((hitOf m ray s).position - s.center)
      = s.radius * s.radius :=
    nearRoot_onSphere m (fun x hx => (hsqrt x (le_of_lt hx)).2) ray s hd
  have hnn : dot (hitOf m ray s).normal (hitOf m ray s).normal = 1 := by
    rw [hn]; exact dot_div_self _ _ (ne_of_gt hpos) hon
  have hsq : 0 < m.sqrt (discriminant ray s) := by
    obtain ⟨h1, h2⟩ := hsqrt _ (le_of_lt hd)
    rcases eq_or_lt_of_le h1 with h | h
    · rw [← h] at h2; simp at h2; rw [← h2] at hd; exact absurd hd (lt_irrefl _)
    · exact h
  have hdn : dot ray.dir (hitOf m ray s).normal < 0 := by
    have : dot ray.dir (hitOf m ray s).normal
        = dot ray.dir ((hitOf m ray s).position - s.center) / s.radius := by
      rw [hn]
      simp only [dot, Vec3.div_x, Vec3.div_y, Vec3.div_z]
      field_simp
    rw [this, hitOf_dot_dir m ray s hd]
    apply div_neg_of_neg_of_pos _ hpos
    linarith
  rw [heq]
  refine ⟨hdn, ?_⟩
  have hrefl : dot (reflect ray.dir (hitOf m ray s).normal) (hitOf m ray s).normal
      = -dot ray.dir (hitOf m ray s).normal := by
    simp only [reflect, dot, Vec3.sub_x, Vec3.sub_y, Vec3.sub_z, Vec3.scale_x, Vec3.scale_y,
      Vec3.scale_z] at hnn ⊢
    linear_combination
      (-2 * ((hitOf m ray s).normal.x * ray.dir.x + (hitOf m ray s).normal.y * ray.dir.y
        + (hitOf m ray s).normal.z * ray.dir.z)) * hnn
  rw [hrefl]
  linarith

/-- C22: the division by `2a` in `IntersectRay` is not evaluated with
`a = 0`: whenever the test `discriminant > 0` passes, `a = dot(ray.dir,
ray.dir)` is strictly positive, and when it fails the loop body leaves the
state as it is, without dividing; a ray with zero direction yields no hit,
for any scene. -/
theorem IntersectRay_division_defined (m : Machine K) (sc : Scene K) (hit : HitInfo K)
    (ray : Ray K) :
    (∀ s : Sphere K, discriminant ray s > 0 → 0 < dot ray.dir ray.dir) ∧
    (∀ (st : HitInfo K × Bool) (s : Sphere K), ¬ discriminant ray s > 0 →
      intersectSphere m ray st s = st) ∧
    (ray.dir = 0 → (IntersectRay m sc hit ray).1 = false) := by
  have h1 : ∀ s : Sphere K, discriminant ray s > 0 → 0 < dot ray.dir ray.dir := by
    intro s hd
    have hne := dir_ne_zero_of_discriminant_pos ray s hd
    have h0 : 0 ≤ dot ray.dir ray.dir := by
      unfold dot
      nlinarith [mul_self_nonneg ray.dir.x, mul_self_nonneg ray.dir.y, mul_self_nonneg ray.dir.z]
    exact lt_of_le_of_ne h0 (Ne.symm hne)
  refine ⟨h1, fun st s hd => ?_, fun hz => ?_⟩
  · rw [intersectSphere_eq, if_neg (fun h => hd h.1)]
  rcases IntersectRay_spec m sc hit ray with ⟨hno, _⟩ | ⟨s, _, hacc, _, _⟩
  · exact hno
  · have := h1 s hacc.1
    rw [hz] at this
    simp [dot] at this

/-- Witness of `IntersectRay_normal_faces_ray`: over the reals, the primary
ray `ray10` in the scene with two spheres of radius 1. -/
theorem IntersectRay_normal_faces_ray_witness :
    (∀ x : ℝ, 0 ≤ x → 0 ≤ Real.sqrt x ∧ Real.sqrt x * Real.sqrt x = x) ∧
    (∀ s ∈ (sceneTwo (8 : ℝ)).spheres, 0 < s.radius) ∧
    (IntersectRay (machineOf Real.sqrt Real.rpow) (sceneTwo 8)
      (machineOf Real.sqrt Real.rpow).undef ray10).1 = true ∧
    (dot (ray10 : Ray ℝ).dir (IntersectRay (machineOf Real.sqrt Real.rpow) (sceneTwo 8)
        (machineOf Real.sqrt Real.rpow).undef ray10).2.normal < 0 ∧
      0 < dot (reflect (ray10 : Ray ℝ).dir (IntersectRay (machineOf Real.sqrt Real.rpow)
            (sceneTwo 8) (machineOf Real.sqrt Real.rpow).undef ray10).2.normal)
          (IntersectRay (machineOf Real.sqrt Real.rpow) (sceneTwo 8)
            (machineOf Real.sqrt Real.rpow).undef ray10).2.normal) :=
  have hsqrt : ∀ x : ℝ, 0 ≤ x → 0 ≤ Real.sqrt x ∧ Real.sqrt x * Real.sqrt x = x :=
    fun x hx => ⟨Real.sqrt_nonneg x, Real.mul_self_sqrt hx⟩
  have hr : ∀ s ∈ (sceneTwo (8 : ℝ)).spheres, 0 < s.radius := by
    intro s hs
    simp only [sceneTwo, List.mem_cons, List.mem_singleton, List.not_mem_nil, or_false] at hs
    rcases hs with rfl | rfl <;> norm_num [sphereFront, sphereBack]
  have hf : (IntersectRay (machineOf Real.sqrt Real.rpow) (sceneTwo 8)
      (machineOf Real.sqrt Real.rpow).undef ray10).1 = true := by
    rw [sceneTwo_primary _ real_sqrt_four Real.sqrt_one]
  ⟨hsqrt, hr, hf,
    IntersectRay_normal_faces_ray (machineOf Real.sqrt Real.rpow) hsqrt (sceneTwo 8)
      (machineOf Real.sqrt Real.rpow).undef ray10 hr hf⟩

end Proofs

end RayTracing

/-! # Proofs for the 2D transformations -/

namespace Transformations

section Proofs
variable {K : Type} [LinearOrderedField K]

/-- C16: for every `positionX`, `positionY`, `rotation` (in degrees) and
`scale`, the column-major 3x3 matrix that `GetTransform` returns applies the
scale first, then the rotation, then the translation: it is the product
`Translate * Rotate * Scale`, and it maps every point `(x, y, 1)` to
`(scale * (cos * x - sin * y) + positionX,
  scale * (sin * x + cos * y) + positionY, 1)`. -/
theorem GetTransform_scale_rotate_translate (M : MathLib K)
    (positionX positionY rotation scale : K) :
    toMatrix (GetTransform M positionX positionY rotation scale)
      = Translate positionX positionY * Rotate M rotation * Scale scale ∧
    ∀ x y : K, (toMatrix (GetTransform M positionX positionY rotation scale)).mulVec ![x, y, 1]
      = ![scale * (M.cos (rotation * M.PI / 180) * x - M.sin (rotation * M.PI / 180) * y)
            + positionX,
          scale * (M.sin (rotation * M.PI / 180) * x + M.cos (rotation * M.PI / 180) * y)
            + positionY,
          1] := by
  constructor
  · ext i j
    fin_cases i <;> fin_cases j <;>
      simp [toMatrix, GetTransform, idx, Translate, Rotate, Scale, Matrix.mul_apply,
        Fin.sum_univ_three, Matrix.vecHead, Matrix.vecTail]
  · intro x y
    ext i
    fin_cases i <;>
      simp [toMatrix, GetTransform, idx, Matrix.mulVec, Matrix.dotProduct, Fin.sum_univ_three] <;>
      ring

/-- C17: for all column-major affine 3x3 matrices `trans1` and `trans2`
(9 values, third row 0, 0, 1), `ApplyTransform(trans1, trans2)` is the matrix
product `trans2 * trans1`, again affine: applying it to a point is applying
`trans1` and then `trans2`. -/
theorem ApplyTransform_compose (trans1 trans2 : List K)
    (h1 : IsAffine trans1) (h2 : IsAffine trans2) :
    toMatrix (ApplyTransform trans1 trans2) = toMatrix trans2 * toMatrix trans1 ∧
    IsAffine (ApplyTransform trans1 trans2) ∧
    ∀ v : Fin 3 → K, (toMatrix (ApplyTransform trans1 trans2)).mulVec v
      = (toMatrix trans2).mulVec ((toMatrix trans1).mulVec v) := by
  have hm : toMatrix (ApplyTransform trans1 trans2) = toMatrix trans2 * toMatrix trans1 := by
    obtain ⟨_, h12, h15, h18⟩ := h1
    obtain ⟨_, h22, h25, h28⟩ := h2
    ext i j
    fin_cases i <;> fin_cases j <;>
      simp [toMatrix, ApplyTransform, Matrix.mul_apply, Fin.sum_univ_three, h12, h15, h18, h22,
        h25, h28] <;>
      simp [idx]
  refine ⟨hm, ⟨rfl, rfl, rfl, rfl⟩, fun v => ?_⟩
  rw [hm, Matrix.mulVec_mulVec]

/-- Witness of `ApplyTransform_compose`: a scaling by 2 followed by a
quarter turn and a translation, over the rationals. -/
theorem ApplyTransform_compose_witness :
    IsAffine ([2, 0, 0, 0, 2, 0, 1, 1, 1] : List ℚ) ∧
    IsAffine ([0, 1, 0, -1, 0, 0, 3, 4, 1] : List ℚ) ∧
    (toMatrix (ApplyTransform ([2, 0, 0, 0, 2, 0, 1, 1, 1] : List ℚ) [0, 1, 0, -1, 0, 0, 3, 4, 1])
        = toMatrix [0, 1, 0, -1, 0, 0, 3, 4, 1] * toMatrix [2, 0, 0, 0, 2, 0, 1, 1, 1] ∧
      IsAffine (ApplyTransform ([2, 0, 0, 0, 2, 0, 1, 1, 1] : List ℚ) [0, 1, 0, -1, 0, 0, 3, 4, 1]) ∧
      ∀ v : Fin 3 → ℚ,
        (toMatrix (ApplyTransform ([2, 0, 0, 0, 2, 0, 1, 1, 1] : List ℚ)
            [0, 1, 0, -1, 0, 0, 3, 4, 1])).mulVec v
          = (toMatrix [0, 1, 0, -1, 0, 0, 3, 4, 1]).mulVec
              ((toMatrix [2, 0, 0, 0, 2, 0, 1, 1, 1]).mulVec v)) :=
  ⟨⟨rfl, rfl, rfl, rfl⟩, ⟨rfl, rfl, rfl, rfl⟩,
    ApplyTransform_compose _ _ ⟨rfl, rfl, rfl, rfl⟩ ⟨rfl, rfl, rfl, rfl⟩⟩

end Proofs

end Transformations

/-! # Proofs for the image compositing -/

namespace ComposingImages

section Bounds

/-- A covered index lies within `bgImg.data`. -/
theorem Covered_lt {K : Type} (bgImg fgImg : ImageData K) (fgPos : Pos) (hbg : bgImg.WellFormed) (i : Nat)
    (h : Covered bgImg fgImg fgPos i) : i < bgImg.data.length := by
  obtain ⟨x, y, c, _, _, hc, hx0, hx1, hy0, hy1, hi⟩ := h
  rw [hbg]
  have h1 : (fgPos.y + y + 1) * (bgImg.width : Int) ≤ (bgImg.height : Int) * bgImg.width :=
    mul_le_mul_of_nonneg_right (by omega) (Int.ofNat_nonneg _)
  have : (i : Int) < ((bgImg.width * bgImg.height * 4 : Nat) : Int) := by
    push_cast
    nlinarith
  exact_mod_cast this

/-- An index of the foreground lies within `fgImg.data`. -/
theorem InForeground_lt {K : Type} (fgImg : ImageData K) (hfg : fgImg.WellFormed) (i : Nat)
    (h : InForeground fgImg i) : i < fgImg.data.length := by
  obtain ⟨x, y, c, hx, hy, hc, hi⟩ := h
  rw [hfg, hi]
  have h1 : (y + 1) * fgImg.width ≤ fgImg.height * fgImg.width :=
    Nat.mul_le_mul_right _ hy
  nlinarith

end Bounds

section Proofs
variable {K : Type} [LinearOrderedField K]

/-- A property that every step of a loop preserves holds when the loop is
left. -/
theorem foldl_preserves {α β : Type} (P : β → Prop) (f : β → α → β) (l : List α) :
    ∀ b, P b → (∀ b, P b → ∀ a ∈ l, P (f b a)) → P (l.foldl f b) := by
  induction l with
  | nil => intro b hb _; exact hb
  | cons a l ih =>
    intro b hb h
    rw [List.foldl_cons]
    exact ih _ (h b hb a (List.mem_cons_self _ _))
      (fun b' hb' a' ha' => h b' hb' a' (List.mem_cons_of_mem _ ha'))

theorem idx_set_ne (a : List K) (i j : Nat) (v : K) (h : j ≠ i) :
    idx (a.set i v) j = idx a j := by
  unfold idx
  simp [List.getD_eq_getElem?_getD, List.getElem?_set_ne h.symm]

/-- `write4` preserves the invariant when the four indices are covered. -/
theorem write4_Inv (bgImg fgImg : ImageData K) (fgPos : Pos) (st : Run K) (i : Nat)
    (r g b a : K) (hst : Inv bgImg fgImg fgPos st)
    (h0 : Covered bgImg fgImg fgPos i) (h1 : Covered bgImg fgImg fgPos (i + 1))
    (h2 : Covered bgImg fgImg fgPos (i + 2)) (h3 : Covered bgImg fgImg fgPos (i + 3)) :
    Inv bgImg fgImg fgPos (write4 st i r g b a) := by
  obtain ⟨hfg, hlen, hkeep, hw, hbr, hfr⟩ := hst
  refine ⟨hfg, ?_, ?_, ?_, hbr, hfr⟩
  · simp [write4, hlen]
  · intro j hj
    simp only [write4, List.mem_append, List.mem_cons, List.mem_singleton, List.not_mem_nil,
      or_false, not_or] at hj
    obtain ⟨hjw, hj0, hj1, hj2, hj3⟩ := hj
    simp only [write4]
    rw [idx_set_ne _ _ _ _ hj3, idx_set_ne _ _ _ _ hj2, idx_set_ne _ _ _ _ hj1,
      idx_set_ne _ _ _ _ hj0]
    exact hkeep j hjw
  · intro j hj
    simp only [write4, List.mem_append, List.mem_cons, List.mem_singleton, List.not_mem_nil,
      or_false] at hj
    rcases hj with hj | rfl | rfl | rfl | rfl
    · exact hw j hj
    · exact h0
    · exact h1
    · exact h2
    · exact h3

/-- One step of the inner loop preserves the invariant. -/
theorem blendPixel_Inv (store : K → K) (bgImg fgImg : ImageData K) (fgOpac : K) (fgPos : Pos)
    (y x : Nat) (hy : y < fgImg.height) (hx : x < fgImg.width) (st : Run K)
    (hst : Inv bgImg fgImg fgPos st) :
    Inv bgImg fgImg fgPos
      (blendPixel store bgImg.width bgImg.height fgImg.width fgOpac fgPos y st x) := by
  simp only [blendPixel]
  split_ifs with hg h0
  all_goals try exact hst
  all_goals
    obtain ⟨hx0, hx1, hy0, hy1⟩ := hg
    have hnn : (0 : Int) ≤ (fgPos.y + y) * bgImg.width + (fgPos.x + x) :=
      add_nonneg (mul_nonneg hy0 (Int.ofNat_nonneg _)) hx0
    have hcov : ∀ c : Nat, c < 4 → Covered bgImg fgImg fgPos
        ((((fgPos.y + y) * bgImg.width + (fgPos.x + x)) * 4).toNat + c) := by
      intro c hc
      refine ⟨x, y, c, hx, hy, hc, hx0, hx1, hy0, hy1, ?_⟩
      push_cast
      rw [Int.toNat_of_nonneg (by omega)]
    have hfgc : ∀ c : Nat, c < 4 → InForeground fgImg ((y * fgImg.width + x) * 4 + c) :=
      fun c hc => ⟨x, y, c, hx, hy, hc, rfl⟩
    apply write4_Inv _ _ _ _ _ _ _ _ _ _ (hcov 0 (by norm_num)) (hcov 1 (by norm_num))
      (hcov 2 (by norm_num)) (hcov 3 (by norm_num))
    obtain ⟨hfg, hlen, hkeep, hw, hbr, hfr⟩ := hst
    refine ⟨hfg, hlen, hkeep, hw, ?_, ?_⟩
    · intro j hj
      simp only [List.mem_append, List.mem_cons, List.mem_singleton, List.not_mem_nil,
        or_false] at hj
      rcases hj with hj | rfl | rfl | rfl | rfl
      · exact hbr j hj
      · exact hcov 0 (by norm_num)
      · exact hcov 1 (by norm_num)
      · exact hcov 2 (by norm_num)
      · exact hcov 3 (by norm_num)
    · intro j hj
      simp only [List.mem_append, List.mem_cons, List.mem_singleton, List.not_mem_nil,
        or_false] at hj
      rcases hj with hj | rfl | rfl | rfl | rfl
      · exact hfr j hj
      · exact hfgc 0 (by norm_num)
      · exact hfgc 1 (by norm_num)
      · exact hfgc 2 (by norm_num)
      · exact hfgc 3 (by norm_num)

/-- The invariant holds when `composite` returns. -/
theorem composite_Inv (store : K → K) (bgImg fgImg : ImageData K) (fgOpac : K) (fgPos : Pos) :
    Inv bgImg fgImg fgPos (composite store bgImg fgImg fgOpac fgPos) := by
  unfold composite
  apply foldl_preserves (Inv bgImg fgImg fgPos)
  · exact ⟨rfl, rfl, fun _ _ => rfl, by simp, by simp, by simp⟩
  · intro st hst y hy
    apply foldl_preserves (Inv bgImg fgImg fgPos) _ _ _ hst
    intro st' hst' x hx
    exact blendPixel_Inv store bgImg fgImg fgOpac fgPos y x (List.mem_range.mp hy)
      (List.mem_range.mp hx) st' hst'

/-- The pixel and channel of an index of `bgImg.data` are determined by the
index. -/
theorem pixel_unique (w px py c X Y c' : Int) (hpx0 : 0 ≤ px) (hpx : px < w) (hX0 : 0 ≤ X)
    (hX : X < w) (hc0 : 0 ≤ c) (hc : c < 4) (hc0' : 0 ≤ c') (hc' : c' < 4)
    (h : (py * w + px) * 4 + c = (Y * w + X) * 4 + c') : px = X ∧ py = Y := by
  have h1 : py * w + px = Y * w + X := by omega
  have hpy : py = Y := by
    by_contra hne
    rcases lt_or_gt_of_ne hne with hlt | hgt
    · have : (py + 1) * w ≤ Y * w := mul_le_mul_of_nonneg_right (by omega) (by omega)
      nlinarith
    · have : (Y + 1) * w ≤ py * w := mul_le_mul_of_nonneg_right (by omega) (by omega)
      nlinarith
  subst hpy
  exact ⟨by linarith, rfl⟩

/-- C18: for every well-formed background and foreground image, opacity and
position `fgPos`, which can be negative, `composite` writes only to values of
background pixels (`px`, `py`) that lie inside the background and satisfy
`0 <= px - fgPos.x < fgWidth` and `0 <= py - fgPos.y < fgHeight`; the values
of every other background pixel are unchanged, the foreground image is
unchanged, and every index written or read lies within the bounds of the
`data` array of its image. -/
theorem composite_frame (store : K → K) (bgImg fgImg : ImageData K) (fgOpac : K) (fgPos : Pos)
    (hbg : bgImg.WellFormed) (hfg : fgImg.WellFormed) :
    (∀ i ∈ (composite store bgImg fgImg fgOpac fgPos).writes,
      ∃ px py c : Nat, px < bgImg.width ∧ py < bgImg.height ∧ c < 4 ∧
        0 ≤ (px : Int) - fgPos.x ∧ (px : Int) - fgPos.x < fgImg.width ∧
        0 ≤ (py : Int) - fgPos.y ∧ (py : Int) - fgPos.y < fgImg.height ∧
        i = (py * bgImg.width + px) * 4 + c) ∧
    (composite store bgImg fgImg fgOpac fgPos).bg.length = bgImg.data.length ∧
    (∀ px py c : Nat, px < bgImg.width → py < bgImg.height → c < 4 →
      ¬ (0 ≤ (px : Int) - fgPos.x ∧ (px : Int) - fgPos.x < fgImg.width ∧
          0 ≤ (py : Int) - fgPos.y ∧ (py : Int) - fgPos.y < fgImg.height) →
      idx (composite store bgImg fgImg fgOpac fgPos).bg ((py * bgImg.width + px) * 4 + c)
        = idx bgImg.data ((py * bgImg.width + px) * 4 + c)) ∧
    (composite store bgImg fgImg fgOpac fgPos).fg = fgImg.data ∧
    (∀ i ∈ (composite store bgImg fgImg fgOpac fgPos).writes, i < bgImg.data.length) ∧
    (∀ i ∈ (composite store bgImg fgImg fgOpac fgPos).bgReads, i < bgImg.data.length) ∧
    (∀ i ∈ (composite store bgImg fgImg fgOpac fgPos).fgReads, i < fgImg.data.length) := by
  obtain ⟨hfgeq, hlen, hkeep, hw, hbr, hfr⟩ := composite_Inv store bgImg fgImg fgOpac fgPos
  refine ⟨?_, hlen, ?_, hfgeq, fun i hi => Covered_lt bgImg fgImg fgPos hbg i (hw i hi),
    fun i hi => Covered_lt bgImg fgImg fgPos hbg i (hbr i hi),
    fun i hi => InForeground_lt fgImg hfg i (hfr i hi)⟩
  · intro i hi
    obtain ⟨x, y, c, hx, hy, hc, hx0, hx1, hy0, hy1, heq⟩ := hw i hi
    refine ⟨(fgPos.x + x).toNat, (fgPos.y + y).toNat, c, by omega, by omega, hc, by omega,
      by omega, by omega, by omega, ?_⟩
    have : (i : Int) = (((fgPos.y + y).toNat * bgImg.width + (fgPos.x + x).toNat) * 4 + c : Nat) := by
      push_cast
      rw [Int.toNat_of_nonneg hx0, Int.toNat_of_nonneg hy0]
      exact heq
    exact_mod_cast this
  · intro px py c hpx hpy hc hout
    apply hkeep
    intro hmem
    obtain ⟨x, y, c', hx, hy, hc', hx0, hx1, hy0, hy1, heq⟩ := hw _ hmem
    push_cast at heq
    obtain ⟨h1, h2⟩ := pixel_unique (bgImg.width : Int) px py c (fgPos.x + x) (fgPos.y + y) c'
      (by omega) (by omega) hx0 hx1 (by omega) (by omega) (by omega) (by omega) heq
    apply hout
    omega

/-- Witness of `composite_frame`: a foreground of two pixels placed one pixel
to the left of a background of two pixels, over the rationals. -/
theorem composite_frame_witness :
    (⟨2, 1, [10, 20, 30, 255, 40, 50, 60, 255]⟩ : ImageData ℚ).WellFormed ∧
    (⟨2, 1, [1, 2, 3, 255, 4, 5, 6, 128]⟩ : ImageData ℚ).WellFormed ∧
    (composite (fun v => v) (⟨2, 1, [10, 20, 30, 255, 40, 50, 60, 255]⟩ : ImageData ℚ)
      ⟨2, 1, [1, 2, 3, 255, 4, 5, 6, 128]⟩ (1 / 2) ⟨-1, 0⟩).bg.length
      = ([10, 20, 30, 255, 40, 50, 60, 255] : List ℚ).length ∧
    (composite (fun v => v) (⟨2, 1, [10, 20, 30, 255, 40, 50, 60, 255]⟩ : ImageData ℚ)
      ⟨2, 1, [1, 2, 3, 255, 4, 5, 6, 128]⟩ (1 / 2) ⟨-1, 0⟩).fg = [1, 2, 3, 255, 4, 5, 6, 128] :=
  have h := composite_frame (fun v => v)
    (⟨2, 1, [10, 20, 30, 255, 40, 50, 60, 255]⟩ : ImageData ℚ)
    ⟨2, 1, [1, 2, 3, 255, 4, 5, 6, 128]⟩ (1 / 2) ⟨-1, 0⟩ rfl rfl
  ⟨rfl, rfl, h.2.1, h.2.2.2.1⟩

/-! ## The values written: bounds, and opacity 0 -/

/-- A property indexed by the loop counter, that every step of a counting
loop carries to the next value of the counter, holds when the loop is
left. -/
theorem foldl_range_preserves {β : Type} (P : Nat → β → Prop) (f : β → Nat → β) :
    ∀ (n : Nat) (b : β), P 0 b → (∀ k st, k < n → P k st → P (k + 1) (f st k)) →
      P n ((List.range n).foldl f b) := by
  intro n
  induction n with
  | zero => intro b h0 _; exact h0
  | succ n ih =>
    intro b h0 hstep
    rw [List.range_succ, List.foldl_append, List.foldl_cons, List.foldl_nil]
    exact hstep n _ (Nat.lt_succ_self n)
      (ih b h0 (fun k st hk hP => hstep k st (Nat.lt_succ_of_lt hk) hP))

/-- An assignment to an element within the array is read back. -/
theorem idx_set_eq (a : List K) (i : Nat) (v : K) (h : i < a.length) :
    idx (a.set i v) i = v := by
  unfold idx
  simp [List.getD_eq_getElem?_getD, List.getElem?_set_self h]

/-- The four assignments to a pixel leave a pixel at another base index, a
multiple of 4 away, as it is. -/
theorem pixelAt_set4_ne (l : List K) (i j : Nat) (r g b a : K) (h : i + 4 ≤ j ∨ j + 4 ≤ i) :
    pixelAt ((((l.set i r).set (i + 1) g).set (i + 2) b).set (i + 3) a) j = pixelAt l j := by
  unfold pixelAt
  ext <;> simp only [] <;>
    rw [idx_set_ne _ _ _ _ (by omega), idx_set_ne _ _ _ _ (by omega),
      idx_set_ne _ _ _ _ (by omega), idx_set_ne _ _ _ _ (by omega)]

/-- The four assignments to a pixel give the pixel the four values. -/
theorem pixelAt_set4_eq (l : List K) (i : Nat) (r g b a : K) (h : i + 3 < l.length) :
    pixelAt ((((l.set i r).set (i + 1) g).set (i + 2) b).set (i + 3) a) i = ⟨r, g, b, a⟩ := by
  unfold pixelAt
  ext
  · simp only []
    rw [idx_set_ne _ _ _ _ (by omega), idx_set_ne _ _ _ _ (by omega),
      idx_set_ne _ _ _ _ (by omega), idx_set_eq _ _ _ (by omega)]
  · simp only []
    rw [idx_set_ne _ _ _ _ (by omega), idx_set_ne _ _ _ _ (by omega),
      idx_set_eq _ _ _ (by simp; omega)]
  · simp only []
    rw [idx_set_ne _ _ _ _ (by omega), idx_set_eq _ _ _ (by simp; omega)]
  · simp only []
    rw [idx_set_eq _ _ _ (by simp; omega)]

/-- What one step of the inner loop does to `bgImg.data` and `fgImg.data`. -/
theorem blendPixel_data (store : K → K) (bgImg fgImg : ImageData K) (fgOpac : K) (fgPos : Pos)
    (y x : Nat) (st : Run K) :
    (blendPixel store bgImg.width bgImg.height fgImg.width fgOpac fgPos y st x).fg = st.fg ∧
    (InBounds bgImg fgPos x y →
      (blendPixel store bgImg.width bgImg.height fgImg.width fgOpac fgPos y st x).bg
        = (((st.bg.set (bgBase bgImg fgPos x y)
              (blend store fgOpac (pixelAt st.fg (fgBase fgImg x y))
                (pixelAt st.bg (bgBase bgImg fgPos x y))).r).set
            (bgBase bgImg fgPos x y + 1)
              (blend store fgOpac (pixelAt st.fg (fgBase fgImg x y))
                (pixelAt st.bg (bgBase bgImg fgPos x y))).g).set
            (bgBase bgImg fgPos x y + 2)
              (blend store fgOpac (pixelAt st.fg (fgBase fgImg x y))
                (pixelAt st.bg (bgBase bgImg fgPos x y))).b).set
            (bgBase bgImg fgPos x y + 3)
              (blend store fgOpac (pixelAt st.fg (fgBase fgImg x y))
                (pixelAt st.bg (bgBase bgImg fgPos x y))).a) ∧
    (¬ InBounds bgImg fgPos x y →
      (blendPixel store bgImg.width bgImg.height fgImg.width fgOpac fgPos y st x).bg = st.bg) := by
  simp only [blendPixel, InBounds, bgBase, fgBase, blend, pixelAt]
  refine ⟨?_, ?_, ?_⟩
  · split_ifs <;> rfl
  · intro h
    rw [if_pos h]
    split_ifs <;> rfl
  · intro h
    rw [if_neg h]

/-- The base indices of two different foreground pixels that pass the bounds
check are at least 4 apart. -/
theorem bgBase_apart {K : Type} (bgImg : ImageData K) (fgPos : Pos) (x y x' y' : Nat)
    (h : InBounds bgImg fgPos x y) (h' : InBounds bgImg fgPos x' y') (hne : ¬ (x' = x ∧ y' = y)) :
    bgBase bgImg fgPos x y + 4 ≤ bgBase bgImg fgPos x' y' ∨
      bgBase bgImg fgPos x' y' + 4 ≤ bgBase bgImg fgPos x y := by
  obtain ⟨hx0, hx1, hy0, hy1⟩ := h
  obtain ⟨hx0', hx1', hy0', hy1'⟩ := h'
  have hB : (0 : Int) ≤ (fgPos.y + y) * bgImg.width + (fgPos.x + x) :=
    add_nonneg (mul_nonneg hy0 (Int.ofNat_nonneg _)) hx0
  have hB' : (0 : Int) ≤ (fgPos.y + y') * bgImg.width + (fgPos.x + x') :=
    add_nonneg (mul_nonneg hy0' (Int.ofNat_nonneg _)) hx0'
  have hdiff : (fgPos.y + y) * (bgImg.width : Int) + (fgPos.x + x)
      ≠ (fgPos.y + y') * bgImg.width + (fgPos.x + x') := by
    intro heq
    obtain ⟨h1, h2⟩ := pixel_unique (bgImg.width : Int) (fgPos.x + x) (fgPos.y + y) 0
      (fgPos.x + x') (fgPos.y + y') 0 hx0 hx1 hx0' hx1' (le_refl _) (by norm_num) (le_refl _)
      (by norm_num) (by rw [heq])
    exact hne ⟨by omega, by omega⟩
  unfold bgBase
  omega

/-- A foreground pixel that passes the bounds check has its four background
values within `bgImg.data`. -/
theorem bgBase_lt {K : Type} (bgImg fgImg : ImageData K) (fgPos : Pos) (hbg : bgImg.WellFormed) (x y : Nat)
    (hx : x < fgImg.width) (hy : y < fgImg.height) (h : InBounds bgImg fgPos x y) :
    bgBase bgImg fgPos x y + 3 < bgImg.data.length := by
  apply Covered_lt bgImg fgImg fgPos hbg
  obtain ⟨hx0, hx1, hy0, hy1⟩ := h
  have hB : (0 : Int) ≤ (fgPos.y + y) * bgImg.width + (fgPos.x + x) :=
    add_nonneg (mul_nonneg hy0 (Int.ofNat_nonneg _)) hx0
  refine ⟨x, y, 3, hx, hy, by norm_num, hx0, hx1, hy0, hy1, ?_⟩
  unfold bgBase
  push_cast
  rw [Int.toNat_of_nonneg (by omega)]

/-- One step of the inner loop carries `Progress` to the next pixel. -/
theorem blendPixel_Progress (store : K → K) (bgImg fgImg : ImageData K) (fgOpac : K)
    (fgPos : Pos) (hbg : bgImg.WellFormed) (y x : Nat) (hy : y < fgImg.height)
    (hx : x < fgImg.width) (st : Run K)
    (hst : Progress store bgImg fgImg fgOpac fgPos y x st) :
    Progress store bgImg fgImg fgOpac fgPos y (x + 1)
      (blendPixel store bgImg.width bgImg.height fgImg.width fgOpac fgPos y st x) := by
  obtain ⟨hfg, hlen, hpix⟩ := hst
  obtain ⟨hfg', hin', hout'⟩ := blendPixel_data store bgImg fgImg fgOpac fgPos y x st
  have hvis : ∀ x' y' : Nat, ¬ (x' = x ∧ y' = y) →
      (Visited y (x + 1) x' y' ↔ Visited y x x' y') := by
    intro x' y' hne
    unfold Visited
    constructor
    · rintro (h | ⟨h1, h2⟩)
      · exact Or.inl h
      · exact Or.inr ⟨h1, by omega⟩
    · rintro (h | ⟨h1, h2⟩)
      · exact Or.inl h
      · exact Or.inr ⟨h1, by omega⟩
  have hself : ¬ Visited y x x y := by
    unfold Visited; omega
  by_cases hin : InBounds bgImg fgPos x y
  · have hb := hin' hin
    have horig := (hpix x y hx hy hin).2 hself
    refine ⟨by rw [hfg', hfg], by rw [hb]; simp [hlen], ?_⟩
    intro x' y' hx' hy' hinb
    by_cases heq : x' = x ∧ y' = y
    · obtain ⟨rfl, rfl⟩ := heq
      refine ⟨fun _ => ?_, fun h => absurd (Or.inr ⟨rfl, Nat.lt_succ_self _⟩) h⟩
      rw [hb, pixelAt_set4_eq _ _ _ _ _ _
        (by rw [hlen]; exact bgBase_lt bgImg fgImg fgPos hbg x' y' hx hy hin), hfg, horig]
    · have hap := bgBase_apart bgImg fgPos x y x' y' hin hinb heq
      rw [hb, pixelAt_set4_ne _ _ _ _ _ _ _ hap, hvis x' y' heq]
      exact hpix x' y' hx' hy' hinb
  · have hb := hout' hin
    refine ⟨by rw [hfg', hfg], by rw [hb]; exact hlen, ?_⟩
    intro x' y' hx' hy' hinb
    have heq : ¬ (x' = x ∧ y' = y) := by
      rintro ⟨rfl, rfl⟩
      exact hin hinb
    rw [hb, hvis x' y' heq]
    exact hpix x' y' hx' hy' hinb

/-- When `composite` returns, the background pixel under every foreground
pixel that passes the bounds check holds the blend of the two original
pixels. -/
theorem composite_values (store : K → K) (bgImg fgImg : ImageData K) (fgOpac : K) (fgPos : Pos)
    (hbg : bgImg.WellFormed) (x y : Nat) (hx : x < fgImg.width) (hy : y < fgImg.height)
    (hin : InBounds bgImg fgPos x y) :
    pixelAt (composite store bgImg fgImg fgOpac fgPos).bg (bgBase bgImg fgPos x y)
      = blend store fgOpac (pixelAt fgImg.data (fgBase fgImg x y))
          (pixelAt bgImg.data (bgBase bgImg fgPos x y)) := by
  have hfinal : Progress store bgImg fgImg fgOpac fgPos fgImg.height 0
      (composite store bgImg fgImg fgOpac fgPos) := by
    unfold composite
    apply foldl_range_preserves (fun k st => Progress store bgImg fgImg fgOpac fgPos k 0 st)
    · refine ⟨rfl, rfl, fun x' y' _ _ _ => ⟨fun h => ?_, fun _ => rfl⟩⟩
      unfold Visited at h
      omega
    · intro k st hk hst
      have hrow : Progress store bgImg fgImg fgOpac fgPos k fgImg.width
          ((List.range fgImg.width).foldl
            (blendPixel store bgImg.width bgImg.height fgImg.width fgOpac fgPos k) st) := by
        apply foldl_range_preserves (fun j st => Progress store bgImg fgImg fgOpac fgPos k j st)
        · exact hst
        · intro j st' hj hst'
          exact blendPixel_Progress store bgImg fgImg fgOpac fgPos hbg k j hk hj st' hst'
      obtain ⟨h1, h2, h3⟩ := hrow
      refine ⟨h1, h2, fun x' y' hx' hy' hinb => ?_⟩
      have hiff : Visited (k + 1) 0 x' y' ↔ Visited k fgImg.width x' y' := by
        unfold Visited
        omega
      rw [hiff]
      exact h3 x' y' hx' hy' hinb
  exact (hfinal.2.2 x y hx hy hin).1 (Or.inl hy)

/-- A weighted mean with non-negative weights lies between the two values. -/
theorem mean_between (a b w₁ w₂ : K) (h₁ : 0 ≤ w₁) (h₂ : 0 ≤ w₂) (hpos : 0 < w₁ + w₂) :
    min a b ≤ (a * w₁ + b * w₂) / (w₁ + w₂) ∧ (a * w₁ + b * w₂) / (w₁ + w₂) ≤ max a b := by
  constructor
  · rw [le_div_iff₀ hpos]
    have ha := min_le_left a b
    have hb := min_le_right a b
    nlinarith [mul_le_mul_of_nonneg_right ha h₁, mul_le_mul_of_nonneg_right hb h₂]
  · rw [div_le_iff₀ hpos]
    have ha := le_max_left a b
    have hb := le_max_right a b
    nlinarith [mul_le_mul_of_nonneg_right ha h₁, mul_le_mul_of_nonneg_right hb h₂]

/-- The blend of two pixels in terms of `newAlpha`. -/
theorem blend_eq (store : K → K) (fgOpac : K) (fg bg : Pixel K) :
    blend store fgOpac fg bg =
      if newAlpha fgOpac fg bg = 0 then ⟨store 0, store 0, store 0, store 0⟩
      else
        ⟨store ((fg.r * (fg.a / 255 * fgOpac) + bg.r * (bg.a / 255 * (1 - fg.a / 255 * fgOpac)))
            / (fg.a / 255 * fgOpac + bg.a / 255 * (1 - fg.a / 255 * fgOpac))),
          store ((fg.g * (fg.a / 255 * fgOpac) + bg.g * (bg.a / 255 * (1 - fg.a / 255 * fgOpac)))
            / (fg.a / 255 * fgOpac + bg.a / 255 * (1 - fg.a / 255 * fgOpac))),
          store ((fg.b * (fg.a / 255 * fgOpac) + bg.b * (bg.a / 255 * (1 - fg.a / 255 * fgOpac)))
            / (fg.a / 255 * fgOpac + bg.a / 255 * (1 - fg.a / 255 * fgOpac))),
          store (newAlpha fgOpac fg bg * 255)⟩ := by
  simp only [blend, newAlpha, mul_assoc]

/-- One channel of the blend, when the new alpha is not 0. -/
theorem channel_between (store : K → K) (hmono : Monotone store) (a b w₁ w₂ : K)
    (ha : store a = a) (hb : store b = b) (h₁ : 0 ≤ w₁) (h₂ : 0 ≤ w₂) (hpos : 0 < w₁ + w₂) :
    min a b ≤ store ((a * w₁ + b * w₂) / (w₁ + w₂)) ∧
      store ((a * w₁ + b * w₂) / (w₁ + w₂)) ≤ max a b := by
  obtain ⟨hlo, hhi⟩ := mean_between a b w₁ w₂ h₁ h₂ hpos
  have hmin : store (min a b) = min a b := by
    rcases min_choice a b with h | h <;> rw [h] <;> assumption
  have hmax : store (max a b) = max a b := by
    rcases max_choice a b with h | h <;> rw [h] <;> assumption
  exact ⟨hmin ▸ hmono hlo, hmax ▸ hmono hhi⟩

/-- Bounds on the blend of two pixels with values in [0, 255], for an
opacity in [0, 1]. -/
theorem blend_bounds (store : K → K) (hmono : Monotone store) (h0 : store 0 = 0)
    (h255 : store 255 = 255) (fgOpac : K) (hop0 : 0 ≤ fgOpac) (hop1 : fgOpac ≤ 1)
    (fg bg : Pixel K) (hfg : fg.InRange) (hbg : bg.InRange)
    (hfr : store fg.r = fg.r) (hfgg : store fg.g = fg.g) (hfb : store fg.b = fg.b)
    (hbr : store bg.r = bg.r) (hbgg : store bg.g = bg.g) (hbb : store bg.b = bg.b) :
    (blend store fgOpac fg bg).InRange ∧
    (newAlpha fgOpac fg bg ≠ 0 →
      (min fg.r bg.r ≤ (blend store fgOpac fg bg).r ∧
        (blend store fgOpac fg bg).r ≤ max fg.r bg.r) ∧
      (min fg.g bg.g ≤ (blend store fgOpac fg bg).g ∧
        (blend store fgOpac fg bg).g ≤ max fg.g bg.g) ∧
      (min fg.b bg.b ≤ (blend store fgOpac fg bg).b ∧
        (blend store fgOpac fg bg).b ≤ max fg.b bg.b)) ∧
    (newAlpha fgOpac fg bg = 0 → blend store fgOpac fg bg = ⟨0, 0, 0, 0⟩) := by
  obtain ⟨⟨fr0, fr1⟩, ⟨fg0, fg1⟩, ⟨fb0, fb1⟩, ⟨fa0, fa1⟩⟩ := hfg
  obtain ⟨⟨br0, br1⟩, ⟨bg0, bg1⟩, ⟨bb0, bb1⟩, ⟨ba0, ba1⟩⟩ := hbg
  have hfa0 : 0 ≤ fg.a / 255 * fgOpac := mul_nonneg (div_nonneg fa0 (by norm_num)) hop0
  have hfa1 : fg.a / 255 * fgOpac ≤ 1 := by
    have : fg.a / 255 ≤ 1 := by rw [div_le_one (by norm_num)]; exact fa1
    calc fg.a / 255 * fgOpac ≤ 1 * 1 :=
          mul_le_mul this hop1 hop0 (by norm_num)
      _ = 1 := by norm_num
  have hba0 : 0 ≤ bg.a / 255 := div_nonneg ba0 (by norm_num)
  have hba1 : bg.a / 255 ≤ 1 := by rw [div_le_one (by norm_num)]; exact ba1
  have hw2 : 0 ≤ bg.a / 255 * (1 - fg.a / 255 * fgOpac) := mul_nonneg hba0 (by linarith)
  have hna0 : 0 ≤ newAlpha fgOpac fg bg := by unfold newAlpha; linarith
  have hna1 : newAlpha fgOpac fg bg ≤ 1 := by
    unfold newAlpha
    nlinarith [mul_nonneg (sub_nonneg.mpr hba1) (sub_nonneg.mpr hfa1)]
  have hzero : newAlpha fgOpac fg bg = 0 → blend store fgOpac fg bg = ⟨0, 0, 0, 0⟩ := by
    intro hz
    rw [blend_eq, if_pos hz, h0]
  have hbetween : newAlpha fgOpac fg bg ≠ 0 →
      (min fg.r bg.r ≤ (blend store fgOpac fg bg).r ∧
        (blend store fgOpac fg bg).r ≤ max fg.r bg.r) ∧
      (min fg.g bg.g ≤ (blend store fgOpac fg bg).g ∧
        (blend store fgOpac fg bg).g ≤ max fg.g bg.g) ∧
      (min fg.b bg.b ≤ (blend store fgOpac fg bg).b ∧
        (blend store fgOpac fg bg).b ≤ max fg.b bg.b) := by
    intro hnz
    have hpos : 0 < fg.a / 255 * fgOpac + bg.a / 255 * (1 - fg.a / 255 * fgOpac) :=
      lt_of_le_of_ne hna0 (Ne.symm hnz)
    rw [blend_eq, if_neg hnz]
    exact ⟨channel_between store hmono _ _ _ _ hfr hbr hfa0 hw2 hpos,
      channel_between store hmono _ _ _ _ hfgg hbgg hfa0 hw2 hpos,
      channel_between store hmono _ _ _ _ hfb hbb hfa0 hw2 hpos⟩
  refine ⟨?_, hbetween, hzero⟩
  by_cases hz : newAlpha fgOpac fg bg = 0
  · rw [hzero hz]
    exact ⟨⟨le_refl _, by norm_num⟩, ⟨le_refl _, by norm_num⟩, ⟨le_refl _, by norm_num⟩,
      ⟨le_refl _, by norm_num⟩⟩
  · obtain ⟨⟨r0, r1⟩, ⟨g0, g1⟩, ⟨b0, b1⟩⟩ := hbetween hz
    refine ⟨⟨le_trans (le_min fr0 br0) r0, le_trans r1 (max_le fr1 br1)⟩,
      ⟨le_trans (le_min fg0 bg0) g0, le_trans g1 (max_le fg1 bg1)⟩,
      ⟨le_trans (le_min fb0 bb0) b0, le_trans b1 (max_le fb1 bb1)⟩, ?_⟩
    rw [blend_eq, if_neg hz]
    constructor
    · have h : store 0 ≤ store (newAlpha fgOpac fg bg * 255) :=
        hmono (mul_nonneg hna0 (by norm_num))
      rwa [h0] at h
    · have hle : newAlpha fgOpac fg bg * 255 ≤ 255 := by linarith
      have h : store (newAlpha fgOpac fg bg * 255) ≤ store 255 := hmono hle
      rwa [h255] at h

/-- An element within the array is a value of the array. -/
theorem idx_mem (l : List K) (i : Nat) (h : i < l.length) : idx l i ∈ l := by
  unfold idx
  rw [List.getD_eq_getElem?_getD, List.getElem?_eq_getElem h]
  exact List.getElem_mem h

/-- The values of a pixel that lies within the `data` array of an image are
values of the array. -/
theorem pixelAt_mem (l : List K) (i : Nat) (h : i + 3 < l.length) :
    (pixelAt l i).r ∈ l ∧ (pixelAt l i).g ∈ l ∧ (pixelAt l i).b ∈ l ∧ (pixelAt l i).a ∈ l :=
  ⟨idx_mem l i (by omega), idx_mem l (i + 1) (by omega), idx_mem l (i + 2) (by omega),
    idx_mem l (i + 3) h⟩

/-- The values of a foreground pixel lie within `fgImg.data`. -/
theorem fgBase_lt {K : Type} (fgImg : ImageData K) (hfg : fgImg.WellFormed) (x y : Nat)
    (hx : x < fgImg.width) (hy : y < fgImg.height) : fgBase fgImg x y + 3 < fgImg.data.length :=
  InForeground_lt fgImg hfg _ ⟨x, y, 3, hx, hy, by norm_num, rfl⟩

/-- C23 (amended): let both images be well formed, all their values lie in
[0, 255], `fgOpac` lie in [0, 1], and assignments to `bgImg.data` store
faithfully.  For every foreground pixel that passes the bounds check, that
is for every pixel that `composite` writes: the four written values lie in
[0, 255]; when the new alpha is not 0, each written R, G, B value lies
between the minimum and the maximum of the corresponding foreground and
background values; and when the new alpha is 0, the four written values are
0. -/
theorem composite_written_range (store : K → K) (bgImg fgImg : ImageData K) (fgOpac : K)
    (fgPos : Pos) (hbg : bgImg.WellFormed) (hfg : fgImg.WellFormed)
    (hbgr : bgImg.InRange) (hfgr : fgImg.InRange) (hop0 : 0 ≤ fgOpac) (hop1 : fgOpac ≤ 1)
    (hstore : StoresFaithfully store bgImg fgImg)
    (x y : Nat) (hx : x < fgImg.width) (hy : y < fgImg.height)
    (hin : InBounds bgImg fgPos x y) :
    (pixelAt (composite store bgImg fgImg fgOpac fgPos).bg (bgBase bgImg fgPos x y)).InRange ∧
    (newAlpha fgOpac (pixelAt fgImg.data (fgBase fgImg x y))
        (pixelAt bgImg.data (bgBase bgImg fgPos x y)) ≠ 0 →
      (min (pixelAt fgImg.data (fgBase fgImg x y)).r (pixelAt bgImg.data (bgBase bgImg fgPos x y)).r
          ≤ (pixelAt (composite store bgImg fgImg fgOpac fgPos).bg (bgBase bgImg fgPos x y)).r ∧
        (pixelAt (composite store bgImg fgImg fgOpac fgPos).bg (bgBase bgImg fgPos x y)).r
          ≤ max (pixelAt fgImg.data (fgBase fgImg x y)).r
              (pixelAt bgImg.data (bgBase bgImg fgPos x y)).r) ∧
      (min (pixelAt fgImg.data (fgBase fgImg x y)).g (pixelAt bgImg.data (bgBase bgImg fgPos x y)).g
          ≤ (pixelAt (composite store bgImg fgImg fgOpac fgPos).bg (bgBase bgImg fgPos x y)).g ∧
        (pixelAt (composite store bgImg fgImg fgOpac fgPos).bg (bgBase bgImg fgPos x y)).g
          ≤ max (pixelAt fgImg.data (fgBase fgImg x y)).g
              (pixelAt bgImg.data (bgBase bgImg fgPos x y)).g) ∧
      (min (pixelAt fgImg.data (fgBase fgImg x y)).b (pixelAt bgImg.data (bgBase bgImg fgPos x y)).b
          ≤ (pixelAt (composite store bgImg fgImg fgOpac fgPos).bg (bgBase bgImg fgPos x y)).b ∧
        (pixelAt (composite store bgImg fgImg fgOpac fgPos).bg (bgBase bgImg fgPos x y)).b
          ≤ max (pixelAt fgImg.data (fgBase fgImg x y)).b
              (pixelAt bgImg.data (bgBase bgImg fgPos x y)).b)) ∧
    (newAlpha fgOpac (pixelAt fgImg.data (fgBase fgImg x y))
        (pixelAt bgImg.data (bgBase bgImg fgPos x y)) = 0 →
      pixelAt (composite store bgImg fgImg fgOpac fgPos).bg (bgBase bgImg fgPos x y)
        = ⟨0, 0, 0, 0⟩) := by
  obtain ⟨hmono, h0, h255, hbfix, hffix⟩ := hstore
  obtain ⟨fr, fg, fb, fa⟩ := pixelAt_mem fgImg.data _ (fgBase_lt fgImg hfg x y hx hy)
  obtain ⟨br, bg, bb, ba⟩ := pixelAt_mem bgImg.data _
    (bgBase_lt bgImg fgImg fgPos hbg x y hx hy hin)
  rw [composite_values store bgImg fgImg fgOpac fgPos hbg x y hx hy hin]
  exact blend_bounds store hmono h0 h255 fgOpac hop0 hop1 _ _
    ⟨hfgr _ fr, hfgr _ fg, hfgr _ fb, hfgr _ fa⟩ ⟨hbgr _ br, hbgr _ bg, hbgr _ bb, hbgr _ ba⟩
    (hffix _ fr) (hffix _ fg) (hffix _ fb) (hbfix _ br) (hbfix _ bg) (hbfix _ bb)

/-- With opacity 0 the blend is the background pixel, or zeros when its alpha
is 0. -/
theorem blend_opacity_zero (store : K → K) (fg bg : Pixel K) :
    blend store 0 fg bg =
      if bg.a = 0 then ⟨store 0, store 0, store 0, store 0⟩
      else ⟨store bg.r, store bg.g, store bg.b, store bg.a⟩ := by
  by_cases h : bg.a = 0
  · simp [blend, h]
  · have h255 : (255 : K) ≠ 0 := by norm_num
    have hdiv : bg.a / 255 ≠ 0 := div_ne_zero h h255
    simp only [blend, mul_zero, zero_add, sub_zero, mul_one, add_zero, hdiv, if_false, h]
    rw [mul_div_assoc, div_self hdiv, mul_one, mul_div_assoc, div_self hdiv, mul_one,
      mul_div_assoc, div_self hdiv, mul_one, div_mul_cancel₀ _ h255]

/-- The values of a background pixel that lies under no foreground pixel are
unchanged. -/
theorem composite_unchanged (store : K → K) (bgImg fgImg : ImageData K) (fgOpac : K)
    (fgPos : Pos) (px py : Nat) (hpx : px < bgImg.width)
    (hout : ¬ (0 ≤ (px : Int) - fgPos.x ∧ (px : Int) - fgPos.x < fgImg.width ∧
      0 ≤ (py : Int) - fgPos.y ∧ (py : Int) - fgPos.y < fgImg.height)) :
    pixelAt (composite store bgImg fgImg fgOpac fgPos).bg ((py * bgImg.width + px) * 4)
      = pixelAt bgImg.data ((py * bgImg.width + px) * 4) := by
  obtain ⟨_, _, hkeep, hw, _, _⟩ := composite_Inv store bgImg fgImg fgOpac fgPos
  have hc : ∀ c : Nat, c < 4 →
      idx (composite store bgImg fgImg fgOpac fgPos).bg ((py * bgImg.width + px) * 4 + c)
        = idx bgImg.data ((py * bgImg.width + px) * 4 + c) := by
    intro c hc
    apply hkeep
    intro hmem
    obtain ⟨x, y, c', hx, hy, hc', hx0, hx1, hy0, hy1, heq⟩ := hw _ hmem
    push_cast at heq
    obtain ⟨h1, h2⟩ := pixel_unique (bgImg.width : Int) px py c (fgPos.x + x) (fgPos.y + y) c'
      (by omega) (by omega) hx0 hx1 (by omega) (by omega) (by omega) (by omega) heq
    apply hout
    omega
  unfold pixelAt
  ext
  · exact hc 0 (by norm_num)
  · exact hc 1 (by norm_num)
  · exact hc 2 (by norm_num)
  · exact hc 3 (by norm_num)

/-- C24: with `fgOpac = 0`, on a well-formed background whose values, and 0,
are stored as they are, `composite` leaves every background pixel whose alpha
is not 0 with its original R, G, B and alpha; every background pixel that it
alters lies under a foreground pixel, has alpha 0, and is set to
(0, 0, 0, 0); and every background pixel that lies under a foreground pixel
and has alpha 0 is set to (0, 0, 0, 0). -/
theorem composite_opacity_zero (store : K → K) (bgImg fgImg : ImageData K) (fgPos : Pos)
    (hbg : bgImg.WellFormed) (h0 : store 0 = 0) (hfix : ∀ v ∈ bgImg.data, store v = v)
    (px py : Nat) (hpx : px < bgImg.width) (hpy : py < bgImg.height) :
    ((pixelAt bgImg.data ((py * bgImg.width + px) * 4)).a ≠ 0 →
      pixelAt (composite store bgImg fgImg 0 fgPos).bg ((py * bgImg.width + px) * 4)
        = pixelAt bgImg.data ((py * bgImg.width + px) * 4)) ∧
    (pixelAt (composite store bgImg fgImg 0 fgPos).bg ((py * bgImg.width + px) * 4)
        ≠ pixelAt bgImg.data ((py * bgImg.width + px) * 4) →
      (0 ≤ (px : Int) - fgPos.x ∧ (px : Int) - fgPos.x < fgImg.width ∧
        0 ≤ (py : Int) - fgPos.y ∧ (py : Int) - fgPos.y < fgImg.height) ∧
      (pixelAt bgImg.data ((py * bgImg.width + px) * 4)).a = 0 ∧
      pixelAt (composite store bgImg fgImg 0 fgPos).bg ((py * bgImg.width + px) * 4)
        = ⟨0, 0, 0, 0⟩) ∧
    ((0 ≤ (px : Int) - fgPos.x ∧ (px : Int) - fgPos.x < fgImg.width ∧
        0 ≤ (py : Int) - fgPos.y ∧ (py : Int) - fgPos.y < fgImg.height) →
      (pixelAt bgImg.data ((py * bgImg.width + px) * 4)).a = 0 →
      pixelAt (composite store bgImg fgImg 0 fgPos).bg ((py * bgImg.width + px) * 4)
        = ⟨0, 0, 0, 0⟩) := by
  by_cases hcov : 0 ≤ (px : Int) - fgPos.x ∧ (px : Int) - fgPos.x < fgImg.width ∧
      0 ≤ (py : Int) - fgPos.y ∧ (py : Int) - fgPos.y < fgImg.height
  · obtain ⟨hx0, hx1, hy0, hy1⟩ := hcov
    have hxe : fgPos.x + (((px : Int) - fgPos.x).toNat : Int) = px := by omega
    have hye : fgPos.y + (((py : Int) - fgPos.y).toNat : Int) = py := by omega
    have hin : InBounds bgImg fgPos ((px : Int) - fgPos.x).toNat ((py : Int) - fgPos.y).toNat := by
      unfold InBounds
      rw [hxe, hye]
      omega
    have hbase : bgBase bgImg fgPos ((px : Int) - fgPos.x).toNat ((py : Int) - fgPos.y).toNat
        = (py * bgImg.width + px) * 4 := by
      unfold bgBase
      rw [hxe, hye]
      have : ((py : Int) * bgImg.width + px) * 4 = (((py * bgImg.width + px) * 4 : Nat) : Int) := by
        push_cast; ring
      rw [this, Int.toNat_natCast]
    have hval := composite_values store bgImg fgImg 0 fgPos hbg _ _ (by omega) (by omega) hin
    have hlt := bgBase_lt bgImg fgImg fgPos hbg _ _ (by omega) (by omega) hin
    rw [hbase] at hval hlt
    rw [blend_opacity_zero] at hval
    obtain ⟨br, bg, bb, ba⟩ := pixelAt_mem bgImg.data _ hlt
    by_cases ha : (pixelAt bgImg.data ((py * bgImg.width + px) * 4)).a = 0
    · rw [if_pos ha, h0] at hval
      exact ⟨fun h => absurd ha h, fun _ => ⟨⟨hx0, hx1, hy0, hy1⟩, ha, hval⟩, fun _ _ => hval⟩
    · rw [if_neg ha, hfix _ br, hfix _ bg, hfix _ bb, hfix _ ba] at hval
      exact ⟨fun _ => hval, fun h => absurd hval h, fun _ h => absurd h ha⟩
  · have hsame := composite_unchanged store bgImg fgImg 0 fgPos px py hpx hcov
    exact ⟨fun _ => hsame, fun h => absurd hsame h, fun h => absurd h hcov⟩

/-- C23, counterexample: a background of one pixel (200, 200, 200, 0) under a
foreground of one pixel (100, 100, 100, 0), opacity 1, over the rationals.
All values lie in [0, 255], the new alpha is 0, and the written R is 0, which
is less than the minimum, 100, of the two R values. -/
theorem composite_zero_alpha_outside_range :
    (∀ v ∈ ([200, 200, 200, 0] : List ℚ), 0 ≤ v ∧ v ≤ 255) ∧
    (∀ v ∈ ([100, 100, 100, 0] : List ℚ), 0 ≤ v ∧ v ≤ 255) ∧
    ((0 : ℚ) ≤ 1 ∧ (1 : ℚ) ≤ 1) ∧
    0 ∈ (composite (fun v => v) (⟨1, 1, [200, 200, 200, 0]⟩ : ImageData ℚ)
      ⟨1, 1, [100, 100, 100, 0]⟩ 1 ⟨0, 0⟩).writes ∧
    idx (composite (fun v => v) (⟨1, 1, [200, 200, 200, 0]⟩ : ImageData ℚ)
      ⟨1, 1, [100, 100, 100, 0]⟩ 1 ⟨0, 0⟩).bg 0 = 0 ∧
    ¬ (min (idx ([100, 100, 100, 0] : List ℚ) 0) (idx ([200, 200, 200, 0] : List ℚ) 0)
      ≤ idx (composite (fun v => v) (⟨1, 1, [200, 200, 200, 0]⟩ : ImageData ℚ)
        ⟨1, 1, [100, 100, 100, 0]⟩ 1 ⟨0, 0⟩).bg 0) := by
  have hrun : composite (fun v => v) (⟨1, 1, [200, 200, 200, 0]⟩ : ImageData ℚ)
      ⟨1, 1, [100, 100, 100, 0]⟩ 1 ⟨0, 0⟩
      = ⟨[0, 0, 0, 0], [100, 100, 100, 0], [0, 1, 2, 3], [0, 1, 2, 3], [0, 1, 2, 3]⟩ := by
    norm_num [composite, blendPixel, write4, idx, List.range, List.range.loop]
  rw [hrun]
  norm_num [idx]

/-- Witness of `composite_written_range`: a background of one pixel under a
foreground of one pixel, opacity 1/2, over the rationals. -/
theorem composite_written_range_witness :
    (pixelAt (composite (fun v => v) (⟨1, 1, [200, 100, 0, 255]⟩ : ImageData ℚ)
      ⟨1, 1, [100, 200, 50, 255]⟩ (1 / 2) ⟨0, 0⟩).bg
      (bgBase (⟨1, 1, [200, 100, 0, 255]⟩ : ImageData ℚ) ⟨0, 0⟩ 0 0)).InRange :=
  (composite_written_range (fun v => v) (⟨1, 1, [200, 100, 0, 255]⟩ : ImageData ℚ)
    ⟨1, 1, [100, 200, 50, 255]⟩ (1 / 2) ⟨0, 0⟩ rfl rfl
    (by intro v hv; simp at hv; rcases hv with rfl | rfl | rfl | rfl <;> norm_num)
    (by intro v hv; simp at hv; rcases hv with rfl | rfl | rfl | rfl <;> norm_num)
    (by norm_num) (by norm_num)
    ⟨fun _ _ h => h, rfl, rfl, fun _ _ => rfl, fun _ _ => rfl⟩
    0 0 (by decide) (by decide) (by simp [InBounds])).1

/-- Witness of `composite_opacity_zero`: a background of two pixels under a
foreground of two pixels, over the rationals.  The first background pixel,
of alpha 255, keeps its values; the second, of alpha 0, is set to
(0, 0, 0, 0). -/
theorem composite_opacity_zero_witness :
    (⟨2, 1, [10, 20, 30, 255, 40, 50, 60, 0]⟩ : ImageData ℚ).WellFormed ∧
    pixelAt (composite (fun v => v) (⟨2, 1, [10, 20, 30, 255, 40, 50, 60, 0]⟩ : ImageData ℚ)
      ⟨2, 1, [1, 2, 3, 255, 4, 5, 6, 128]⟩ 0 ⟨0, 0⟩).bg 0 = ⟨10, 20, 30, 255⟩ ∧
    pixelAt (composite (fun v => v) (⟨2, 1, [10, 20, 30, 255, 40, 50, 60, 0]⟩ : ImageData ℚ)
      ⟨2, 1, [1, 2, 3, 255, 4, 5, 6, 128]⟩ 0 ⟨0, 0⟩).bg 4 = ⟨0, 0, 0, 0⟩ :=
  ⟨rfl,
    (composite_opacity_zero (fun v => v)
      (⟨2, 1, [10, 20, 30, 255, 40, 50, 60, 0]⟩ : ImageData ℚ)
      ⟨2, 1, [1, 2, 3, 255, 4, 5, 6, 128]⟩ ⟨0, 0⟩ rfl rfl (fun _ _ => rfl)
      0 0 (by decide) (by decide)).1 (by norm_num [pixelAt, idx]),
    (composite_opacity_zero (fun v => v)
      (⟨2, 1, [10, 20, 30, 255, 40, 50, 60, 0]⟩ : ImageData ℚ)
      ⟨2, 1, [1, 2, 3, 255, 4, 5, 6, 128]⟩ ⟨0, 0⟩ rfl rfl (fun _ _ => rfl)
      1 0 (by decide) (by decide)).2.2 (by decide) (by norm_num [pixelAt, idx])⟩

end Proofs

end ComposingImages

/-! # Proofs for the simulation step and the shininess -/

namespace Animations

section Proofs
variable {K : Type} [LinearOrderedField K]

/-- The coordinate that the collision leaves is `NaN` or lies in [-1, 1]. -/
theorem collideAxis_mem (restitution p v : Number K) :
    (collideAxis restitution p v).1 = .nan ∨ (collideAxis restitution p v).1.InUnit := by
  cases p with
  | fin a =>
    right
    simp only [collideAxis, Number.lt, Number.gt, decide_eq_true_eq]
    split_ifs with h1 h2
    · simp [Number.InUnit]
    · simp [Number.InUnit]
    · exact ⟨not_lt.mp h1, not_lt.mp h2⟩
  | posInf => right; simp [collideAxis, Number.lt, Number.gt, Number.InUnit]
  | negInf => right; simp [collideAxis, Number.lt, Number.gt, Number.InUnit]
  | nan => left; simp [collideAxis, Number.lt, Number.gt]

/-- The collision leaves a coordinate that is `NaN` as it is. -/
theorem collideAxis_nan (restitution v : Number K) :
    collideAxis restitution .nan v = (.nan, v) := by
  simp [collideAxis, Number.lt, Number.gt]

theorem collide_NaNOrInBox (restitution : Number K) (p v : Vec3 (Number K)) :
    NaNOrInBox (collide restitution p v).1 :=
  ⟨collideAxis_mem restitution p.x v.x, collideAxis_mem restitution p.y v.y,
    collideAxis_mem restitution p.z v.z⟩

/-- One step of the last loop keeps the length of `positions`, leaves the
other positions as they are, and leaves at `i` a position whose coordinates
are `NaN` or in [-1, 1]. -/
theorem updateParticle_spec (V : Vec3Class (Number K)) (dt particleMass restitution : Number K)
    (forces : List (Vec3 (Number K))) (st out : List (Vec3 (Number K)) × List (Vec3 (Number K)))
    (i : Nat) (h : updateParticle V dt particleMass restitution forces st i = some out) :
    out.1.length = st.1.length ∧ (∀ j, j ≠ i → out.1[j]? = st.1[j]?) ∧
      ∀ p, out.1[i]? = some p → NaNOrInBox p := by
  unfold updateParticle at h
  simp only [Option.bind_eq_bind, Option.pure_def, Option.bind_eq_some, Option.some.injEq] at h
  obtain ⟨f, _, v, _, p, hp, rfl⟩ := h
  refine ⟨by simp, fun j hj => by simp [List.getElem?_set_ne (Ne.symm hj)], ?_⟩
  intro q hq
  have hi : i < st.1.length := (List.getElem?_eq_some_iff.mp hp).1
  rw [List.getElem?_set_self hi] at hq
  cases hq
  exact collide_NaNOrInBox _ _ _

/-- After the loop over the first `n` particles, the coordinates of their
positions are `NaN` or in [-1, 1]. -/
theorem updateAll_spec (V : Vec3Class (Number K)) (dt particleMass restitution : Number K)
    (forces : List (Vec3 (Number K))) (st : List (Vec3 (Number K)) × List (Vec3 (Number K))) :
    ∀ (n : Nat) (out : List (Vec3 (Number K)) × List (Vec3 (Number K))),
      (List.range n).foldlM (updateParticle V dt particleMass restitution forces) st = some out →
      out.1.length = st.1.length ∧ ∀ j, j < n → ∀ p, out.1[j]? = some p → NaNOrInBox p := by
  intro n
  induction n with
  | zero =>
    intro out h
    simp only [List.range_zero, List.foldlM_nil, Option.pure_def, Option.some.injEq] at h
    subst h
    exact ⟨rfl, fun j hj => absurd hj (Nat.not_lt_zero j)⟩
  | succ n ih =>
    intro out h
    rw [List.range_succ, List.foldlM_append] at h
    simp only [Option.bind_eq_bind, Option.bind_eq_some, List.foldlM_cons, List.foldlM_nil,
      Option.pure_def, Option.bind_some] at h
    obtain ⟨mid, hmid, hout⟩ := h
    obtain ⟨hlen, hbox⟩ := ih mid hmid
    have hout' : updateParticle V dt particleMass restitution forces mid n = some out := by
      simpa using hout
    obtain ⟨hl, hkeep, hnew⟩ := updateParticle_spec V dt particleMass restitution forces mid out n
      hout'
    refine ⟨by rw [hl, hlen], fun j hj p hp => ?_⟩
    rcases Nat.lt_succ_iff_lt_or_eq.mp hj with hlt | rfl
    · rw [hkeep j (Nat.ne_of_lt hlt)] at hp
      exact hbox j hlt p hp
    · exact hnew p hp

/-- The loop over the springs returns, with `forces` of the same length,
when the springs join particles that exist and every particle has a
velocity. -/
theorem applySprings_returns (V : Vec3Class (Number K))
    (positions velocities : List (Vec3 (Number K)))
    (stiffness damping : Number K) (hv : velocities.length = positions.length)
    (springs : List (Spring (Number K)))
    (hs : ∀ s ∈ springs, s.p0 < positions.length ∧ s.p1 < positions.length) :
    ∀ forces : List (Vec3 (Number K)), forces.length = positions.length →
      ∃ forces', springs.foldlM (applySpring V positions velocities stiffness damping) forces
          = some forces' ∧ forces'.length = positions.length := by
  induction springs with
  | nil => intro forces hf; exact ⟨forces, rfl, hf⟩
  | cons s l ih =>
    intro forces hf
    obtain ⟨h0, h1⟩ := hs s (List.mem_cons_self _ _)
    rw [List.foldlM_cons]
    have hstep : ∃ f', applySpring V positions velocities stiffness damping forces s = some f' ∧
        f'.length = positions.length := by
      unfold applySpring
      simp only [Option.bind_eq_bind, Option.pure_def, List.getElem?_eq_getElem h0,
        List.getElem?_eq_getElem h1, List.getElem?_eq_getElem (hv ▸ h0),
        List.getElem?_eq_getElem (hv ▸ h1), List.getElem?_eq_getElem (hf ▸ h0),
        Option.some_bind]
      rw [List.getElem?_eq_getElem (by rw [List.length_set, hf]; exact h1)]
      simp only [Option.some_bind]
      exact ⟨_, rfl, by simp [hf]⟩
    obtain ⟨f', hf', hlen'⟩ := hstep
    rw [hf']
    exact ih (fun s' hs' => hs s' (List.mem_cons_of_mem _ hs')) f' hlen'

/-- The last loop returns when every particle has a force and a velocity. -/
theorem updateAll_returns (V : Vec3Class (Number K)) (dt particleMass restitution : Number K)
    (forces : List (Vec3 (Number K))) (N : Nat) (hf : forces.length = N) :
    ∀ (n : Nat) (st : List (Vec3 (Number K)) × List (Vec3 (Number K))), n ≤ N →
      st.1.length = N → st.2.length = N →
      ∃ out, (List.range n).foldlM (updateParticle V dt particleMass restitution forces) st
          = some out ∧ out.1.length = N ∧ out.2.length = N := by
  intro n
  induction n with
  | zero => intro st _ h1 h2; exact ⟨st, rfl, h1, h2⟩
  | succ n ih =>
    intro st hn h1 h2
    obtain ⟨mid, hmid, hm1, hm2⟩ := ih st (Nat.le_of_succ_le hn) h1 h2
    rw [List.range_succ, List.foldlM_append, hmid]
    simp only [Option.bind_eq_bind, Option.some_bind, List.foldlM_cons, List.foldlM_nil,
      Option.pure_def]
    unfold updateParticle
    have hnN : n < N := hn
    simp only [Option.bind_eq_bind, Option.pure_def, List.getElem?_eq_getElem (hf ▸ hnN),
      List.getElem?_eq_getElem (hm1 ▸ hnN), List.getElem?_eq_getElem (hm2 ▸ hnN),
      Option.some_bind, Option.bind_some]
    exact ⟨_, rfl, by simp [hm1], by simp [hm2]⟩

/-- `SimTimeStep` returns when the springs join particles that exist and
every particle has a velocity. -/
theorem SimTimeStep_returns (V : Vec3Class (Number K)) (dt : Number K)
    (positions velocities : List (Vec3 (Number K))) (springs : List (Spring (Number K)))
    (stiffness damping particleMass : Number K) (gravity : Vec3 (Number K))
    (restitution : Number K) (hv : velocities.length = positions.length)
    (hs : ∀ s ∈ springs, s.p0 < positions.length ∧ s.p1 < positions.length) :
    ∃ out, SimTimeStep V dt positions velocities springs stiffness damping particleMass gravity
      restitution = some out := by
  obtain ⟨forces, hforces, hlen⟩ := applySprings_returns V positions velocities stiffness damping
    hv springs hs (List.replicate positions.length ⟨.fin 0, .fin 0, .fin 0⟩) (by simp)
  obtain ⟨out, hout, _, _⟩ := updateAll_returns V dt particleMass restitution
    (forces.map fun f => V.inc f (V.mul gravity particleMass)) positions.length (by simp [hlen])
    positions.length (positions, velocities) (le_refl _) rfl hv
  refine ⟨out, ?_⟩
  unfold SimTimeStep
  simp only [Option.bind_eq_bind, hforces, Option.some_bind]
  exact hout

/-- C19 (amended): when `SimTimeStep` returns, there are as many positions as
before and every coordinate (`x`, `y` and `z`) of every particle position is
`NaN` or lies in [-1, 1], for every `dt`, springs, forces, velocities and
starting positions, finite or not, inside the box or not, and whatever the
methods of `Vec3` return; so every position without a `NaN` coordinate lies
in the box. -/
theorem SimTimeStep_nan_or_in_box (V : Vec3Class (Number K)) (dt : Number K)
    (positions velocities : List (Vec3 (Number K))) (springs : List (Spring (Number K)))
    (stiffness damping particleMass : Number K) (gravity : Vec3 (Number K))
    (restitution : Number K) (out : List (Vec3 (Number K)) × List (Vec3 (Number K)))
    (h : SimTimeStep V dt positions velocities springs stiffness damping particleMass gravity
      restitution = some out) :
    out.1.length = positions.length ∧ (∀ p ∈ out.1, NaNOrInBox p) ∧
      ∀ p ∈ out.1, p.x ≠ .nan → p.y ≠ .nan → p.z ≠ .nan → InBox p := by
  unfold SimTimeStep at h
  simp only [Option.bind_eq_bind, Option.bind_eq_some] at h
  obtain ⟨forces, _, hloop⟩ := h
  obtain ⟨hlen, hbox⟩ := updateAll_spec V dt particleMass restitution _ _ _ _ hloop
  have hall : ∀ p ∈ out.1, NaNOrInBox p := by
    intro p hp
    obtain ⟨j, hj, hjp⟩ := List.mem_iff_getElem.mp hp
    exact hbox j (by rw [← hlen]; exact hj) p (by rw [List.getElem?_eq_getElem hj, hjp])
  refine ⟨hlen, hall, fun p hp hx hy hz => ?_⟩
  obtain ⟨h1, h2, h3⟩ := hall p hp
  exact ⟨h1.resolve_left hx, h2.resolve_left hy, h3.resolve_left hz⟩

/-- The spring between (5,0,0) and (6,0,0), at its rest length, exerts no
force. -/
theorem applySpring_rest (sqrt : K → K) (h1 : sqrt 1 = 1) :
    applySpring (vec3Class sqrt)
        [⟨.fin 5, .fin 0, .fin 0⟩, ⟨.fin 6, .fin 0, .fin 0⟩]
        [⟨.fin 0, .fin 0, .fin 0⟩, ⟨.fin 0, .fin 0, .fin 0⟩] (.fin 10) (.fin 1)
        [⟨.fin 0, .fin 0, .fin 0⟩, ⟨.fin 0, .fin 0, .fin 0⟩] ⟨0, 1, .fin 1⟩
      = some [⟨.fin 0, .fin 0, .fin 0⟩, ⟨.fin 0, .fin 0, .fin 0⟩] := by
  norm_num [applySpring, vec3Class,
    Number.mul, Number.add, Number.sub, Number.neg, Number.div, Number.sqrt, h1]

/-- The spring between two particles at the same point: its direction is
0/0, and both forces are `NaN`. -/
theorem applySpring_coincident (sqrt : K → K) (h0 : sqrt 0 = 0) :
    applySpring (vec3Class sqrt)
        [⟨.fin 1, .fin (-1 / 10), .fin 0⟩, ⟨.fin 1, .fin (-1 / 10), .fin 0⟩]
        [⟨.fin 0, .fin (-1), .fin 0⟩, ⟨.fin 0, .fin (-1), .fin 0⟩] (.fin 10) (.fin 1)
        [⟨.fin 0, .fin 0, .fin 0⟩, ⟨.fin 0, .fin 0, .fin 0⟩] ⟨0, 1, .fin 1⟩
      = some [⟨.nan, .nan, .nan⟩, ⟨.nan, .nan, .nan⟩] := by
  norm_num [applySpring, vec3Class,
    Number.mul, Number.add, Number.sub, Number.neg, Number.div, Number.sqrt, Number.signedInf, h0]

/-- `NaN` absorbs the sum, the product and the quotient. -/
theorem Number.add_nan (a : Number K) : a.add .nan = .nan := by cases a <;> rfl

theorem Number.nan_add (a : Number K) : Number.add .nan a = .nan := by cases a <;> rfl

theorem Number.mul_nan (a : Number K) : a.mul .nan = .nan := by cases a <;> rfl

theorem Number.nan_mul (a : Number K) : Number.mul .nan a = .nan := by cases a <;> rfl

theorem Number.nan_div (a : Number K) : Number.div .nan a = .nan := by cases a <;> rfl

/-- Gravity (0,-10,0) on a particle of mass 1 that no spring pulls. -/
theorem gravityForce_finite (sqrt : K → K) (f : Vec3 (Number K)) (hf : f = ⟨.fin 0, .fin 0, .fin 0⟩) :
    (vec3Class sqrt).inc f ((vec3Class sqrt).mul ⟨.fin 0, .fin (-10), .fin 0⟩ (.fin 1))
      = ⟨.fin 0, .fin (-10), .fin 0⟩ := by
  subst hf
  norm_num [vec3Class, Number.mul, Number.add]

/-- A force that is `NaN` stays `NaN` when gravity is added. -/
theorem gravityForce_nan (sqrt : K → K) (g : Vec3 (Number K)) (k : Number K) :
    (vec3Class sqrt).inc ⟨.nan, .nan, .nan⟩ ((vec3Class sqrt).mul g k) = ⟨.nan, .nan, .nan⟩ := by
  simp [vec3Class, Number.nan_add]

/-- The update of the particle at (5,0,0): it moves to (5,-0.1,0) and is
clamped to the wall `x = 1`. -/
theorem updateParticle_clamped_zero (sqrt : K → K) (p v : Vec3 (Number K)) :
    updateParticle (vec3Class sqrt) (.fin (1 / 10)) (.fin 1) (.fin (1 / 2))
        [⟨.fin 0, .fin (-10), .fin 0⟩, ⟨.fin 0, .fin (-10), .fin 0⟩]
        ([⟨.fin 5, .fin 0, .fin 0⟩, p], [⟨.fin 0, .fin 0, .fin 0⟩, v]) 0
      = some ([⟨.fin 1, .fin (-1 / 10), .fin 0⟩, p], [⟨.fin 0, .fin (-1), .fin 0⟩, v]) := by
  simp only [updateParticle, List.getElem?_cons_zero, Option.bind_eq_bind, Option.some_bind,
    Option.pure_def, List.set_cons_zero]
  norm_num [collide, collideAxis, vec3Class,
    Number.mul, Number.add, Number.neg, Number.div, Number.lt, Number.gt]

/-- The update of the particle at (6,0,0). -/
theorem updateParticle_clamped_one (sqrt : K → K) (p v : Vec3 (Number K)) :
    updateParticle (vec3Class sqrt) (.fin (1 / 10)) (.fin 1) (.fin (1 / 2))
        [⟨.fin 0, .fin (-10), .fin 0⟩, ⟨.fin 0, .fin (-10), .fin 0⟩]
        ([p, ⟨.fin 6, .fin 0, .fin 0⟩], [v, ⟨.fin 0, .fin 0, .fin 0⟩]) 1
      = some ([p, ⟨.fin 1, .fin (-1 / 10), .fin 0⟩], [v, ⟨.fin 0, .fin (-1), .fin 0⟩]) := by
  simp only [updateParticle, List.getElem?_cons_succ, List.getElem?_cons_zero,
    Option.bind_eq_bind, Option.some_bind, Option.pure_def, List.set_cons_succ,
    List.set_cons_zero]
  norm_num [collide, collideAxis, vec3Class,
    Number.mul, Number.add, Number.neg, Number.div, Number.lt, Number.gt]

/-- The update of a particle whose force is `NaN`: its velocity and its
position become `NaN`, and the collision test leaves them so. -/
theorem updateParticle_nan_zero (sqrt : K → K) (dt m r : Number K) (f p v p' v' : Vec3 (Number K)) :
    updateParticle (vec3Class sqrt) dt m r [⟨.nan, .nan, .nan⟩, f] ([p, p'], [v, v']) 0
      = some ([⟨.nan, .nan, .nan⟩, p'], [⟨.nan, .nan, .nan⟩, v']) := by
  simp only [updateParticle, List.getElem?_cons_zero, Option.bind_eq_bind, Option.some_bind,
    Option.pure_def, List.set_cons_zero]
  simp [collide, collideAxis, vec3Class, Number.nan_mul, Number.add_nan, Number.nan_div,
    Number.lt, Number.gt]

/-- The update of the second particle when its force is `NaN`. -/
theorem updateParticle_nan_one (sqrt : K → K) (dt m r : Number K) (f p v p' v' : Vec3 (Number K)) :
    updateParticle (vec3Class sqrt) dt m r [f, ⟨.nan, .nan, .nan⟩] ([p', p], [v', v]) 1
      = some ([p', ⟨.nan, .nan, .nan⟩], [v', ⟨.nan, .nan, .nan⟩]) := by
  simp only [updateParticle, List.getElem?_cons_succ, List.getElem?_cons_zero,
    Option.bind_eq_bind, Option.some_bind, Option.pure_def, List.set_cons_succ,
    List.set_cons_zero]
  simp [collide, collideAxis, vec3Class, Number.nan_mul, Number.add_nan, Number.nan_div,
    Number.lt, Number.gt]

/-- One step on two particles at (5,0,0) and (6,0,0), at rest and joined by
a spring at its rest length: both are clamped to the wall `x = 1`, at the
same point. -/
theorem SimTimeStep_clamped (sqrt : K → K) (h1 : sqrt 1 = 1) :
    SimTimeStep (vec3Class sqrt) (.fin (1 / 10))
        [⟨.fin 5, .fin 0, .fin 0⟩, ⟨.fin 6, .fin 0, .fin 0⟩]
        [⟨.fin 0, .fin 0, .fin 0⟩, ⟨.fin 0, .fin 0, .fin 0⟩] [⟨0, 1, .fin 1⟩]
        (.fin 10) (.fin 1) (.fin 1) ⟨.fin 0, .fin (-10), .fin 0⟩ (.fin (1 / 2))
      = some ([⟨.fin 1, .fin (-1 / 10), .fin 0⟩, ⟨.fin 1, .fin (-1 / 10), .fin 0⟩],
          [⟨.fin 0, .fin (-1), .fin 0⟩, ⟨.fin 0, .fin (-1), .fin 0⟩]) := by
  have hr : List.range 2 = [0, 1] := rfl
  simp only [SimTimeStep, List.length_cons, List.length_nil, List.replicate, List.foldlM_cons,
    List.foldlM_nil, Option.bind_eq_bind, Option.pure_def, Nat.reduceAdd, zero_add, hr,
    applySpring_rest sqrt h1, Option.some_bind, Option.bind_some, List.map,
    gravityForce_finite sqrt _ rfl, updateParticle_clamped_zero, updateParticle_clamped_one]

/-- The next step, on the two particles at the same point: the spring has
length 0, its direction is 0/0, and every coordinate becomes `NaN`. -/
theorem SimTimeStep_coincident (sqrt : K → K) (h0 : sqrt 0 = 0) :
    SimTimeStep (vec3Class sqrt) (.fin (1 / 10))
        [⟨.fin 1, .fin (-1 / 10), .fin 0⟩, ⟨.fin 1, .fin (-1 / 10), .fin 0⟩]
        [⟨.fin 0, .fin (-1), .fin 0⟩, ⟨.fin 0, .fin (-1), .fin 0⟩] [⟨0, 1, .fin 1⟩]
        (.fin 10) (.fin 1) (.fin 1) ⟨.fin 0, .fin (-10), .fin 0⟩ (.fin (1 / 2))
      = some ([⟨.nan, .nan, .nan⟩, ⟨.nan, .nan, .nan⟩],
          [⟨.nan, .nan, .nan⟩, ⟨.nan, .nan, .nan⟩]) := by
  have hr : List.range 2 = [0, 1] := rfl
  simp only [SimTimeStep, List.length_cons, List.length_nil, List.replicate, List.foldlM_cons,
    List.foldlM_nil, Option.bind_eq_bind, Option.pure_def, Nat.reduceAdd, zero_add, hr,
    applySpring_coincident sqrt h0, Option.some_bind, Option.bind_some, List.map,
    gravityForce_nan, updateParticle_nan_zero, updateParticle_nan_one]

/-- C19, counterexample: over the reals, two particles at rest at (5,0,0) and
(6,0,0), joined by a spring at its rest length 1, with gravity (0,-10,0) and
`dt` = 0.1.  The first step clamps both particles to the same point
(1,-0.1,0).  In the second step the spring has length 0, `unit` divides 0
by 0, and every coordinate of both positions is `NaN` when `SimTimeStep`
returns: the positions do not lie in the box. -/
theorem SimTimeStep_coincident_counterexample :
    SimTimeStep (vec3Class Real.sqrt) (.fin (1 / 10))
        [⟨.fin 5, .fin 0, .fin 0⟩, ⟨.fin 6, .fin 0, .fin 0⟩]
        [⟨.fin 0, .fin 0, .fin 0⟩, ⟨.fin 0, .fin 0, .fin 0⟩] [⟨0, 1, .fin 1⟩]
        (.fin 10) (.fin 1) (.fin 1) ⟨.fin 0, .fin (-10), .fin 0⟩ (.fin (1 / 2))
      = some ([⟨.fin 1, .fin (-1 / 10), .fin 0⟩, ⟨.fin 1, .fin (-1 / 10), .fin 0⟩],
          [⟨.fin 0, .fin (-1), .fin 0⟩, ⟨.fin 0, .fin (-1), .fin 0⟩]) ∧
    SimTimeStep (vec3Class Real.sqrt) (.fin (1 / 10))
        [⟨.fin 1, .fin (-1 / 10), .fin 0⟩, ⟨.fin 1, .fin (-1 / 10), .fin 0⟩]
        [⟨.fin 0, .fin (-1), .fin 0⟩, ⟨.fin 0, .fin (-1), .fin 0⟩] [⟨0, 1, .fin 1⟩]
        (.fin 10) (.fin 1) (.fin 1) ⟨.fin 0, .fin (-10), .fin 0⟩ (.fin (1 / 2))
      = some ([⟨.nan, .nan, .nan⟩, ⟨.nan, .nan, .nan⟩],
          [⟨.nan, .nan, .nan⟩, ⟨.nan, .nan, .nan⟩]) ∧
    ¬ InBox (⟨.nan, .nan, .nan⟩ : Vec3 (Number ℝ)) :=
  ⟨SimTimeStep_clamped Real.sqrt Real.sqrt_one, SimTimeStep_coincident Real.sqrt Real.sqrt_zero,
    fun h => h.1⟩

/-- Witness of `SimTimeStep_nan_or_in_box`: over the reals, the two particles
at (5,0,0) and (6,0,0), outside the box, are moved to (1,-0.1,0). -/
theorem SimTimeStep_nan_or_in_box_witness :
    SimTimeStep (vec3Class Real.sqrt) (.fin (1 / 10))
        [⟨.fin 5, .fin 0, .fin 0⟩, ⟨.fin 6, .fin 0, .fin 0⟩]
        [⟨.fin 0, .fin 0, .fin 0⟩, ⟨.fin 0, .fin 0, .fin 0⟩] [⟨0, 1, .fin 1⟩]
        (.fin 10) (.fin 1) (.fin 1) ⟨.fin 0, .fin (-10), .fin 0⟩ (.fin (1 / 2))
      = some ([⟨.fin 1, .fin (-1 / 10), .fin 0⟩, ⟨.fin 1, .fin (-1 / 10), .fin 0⟩],
          [⟨.fin 0, .fin (-1), .fin 0⟩, ⟨.fin 0, .fin (-1), .fin 0⟩]) ∧
    ∀ p ∈ ([⟨.fin 1, .fin (-1 / 10), .fin 0⟩, ⟨.fin 1, .fin (-1 / 10), .fin 0⟩] :
        List (Vec3 (Number ℝ))), NaNOrInBox p :=
  ⟨SimTimeStep_clamped Real.sqrt Real.sqrt_one,
    (SimTimeStep_nan_or_in_box (vec3Class Real.sqrt) (.fin (1 / 10))
      [⟨.fin 5, .fin 0, .fin 0⟩, ⟨.fin 6, .fin 0, .fin 0⟩]
      [⟨.fin 0, .fin 0, .fin 0⟩, ⟨.fin 0, .fin 0, .fin 0⟩] [⟨0, 1, .fin 1⟩]
      (.fin 10) (.fin 1) (.fin 1) ⟨.fin 0, .fin (-10), .fin 0⟩ (.fin (1 / 2)) _
      (SimTimeStep_clamped Real.sqrt Real.sqrt_one)).2.1⟩

/-- C20: for every argument, `setShininess` uploads the shininess itself when
it is > 0 and 0.001 otherwise, so the uploaded exponent is strictly
positive. -/
theorem setShininess_positive (shininess : K) :
    setShininess shininess = (if shininess > 0 then shininess else 1 / 1000) ∧
    0 < setShininess shininess := by
  refine ⟨rfl, ?_⟩
  unfold setShininess
  split_ifs with h
  · exact h
  · norm_num

end Proofs

end Animations
